import Mathlib

/-!
# freelanceDAO front end: read-model builds

A shallow embedding of the read path of the freelanceDAO front end:

* `ViewProjects.fetchProjects` (`components/ViewProjects.js`), which scans the
  ledger for the open marketplace list;
* `Dashboard.fetchStats` (`pages/Dashboard.js`) and `Profile.fetchStats`
  (`pages/Profile.js`), which scan the ledger and publish per-account
  statistics.

Asynchronous ledger calls become pure functions of an explicit `Contract`
value whose reads either return a value or throw; every build also returns
the list of ledger reads it issued, in the order it issued them.  React state
is passed explicitly: a handler maps the component state before the call to
the component state after it.
-/

namespace FreelanceDAO

/-! ## Ledger records -/

/-- An account identifier as the front end sees it: the address string. -/
abbrev Address := String

/-- The constant `ethers.ZeroAddress`. -/
def ZeroAddress : Address := "0x0000000000000000000000000000000000000000"

/-- One record as returned by `contract.projects(i)`, decoded by ethers v6,
which gives every ledger integer as a bigint: so are `amount` (in wei) and
`deadline` (in seconds since the epoch). -/
structure Project where
  name : String
  description : String
  amount : Nat
  freelancer : Address
  client : Address
  deadline : Nat
  isAccepted : Bool
  isCompleted : Bool
deriving DecidableEq, Repr

/-- A value thrown by a rejected ledger call. -/
structure JsError where
  code : String
  message : String
deriving DecidableEq, Repr

/-- The two read calls of the ledger contract used by the builds.  Each call
either resolves to a value or rejects with an error. -/
structure Contract where
  nextProjectId : Except JsError Nat
  projects : Nat → Except JsError Project

/-- A ledger read issued by a build. -/
inductive LedgerRead where
  | nextProjectId
  | projects (i : Nat)
deriving DecidableEq, Repr

/-- A healthy contract over a ledger holding the records `ledger`, record `i`
at index `i`: the count read returns the number of records and reading an
index outside the ledger rejects. -/
def Contract.ofLedger (ledger : List Project) : Contract where
  nextProjectId := .ok ledger.length
  projects := fun i =>
    match ledger[i]? with
    | some p => .ok p
    | none => .error ⟨"CALL_EXCEPTION", "no record at this index"⟩

/-! ## Amount formatting (`ethers.formatEther`) -/

/-- Left-pad a digit list with `'0'` up to `width` characters. -/
def padZeros (width : Nat) (digits : List Char) : List Char :=
  List.replicate (width - digits.length) '0' ++ digits

/-- Drop trailing `'0'` characters, keeping at least one digit. -/
def trimTrailingZeros (digits : List Char) : List Char :=
  match (digits.reverse.dropWhile (fun c => c == '0')).reverse with
  | [] => ['0']
  | ds => ds

/-- The library function `ethers.formatEther` (ethers v6) on a non-negative
amount: the whole part in decimal, a decimal point, and the 18-digit
fractional part with trailing zeros removed but at least one digit kept
(`formatEther(10n ** 17n) = "0.1"`, `formatEther(0n) = "0.0"`). -/
def formatEther (wei : Nat) : String :=
  String.mk (Nat.toDigits 10 (wei / 10 ^ 18) ++
    '.' :: trimTrailingZeros (padZeros 18 (Nat.toDigits 10 (wei % 10 ^ 18))))

/-! ## Age labels (`getTimeAgo`) -/

/-- `getTimeAgo` of `ViewProjects.js`, with the clock reading `Date.now()`
passed in as `now`.  `Math.floor(x / y)` is floor division and `%` is the
JavaScript remainder, which truncates towards zero. -/
def getTimeAgo (now : Int) (timestamp : Int) : String :=
  let diff := now - timestamp
  let days := Int.fdiv diff (1000 * 60 * 60 * 24)
  let hours := Int.fdiv (Int.tmod diff (1000 * 60 * 60 * 24)) (1000 * 60 * 60)
  if days > 0 then
    toString days ++ " day" ++ (if days > 1 then "s" else "") ++ " ago"
  else if hours > 0 then
    toString hours ++ " hour" ++ (if hours > 1 then "s" else "") ++ " ago"
  else
    "Just now"

/-! ## JavaScript values of the build: bigints, Numbers and Dates -/

/-- The operand kinds of the arithmetic in `fetchProjects`: a ledger integer
decoded by ethers v6 is a bigint; a literal such as `1000` and a clock reading
are Numbers.  The Numbers of this embedding are integers (indices, counts of
seconds and of milliseconds, all far below `2 ^ 53`), as in `getTimeAgo`. -/
inductive JsNumeric where
  | bigint (value : Int)
  | number (value : Int)
deriving DecidableEq, Repr

/-- The `TypeError` thrown when an arithmetic operator is given a bigint and a
Number. -/
def mixedOperands : JsError :=
  ⟨"TypeError", "Cannot mix BigInt and other types, use explicit conversions"⟩

/-- The JavaScript operator `*`: two bigints give a bigint, two Numbers give a
Number, and a bigint with a Number throws a `TypeError`. -/
def JsNumeric.times : JsNumeric → JsNumeric → Except JsError JsNumeric
  | JsNumeric.bigint a, JsNumeric.bigint b => .ok (JsNumeric.bigint (a * b))
  | JsNumeric.number a, JsNumeric.number b => .ok (JsNumeric.number (a * b))
  | _, _ => .error mixedOperands

/-- A JavaScript `Date`: a time value in milliseconds since the epoch, at most
8.64e15 in absolute value, or an Invalid Date (time value `NaN`). -/
inductive JsDate where
  | valid (time : Int) (inRange : time.natAbs ≤ 8640000000000000)
  | invalid
deriving DecidableEq, Repr

/-- The `Date` with time value `TimeClip(ms)`: beyond 8.64e15 milliseconds on
either side of the epoch the date is invalid. -/
def JsDate.ofMillis (ms : Int) : JsDate :=
  if h : ms.natAbs ≤ 8640000000000000 then JsDate.valid ms h else JsDate.invalid

/-- The constructor call `new Date(value)`: a Number is clipped to a time value,
a bigint cannot be converted to a Number and throws a `TypeError`. -/
def JsDate.new : JsNumeric → Except JsError JsDate
  | JsNumeric.number ms => .ok (JsDate.ofMillis ms)
  | JsNumeric.bigint _ => .error ⟨"TypeError", "Cannot convert a BigInt value to a number"⟩

/-- The time value of a valid date, `0` for an Invalid Date. -/
def JsDate.timeValue : JsDate → Int
  | JsDate.valid time _ => time
  | JsDate.invalid => 0

/-- What `Array.prototype.sort` reads from the difference `x - y` of two
Dates, as an integer of the same sign: the difference of their time values
(which the Number may round, without changing its sign), and `0` when either
date is invalid, since the difference is then `NaN` and `sort` takes a `NaN`
from its comparator as `0`. -/
def JsDate.difference : JsDate → JsDate → Int
  | JsDate.valid x _, JsDate.valid y _ => x - y
  | _, _ => 0

/-- The call `getTimeAgo(timestamp)` on a value of either kind: on a Number it
is `getTimeAgo`; on a bigint the subtraction `now - timestamp` throws. -/
def getTimeAgoOf (now : Int) : JsNumeric → Except JsError String
  | JsNumeric.number timestamp => .ok (getTimeAgo now timestamp)
  | JsNumeric.bigint _ => .error mixedOperands

/-! ## The ledger scan shared by the three builds -/

/-- The loop `for (let i = 0; i < projectCount; i++) { const project = await
contract.projects(i); body }` started at index `i` with `remaining =
projectCount - i` iterations left.  A rejected read leaves the loop at once
with the error.  The second component lists the reads issued, in order. -/
def scanProjects {σ : Type} (contract : Contract) (body : Nat → Project → σ → σ) :
    Nat → Nat → σ → Except JsError σ × List LedgerRead
  | 0, _, acc => (.ok acc, [])
  | remaining + 1, i, acc =>
    match contract.projects i with
    | .error e => (.error e, [LedgerRead.projects i])
    | .ok project =>
      let rest := scanProjects contract body remaining (i + 1) (body i project acc)
      (rest.1, LedgerRead.projects i :: rest.2)

/-- The same loop with a body that can throw, as the body of `fetchProjects`
can: an error thrown by the body leaves the loop at once, after the read of
that iteration. -/
def scanProjectsThrowing {σ : Type} (contract : Contract)
    (body : Nat → Project → σ → Except JsError σ) :
    Nat → Nat → σ → Except JsError σ × List LedgerRead
  | 0, _, acc => (.ok acc, [])
  | remaining + 1, i, acc =>
    match contract.projects i with
    | .error e => (.error e, [LedgerRead.projects i])
    | .ok project =>
      match body i project acc with
      | .error e => (.error e, [LedgerRead.projects i])
      | .ok next =>
        let rest := scanProjectsThrowing contract body remaining (i + 1) next
        (rest.1, LedgerRead.projects i :: rest.2)

/-! ## `ViewProjects.fetchProjects` -/

/-- The `message` state of a component. -/
structure Message where
  type : String
  text : String
deriving DecidableEq, Repr

/-- An entry of the `projects` state of `ViewProjects`: the record's own
fields (`...project`) followed by the derived ones. -/
structure ListedProject extends Project where
  id : Nat
  formattedAmount : String
  deadlineDate : JsDate
  timeAgo : String
deriving DecidableEq, Repr

/-- The React state of the `ViewProjects` component. -/
structure ViewProjectsState where
  projects : List ListedProject
  selectedProject : Option ListedProject
  modalIsOpen : Bool
  buying : Bool
  message : Message
  loading : Bool
  searchTerm : String
  sortBy : String
  filterBy : String
deriving DecidableEq, Repr

/-- The initial state set up by the `useState` calls of `ViewProjects`. -/
def ViewProjectsState.init : ViewProjectsState where
  projects := []
  selectedProject := none
  modalIsOpen := false
  buying := false
  message := ⟨"", ""⟩
  loading := true
  searchTerm := ""
  sortBy := "newest"
  filterBy := "all"

/-- The object literal pushed onto `allProjects` for the record read at index
`i`, its properties evaluated in source order; `now` is the clock reading that
`getTimeAgo` would take.  The product `project.deadline * 1000` multiplies the
bigint `deadline` by a Number. -/
def listProject (now : Int) (i : Nat) (project : Project) : Except JsError ListedProject := do
  let formattedAmount := formatEther project.amount
  let deadlineMs ← JsNumeric.times (JsNumeric.bigint project.deadline) (JsNumeric.number 1000)
  let deadlineDate ← JsDate.new deadlineMs
  let timestamp ← JsNumeric.times (JsNumeric.bigint project.deadline) (JsNumeric.number 1000)
  let timeAgo ← getTimeAgoOf now timestamp
  pure { toProject := project, id := i, formattedAmount := formattedAmount,
         deadlineDate := deadlineDate, timeAgo := timeAgo }

/-- The body of the loop of `fetchProjects`: only for a record whose client is
the zero address is an entry built and pushed.  `clock i` is the clock reading
while record `i` is processed. -/
def fetchProjectsBody (clock : Nat → Int) (i : Nat) (project : Project)
    (allProjects : List ListedProject) : Except JsError (List ListedProject) :=
  if project.client = ZeroAddress then
    (listProject (clock i) i project).map (fun entry => allProjects ++ [entry])
  else
    .ok allProjects

/-- The handler `fetchProjects` of `ViewProjects.js`: the state after the call
and the ledger reads issued.  Without a contract it returns at once; an error
thrown inside the `try`, by a rejected read or by the loop body, is caught,
sets the error message and publishes no list; in both outcomes of the `try`
the `finally` clears `loading`. -/
def fetchProjects (contract : Option Contract) (clock : Nat → Int)
    (st : ViewProjectsState) : ViewProjectsState × List LedgerRead :=
  match contract with
  | none => (st, [])
  | some c =>
    match c.nextProjectId with
    | .error _ =>
      ({ st with message := ⟨"error", "Error loading projects"⟩, loading := false },
        [LedgerRead.nextProjectId])
    | .ok projectCount =>
      match scanProjectsThrowing c (fetchProjectsBody clock) projectCount 0 [] with
      | (.ok allProjects, reads) =>
        ({ st with projects := allProjects, loading := false },
          LedgerRead.nextProjectId :: reads)
      | (.error _, reads) =>
        ({ st with message := ⟨"error", "Error loading projects"⟩, loading := false },
          LedgerRead.nextProjectId :: reads)

/-! ## JavaScript numbers (IEEE 754 binary64), non-negative part -/

/-- A non-negative JavaScript number.  Every finite binary64 value is a
multiple of `2 ^ (-1074)`; `finite k` is the value `k * 2 ^ (-1074)`, so each
finite value has exactly one representation. -/
inductive F64 where
  | finite (units : Nat)
  | infinity
  | nan
deriving DecidableEq, Repr

/-- Number of binary digits of `n` added to `acc`, by halving `n` until it is
zero; `fuel` bounds the number of halvings and `n` itself is always enough. -/
def bitLength : Nat → Nat → Nat → Nat
  | 0, _, acc => acc
  | fuel + 1, n, acc => if n = 0 then acc else bitLength fuel (n / 2) (acc + 1)

/-- Round the non-negative rational `num / den` (`den > 0`), measured in units
of `2 ^ (-1074)`, to binary64: keep 53 significant bits, round to nearest with
ties to even, and overflow to infinity from `2 ^ 1024` on. -/
def F64.round (num den : Nat) : F64 :=
  let q0 := num / den
  let shift := bitLength q0 q0 0 - 53
  let d := den * 2 ^ shift
  let q := num / d
  let r := num % d
  let q1 := if d < 2 * r ∨ (2 * r = d ∧ q % 2 = 1) then q + 1 else q
  let units := q1 * 2 ^ shift
  if units < 2 ^ 2098 then F64.finite units else F64.infinity

/-- The number `0`. -/
def F64.zero : F64 := F64.finite 0

/-- Addition `x + y` of non-negative JavaScript numbers: the exact sum rounded
to binary64. -/
def F64.add : F64 → F64 → F64
  | F64.finite a, F64.finite b => F64.round (a + b) 1
  | F64.nan, _ => F64.nan
  | _, F64.nan => F64.nan
  | _, _ => F64.infinity

/-- Value of a decimal digit character. -/
def digitValue (c : Char) : Nat := c.toNat - '0'.toNat

/-- The natural number written by a list of decimal digits. -/
def digitsValue (ds : List Char) : Nat :=
  ds.foldl (fun n c => 10 * n + digitValue c) 0

/-- `Number(s)` on unsigned decimal literals, the strings `formatEther`
produces: digits with an optional `.` followed by digits are converted to the
nearest binary64 value.  Signs, exponents, white space and the empty string
are outside this fragment; every string outside it is mapped to `NaN`. -/
def Number (s : String) : F64 :=
  let whole := s.data.takeWhile (fun c => c != '.')
  let frac := (s.data.dropWhile (fun c => c != '.')).drop 1
  if (whole ++ frac).all Char.isDigit ∧ (whole ++ frac) ≠ [] then
    F64.round (digitsValue (whole ++ frac) * 2 ^ 1074) (10 ^ frac.length)
  else
    F64.nan

/-- The proposition that the number `x` is exactly the rational `num / den`. -/
def F64.IsExactly (x : F64) (num den : Nat) : Prop :=
  match x with
  | F64.finite units => units * den = num * 2 ^ 1074
  | _ => False

instance (x : F64) (num den : Nat) : Decidable (F64.IsExactly x num den) := by
  unfold F64.IsExactly
  cases x <;> infer_instance

/-! ## `Dashboard.fetchStats` -/

/-- The `stats` state of `Dashboard`. -/
structure DashboardStats where
  totalProjects : Nat
  activeProjects : Nat
  completedProjects : Nat
  totalEarnings : F64
deriving DecidableEq, Repr

/-- The initial `stats` of `Dashboard`. -/
def DashboardStats.init : DashboardStats := ⟨0, 0, 0, F64.zero⟩

/-- The local variables `activeCount`, `completedCount`, `totalEarnings` of
`Dashboard.fetchStats`. -/
structure DashboardCounters where
  activeCount : Nat
  completedCount : Nat
  totalEarnings : F64
deriving DecidableEq, Repr

/-- The body of the loop of `Dashboard.fetchStats`.  `account` is the value
taken from the user context, `none` while nobody is signed in. -/
def dashboardBody (account : Option Address) (_i : Nat) (project : Project)
    (acc : DashboardCounters) : DashboardCounters :=
  if some project.freelancer = account then
    if project.isCompleted then
      { acc with
        completedCount := acc.completedCount + 1
        totalEarnings := F64.add acc.totalEarnings (Number (formatEther project.amount)) }
    else if project.isAccepted then
      { acc with activeCount := acc.activeCount + 1 }
    else acc
  else acc

namespace Dashboard

/-- The function `fetchStats(contractInstance)` of `Dashboard.js`: the `stats`
state after the call and the ledger reads issued.  A rejected read is caught
and only logged, so `stats` keeps its value. -/
def fetchStats (contractInstance : Contract) (account : Option Address)
    (stats : DashboardStats) : DashboardStats × List LedgerRead :=
  match contractInstance.nextProjectId with
  | .error _ => (stats, [LedgerRead.nextProjectId])
  | .ok projectCount =>
    match scanProjects contractInstance (dashboardBody account) projectCount 0
        ⟨0, 0, F64.zero⟩ with
    | (.ok acc, reads) =>
      ({ totalProjects := projectCount
         activeProjects := acc.activeCount
         completedProjects := acc.completedCount
         totalEarnings := acc.totalEarnings },
        LedgerRead.nextProjectId :: reads)
    | (.error _, reads) => (stats, LedgerRead.nextProjectId :: reads)

end Dashboard

/-! ## `Profile.fetchStats` -/

/-- The `stats` state of `Profile`. -/
structure ProfileStats where
  totalProjects : Nat
  completedProjects : Nat
  totalEarnings : F64
  reputation : Nat
deriving DecidableEq, Repr

/-- The initial `stats` of `Profile`. -/
def ProfileStats.init : ProfileStats := ⟨0, 0, F64.zero, 0⟩

/-- The local variables `completedCount`, `totalEarnings` of
`Profile.fetchStats`. -/
structure ProfileCounters where
  completedCount : Nat
  totalEarnings : F64
deriving DecidableEq, Repr

/-- The body of the loop of `Profile.fetchStats`. -/
def profileBody (account : Option Address) (_i : Nat) (project : Project)
    (acc : ProfileCounters) : ProfileCounters :=
  if some project.freelancer = account then
    if project.isCompleted then
      { completedCount := acc.completedCount + 1
        totalEarnings := F64.add acc.totalEarnings (Number (formatEther project.amount)) }
    else acc
  else acc

/-- The injected wallet `window.ethereum` as `Profile.fetchStats` uses it:
`getSigner` either rejects or yields the signer the contract object is built
on. -/
structure Ethereum where
  getSigner : Except JsError Contract

/-- JavaScript falsiness of the `account` value: `null` and the empty string. -/
def accountMissing (account : Option Address) : Bool :=
  match account with
  | none => true
  | some a => a == ""

namespace Profile

/-- The function `fetchStats` of `Profile.js`: the `stats` state after the
call and the ledger reads issued.  It returns at once without a wallet or an
account; a rejected call is caught and only logged. -/
def fetchStats (ethereum : Option Ethereum) (account : Option Address)
    (stats : ProfileStats) : ProfileStats × List LedgerRead :=
  match ethereum with
  | none => (stats, [])
  | some eth =>
    if accountMissing account then (stats, [])
    else
      match eth.getSigner with
      | .error _ => (stats, [])
      | .ok freelanceDAO =>
        match freelanceDAO.nextProjectId with
        | .error _ => (stats, [LedgerRead.nextProjectId])
        | .ok projectCount =>
          match scanProjects freelanceDAO (profileBody account) projectCount 0
              ⟨0, F64.zero⟩ with
          | (.ok acc, reads) =>
            ({ totalProjects := projectCount
               completedProjects := acc.completedCount
               totalEarnings := acc.totalEarnings
               reputation := acc.completedCount * 10 },
              LedgerRead.nextProjectId :: reads)
          | (.error _, reads) => (stats, LedgerRead.nextProjectId :: reads)

end Profile

/-! ## Lifecycle classes used by the builds -/

/-- The test under which `fetchProjects` lists a record: its client is the
zero address. -/
def isOpen (p : Project) : Bool := decide (p.client = ZeroAddress)

/-- The test under which `Dashboard.fetchStats` counts a record of the account
as active: it is not completed and it is accepted. -/
def isActive (p : Project) : Bool := !p.isCompleted && p.isAccepted

/-- The test under which the statistics count a record of the account as
completed. -/
def isCompleted (p : Project) : Bool := p.isCompleted

/-! ## Specification-side vocabulary -/

/-- The result of running a loop body over the records `xs`, the first of
which sits at ledger index `i`, in increasing index order. -/
def foldFrom {σ : Type} (body : Nat → Project → σ → σ) : Nat → List Project → σ → σ
  | _, [], acc => acc
  | i, p :: ps, acc => foldFrom body (i + 1) ps (body i p acc)

/-- The reads of a complete scan of `count` records: index `0`, `1`, ...,
`count - 1`, each once, in this order. -/
def fullScan (count : Nat) : List LedgerRead :=
  (List.range count).map LedgerRead.projects

/-- Every record read of a ledger of `count` records succeeds. -/
def AllReadsSucceed (c : Contract) (count : Nat) : Prop :=
  c.nextProjectId = .ok count ∧ ∀ i, i < count → ∃ p, c.projects i = .ok p

/-- The count read fails, or it returns `count` and the read of some record
below `count` fails. -/
def SomeReadFails (c : Contract) : Prop :=
  (∃ e, c.nextProjectId = .error e) ∨
    ∃ count, c.nextProjectId = .ok count ∧ ∃ j, j < count ∧ ∃ e, c.projects j = .error e

/-- A contract whose ledger has three records and whose read of record `2`
rejects. -/
def failingAtTwo : Contract where
  nextProjectId := .ok 3
  projects := fun i =>
    if i = 2 then .error ⟨"CALL_EXCEPTION", "NotFound"⟩
    else .ok ⟨"job", "work", 10 ^ 17, "0xA1", "0xC1", 1700000000, true, false⟩

/-- The entry that the object literal of `fetchProjects` describes for the
record at index `i`, with the deadline taken as a count of seconds: the
record's fields, `id = i`, the formatted amount, the date `deadline * 1000`
milliseconds after the epoch and its age label at clock reading `now`. -/
def ListedProject.ofRecord (now : Int) (i : Nat) (project : Project) : ListedProject where
  toProject := project
  id := i
  formattedAmount := formatEther project.amount
  deadlineDate := JsDate.ofMillis ((project.deadline : Int) * 1000)
  timeAgo := getTimeAgo now ((project.deadline : Int) * 1000)

/-- The entries `fetchProjects` is to publish for the records `xs` starting at
ledger index `i`: the records with the zero client, in index order. -/
def openEntries (clock : Nat → Int) (i : Nat) (xs : List Project) : List ListedProject :=
  ((xs.enumFrom i).filter (fun ip => decide (ip.2.client = ZeroAddress))).map
    (fun ip => ListedProject.ofRecord (clock ip.1) ip.1 ip.2)

/-- No record below `count` is open: every record read below `count` returns a
record with a client set. -/
def NoOpenRecord (c : Contract) (count : Nat) : Prop :=
  ∀ i, i < count → ∀ p, c.projects i = .ok p → p.client ≠ ZeroAddress

/-- Index `k` holds the first open record: the read of `k` returns a record
with the zero client, and every earlier read returns a record with a client
set. -/
def FirstOpenRecord (c : Contract) (k : Nat) : Prop :=
  (∃ p, c.projects k = .ok p ∧ p.client = ZeroAddress) ∧
    ∀ i, i < k → ∃ p, c.projects i = .ok p ∧ p.client ≠ ZeroAddress

/-- A healthy ledger of two records, the first open and the second accepted. -/
def twoRecords : List Project :=
  [⟨"a", "b", 1, "0xA1", ZeroAddress, 5, false, false⟩,
   ⟨"c", "d", 2, "0xA1", "0xC1", 6, true, false⟩]

/-- The test `project.freelancer === account` of the statistics loops. -/
def createdBy (account : Option Address) (p : Project) : Bool :=
  decide (some p.freelancer = account)

/-- The running total `totalEarnings += Number(ethers.formatEther(amount))`
over the records `xs`, taken in order and started from `start`. -/
def floatSum (xs : List Project) (start : F64) : F64 :=
  xs.foldl (fun total p => F64.add total (Number (formatEther p.amount))) start

/-- A ledger whose only record was created by another account. -/
def foreignRecord : List Project :=
  [⟨"logo", "draw a logo", 10 ^ 18, "0xB2", ZeroAddress, 1700000000, false, false⟩]

/-- A ledger whose only record, created by `0xA1`, carries the accepted flag
although no client is set. -/
def flaggedWithoutClient : List Project :=
  [⟨"logo", "draw a logo", 10 ^ 18, "0xA1", ZeroAddress, 1700000000, true, false⟩]

/-- A ledger with two completed records of `0xA1`, of 0.1 and 0.2 ether. -/
def tenthAndFifth : List Project :=
  [⟨"one", "first", 10 ^ 17, "0xA1", "0xC1", 1700000000, true, true⟩,
   ⟨"two", "second", 2 * 10 ^ 17, "0xA1", "0xC1", 1700000000, true, true⟩]

/-- The ledger of the scenario: two completed records of `0xA1` with amounts
50000000000000000 and 30000000000000000 wei. -/
def scenarioEarnings : List Project :=
  [⟨"one", "first", 50000000000000000, "0xA1", "0xC1", 1700000000, true, true⟩,
   ⟨"two", "second", 30000000000000000, "0xA1", "0xC1", 1700000000, true, true⟩]

/-- The number of lifecycle classes of the builds that a record falls in. -/
def classCount (p : Project) : Nat :=
  (isOpen p).toNat + (isActive p).toNat + (isCompleted p).toNat

/-- The flags of a record agree with the ledger lifecycle: `isAccepted` holds
exactly when a client is set, and a completed record is accepted. -/
def Project.Consistent (p : Project) : Prop :=
  (p.isAccepted = true ↔ p.client ≠ ZeroAddress) ∧
    (p.isCompleted = true → p.isAccepted = true)

/-- A record of `0xA1`, worth one ether, that is completed although it was
never accepted and has no client. -/
def completedUnaccepted : Project :=
  ⟨"logo", "draw a logo", 10 ^ 18, "0xA1", ZeroAddress, 1700000000, false, true⟩

/-- A record of `0xA1`, worth one ether, that is completed and has a client
set although its accepted flag is false. -/
def completedNeverFlagged : Project :=
  ⟨"logo", "draw a logo", 10 ^ 18, "0xA1", "0xC1", 1700000000, false, true⟩

/-- A record with a client set whose two flags are both false. -/
def clientWithoutFlags : Project :=
  ⟨"logo", "draw a logo", 10 ^ 18, "0xA1", "0xC1", 1700000000, false, false⟩

/-- A completed record of `account`, worth one ether. -/
def completedRecord (account : Address) : Project :=
  ⟨"logo", "draw a logo", 10 ^ 18, account, "0xC1", 1700000000, true, true⟩

/-! ## The query over the marketplace list (`filteredAndSortedProjects`) -/

/-- The text holds ASCII characters only. -/
def isAscii (s : String) : Bool := s.data.all (fun c => c.toNat < 128)

/-- Lower-casing of ASCII text: `A`..`Z` are mapped to `a`..`z` and every other
character is left as it is. -/
def asciiToLowerCase (s : String) : String := String.mk (s.data.map Char.toLower)

/-- Upper-casing of ASCII text: `a`..`z` are mapped to `A`..`Z`. -/
def asciiToUpperCase (s : String) : String := String.mk (s.data.map Char.toUpper)

/-- The built-in `String.prototype.toLowerCase` of the JavaScript engine.  Its
Unicode case tables are not part of the repository, so the function is a
parameter of the query; what is fixed about it is its value on ASCII text,
where every engine maps `A`..`Z` to `a`..`z` and changes nothing else. -/
structure CaseTables where
  toLowerCase : String → String
  onAscii : ∀ s : String, isAscii s = true → toLowerCase s = asciiToLowerCase s

/-- Case tables that fold the ASCII letters and nothing else; on ASCII text
they give what every engine gives. -/
def asciiTables : CaseTables where
  toLowerCase := asciiToLowerCase
  onAscii := fun _ _ => rfl

/-- Whether the characters `t` occur as a contiguous block in `s`. -/
def includesChars : List Char → List Char → Bool
  | [], t => t.isPrefixOf []
  | c :: s, t => t.isPrefixOf (c :: s) || includesChars s t

/-- `s.includes(t)`: `t` is a substring of `s`. -/
def includes (s t : String) : Bool := includesChars s.data t.data

/-- The value `matchesSearch` of the filter callback. -/
def matchesSearch (js : CaseTables) (searchTerm : String) (project : ListedProject) : Bool :=
  includes (js.toLowerCase project.name) (js.toLowerCase searchTerm) ||
    includes (js.toLowerCase project.description) (js.toLowerCase searchTerm)

/-- The value `matchesFilter` of the filter callback. -/
def matchesFilter (filterBy : String) (project : ListedProject) : Bool :=
  filterBy == "all" ||
    (filterBy == "recent" && includes project.timeAgo "hour") ||
    (filterBy == "today" && includes project.timeAgo "day")

/-- `parseFloat(s)` on unsigned decimal text: the longest leading run of
digits, optionally followed by `.` and digits, is converted to the nearest
binary64 value; without any leading digit the result is `NaN`.  Leading white
space, signs, exponents and `Infinity` are outside the modelled fragment. -/
def parseFloat (s : String) : F64 :=
  let whole := s.data.takeWhile Char.isDigit
  let frac :=
    match s.data.dropWhile Char.isDigit with
    | '.' :: more => more.takeWhile Char.isDigit
    | _ => []
  if whole ++ frac = [] then F64.nan
  else F64.round (digitsValue (whole ++ frac) * 2 ^ 1074) (10 ^ frac.length)

/-- The sign of the JavaScript difference `x - y` of two non-negative numbers:
`-1`, `0` or `1`.  The difference of two equal numbers is `0`; a difference
that is `NaN` (`Infinity - Infinity`, or an operand `NaN`) is given as `0`,
which is how `Array.prototype.sort` reads a `NaN` from its comparator. -/
def F64.differenceSign : F64 → F64 → Int
  | F64.finite a, F64.finite b => if a < b then -1 else if b < a then 1 else 0
  | F64.infinity, F64.finite _ => 1
  | F64.finite _, F64.infinity => -1
  | _, _ => 0

/-- The order `x <= y` of JavaScript numbers; `NaN` is comparable to nothing. -/
def F64.le : F64 → F64 → Bool
  | F64.finite a, F64.finite b => decide (a ≤ b)
  | F64.finite _, F64.infinity => true
  | F64.infinity, F64.infinity => true
  | _, _ => false

/-- The comparator passed to `.sort`, as the sign-carrying number it returns
for the pair `(a, b)`. -/
def compareProjects (sortBy : String) (a b : ListedProject) : Int :=
  if sortBy = "newest" then JsDate.difference b.deadlineDate a.deadlineDate
  else if sortBy = "oldest" then JsDate.difference a.deadlineDate b.deadlineDate
  else if sortBy = "price-high" then
    F64.differenceSign (parseFloat b.formattedAmount) (parseFloat a.formattedAmount)
  else if sortBy = "price-low" then
    F64.differenceSign (parseFloat a.formattedAmount) (parseFloat b.formattedAmount)
  else 0

/-- `Array.prototype.sort(compare)`: the sort is stable, and `a` is placed
before `b` when `compare(a, b)` is negative.  It is computed here by insertion,
each element being put in front of the first element it does not have to
follow.  For a comparator that orders the list consistently every stable sort
gives this list; for one that does not (a `NaN` between some pairs only) the
language leaves the order to the engine, and insertion gives the order in
which no comparison asks for a move. -/
def sortProjects (compare : ListedProject → ListedProject → Int)
    (projects : List ListedProject) : List ListedProject :=
  projects.insertionSort (fun a b => compare a b ≤ 0)

/-- The derived list `filteredAndSortedProjects` of `ViewProjects.js`. -/
def filteredAndSortedProjects (js : CaseTables) (st : ViewProjectsState) :
    List ListedProject :=
  sortProjects (compareProjects st.sortBy)
    (st.projects.filter (fun project =>
      matchesSearch js st.searchTerm project && matchesFilter st.filterBy project))

/-! ## Actions: `handleBuy` and `handleCreateProject` -/

/-- A submitted transaction: `tx.wait()` either resolves or rejects. -/
structure Transaction where
  wait : Except JsError Unit

/-- The contract object as the action handlers use it.  `acceptTerms id value`
is the call `contract.acceptTerms(id, { value })`, `createProject` the call
`contract.createProject(name, description, amountInWei)`; `settled` is how the
read calls answer once the submitted transaction has been awaited. -/
structure WritableContract where
  acceptTerms : Nat → Nat → Except JsError Transaction
  createProject : String → String → Int → Except JsError Transaction
  settled : Contract

/-- A call issued to the ledger by a handler. -/
inductive LedgerCall where
  | read (r : LedgerRead)
  | acceptTerms (id value : Nat)
  | createProject (name description : String) (amountInWei : Int)
  | wait
deriving DecidableEq, Repr

/-- The handler `openModal(project)` of `ViewProjects.js`. -/
def openModal (project : ListedProject) (st : ViewProjectsState) : ViewProjectsState :=
  { st with selectedProject := some project, modalIsOpen := true, message := ⟨"", ""⟩ }

/-- The handler `closeModal` of `ViewProjects.js`. -/
def closeModal (st : ViewProjectsState) : ViewProjectsState :=
  { st with modalIsOpen := false, selectedProject := none }

/-- The state shown while `handleBuy` awaits the ledger: `setBuying(true)` has
run and nothing else has changed. -/
def pendingBuy (st : ViewProjectsState) : ViewProjectsState :=
  { st with buying := true }

/-- The handler `handleBuy` of `ViewProjects.js`: the state after the call and
the ledger calls issued, in order.  After a settled accept the list is rebuilt
by `fetchProjects` from the settled ledger; `clock` is the clock of that
rebuild. -/
def handleBuy (contract : Option WritableContract) (clock : Nat → Int)
    (st : ViewProjectsState) : ViewProjectsState × List LedgerCall :=
  match contract, st.selectedProject with
  | none, _ => (st, [])
  | some _, none => (st, [])
  | some c, some selectedProject =>
    match c.acceptTerms selectedProject.id selectedProject.amount with
    | .error _ =>
      ({ pendingBuy st with
          message := ⟨"error", "Error accepting project. Please try again."⟩
          buying := false },
        [LedgerCall.acceptTerms selectedProject.id selectedProject.amount])
    | .ok tx =>
      match tx.wait with
      | .error _ =>
        ({ pendingBuy st with
            message := ⟨"error", "Error accepting project. Please try again."⟩
            buying := false },
          [LedgerCall.acceptTerms selectedProject.id selectedProject.amount, LedgerCall.wait])
      | .ok _ =>
        let rebuilt := fetchProjects (some c.settled) clock
          (closeModal { pendingBuy st with
            message := ⟨"success", "Project accepted successfully!"⟩
            buying := false })
        (rebuilt.1,
          LedgerCall.acceptTerms selectedProject.id selectedProject.amount ::
            LedgerCall.wait :: rebuilt.2.map LedgerCall.read)

/-- A click on the button `Accept Project`, rendered as
`<button onClick={handleBuy} disabled={buying}>`: a disabled button dispatches
no click, otherwise the handler runs. -/
def clickAcceptProject (contract : Option WritableContract) (clock : Nat → Int)
    (st : ViewProjectsState) : ViewProjectsState × List LedgerCall :=
  if st.buying then (st, []) else handleBuy contract clock st

/-- The `formData` state of `CreateProject`. -/
structure FormData where
  name : String
  description : String
  amount : String
  deadline : String
deriving DecidableEq, Repr

/-- The React state of the `CreateProject` component. -/
structure CreateProjectState where
  formData : FormData
  isSubmitting : Bool
  message : Message
  showSuccess : Bool
deriving DecidableEq, Repr

/-- The initial state set up by the `useState` calls of `CreateProject`. -/
def CreateProjectState.init : CreateProjectState where
  formData := ⟨"", "", "", ""⟩
  isSubmitting := false
  message := ⟨"", ""⟩
  showSuccess := false

/-- The white space removed by `String.prototype.trim`. -/
def isWhiteSpace (c : Char) : Bool :=
  c.toNat ∈ [9, 10, 11, 12, 13, 32, 0xA0, 0x1680, 0x2028, 0x2029, 0x202F, 0x205F, 0x3000,
    0xFEFF] || (0x2000 ≤ c.toNat && c.toNat ≤ 0x200A)

/-- The test `!s.trim()`: the string is empty after trimming. -/
def isBlank (s : String) : Bool := s.data.all isWhiteSpace

/-- Right-pad a digit list with `'0'` up to `width` characters. -/
def padRightZeros (width : Nat) (digits : List Char) : List Char :=
  digits ++ List.replicate (width - digits.length) '0'

/-- The bound `2 ^ 511` of the signed 512-bit format into which
`ethers.parseEther` parses. -/
def parseEtherLimit : Nat :=
  6703903964971298549787012499102923063739682910296196688861780721860882015036773488400937149083451713845015929093243025426876941405973284973216824503042048

/-- The library function `ethers.parseEther` (ethers v6): an optional `-`,
digits, an optional `.` and digits, with at least one digit; fractional digits
beyond the 18th must be zeros; and the amount in wei must fit the signed
512-bit format, from `-2 ^ 511` up to but not including `2 ^ 511`.  The result
is the amount in wei.  Any other string makes the call throw. -/
def parseEther (ether : String) : Except JsError Int :=
  let negative := ether.data.head? = some '-'
  let body := if negative then ether.data.drop 1 else ether.data
  let whole := body.takeWhile (fun c => c != '.')
  let frac := (body.dropWhile (fun c => c != '.')).drop 1
  if (whole ++ frac).all Char.isDigit ∧ whole ++ frac ≠ [] then
    if (frac.drop 18).all (fun c => c == '0') then
      let wei : Int :=
        (digitsValue whole * 10 ^ 18 + digitsValue (padRightZeros 18 (frac.take 18)) : Nat)
      let value : Int := if negative then -wei else wei
      if -(parseEtherLimit : Int) ≤ value ∧ value < (parseEtherLimit : Int) then .ok value
      else .error ⟨"NUMERIC_FAULT", "overflow"⟩
    else .error ⟨"NUMERIC_FAULT", "too many decimals for format"⟩
  else .error ⟨"INVALID_ARGUMENT", "invalid FixedNumber string value"⟩

/-- The state shown while `handleCreateProject` awaits the ledger:
`setIsSubmitting(true)` and `setMessage` with the empty message have run. -/
def pendingCreate (st : CreateProjectState) : CreateProjectState :=
  { st with isSubmitting := true, message := ⟨"", ""⟩ }

/-- The handler `handleCreateProject` of `CreateProject.js`: the state after
the call and the ledger calls issued.  The timer that hides the success
message three seconds later is not part of the result. -/
def handleCreateProject (contract : Option WritableContract) (st : CreateProjectState) :
    CreateProjectState × List LedgerCall :=
  match contract with
  | none => ({ st with message := ⟨"error", "Smart contract not loaded."⟩ }, [])
  | some c =>
    if isBlank st.formData.name || isBlank st.formData.description ||
        st.formData.amount == "" then
      ({ st with message := ⟨"error", "Please fill in all required fields."⟩ }, [])
    else
      match parseEther st.formData.amount with
      | .error _ =>
        ({ pendingCreate st with
            message := ⟨"error", "Error creating project. Please try again."⟩
            isSubmitting := false }, [])
      | .ok amountInWei =>
        match c.createProject st.formData.name st.formData.description amountInWei with
        | .error _ =>
          ({ pendingCreate st with
              message := ⟨"error", "Error creating project. Please try again."⟩
              isSubmitting := false },
            [LedgerCall.createProject st.formData.name st.formData.description amountInWei])
        | .ok tx =>
          match tx.wait with
          | .error _ =>
            ({ pendingCreate st with
                message := ⟨"error", "Error creating project. Please try again."⟩
                isSubmitting := false },
              [LedgerCall.createProject st.formData.name st.formData.description amountInWei,
                LedgerCall.wait])
          | .ok _ =>
            ({ formData := ⟨"", "", "", ""⟩
               isSubmitting := false
               message := ⟨"success", "Project created successfully!"⟩
               showSuccess := true },
              [LedgerCall.createProject st.formData.name st.formData.description amountInWei,
                LedgerCall.wait])

/-- A submission of the form of `CreateProject`, rendered as `<form
onSubmit={handleCreateProject}>` with the submit button `disabled=
{isSubmitting}`: while the submit button is disabled the form is not
submitted, otherwise the handler runs. -/
def submitCreateForm (contract : Option WritableContract) (st : CreateProjectState) :
    CreateProjectState × List LedgerCall :=
  if st.isSubmitting then (st, []) else handleCreateProject contract st

/-! ## Specification-side vocabulary for the query and the actions -/

/-- The number of units from which a rounded value overflows to `Infinity`. -/
def F64.overflowUnits : Nat := 2 ^ 2098

/-- The position of a JavaScript number on the number line, as an integer:
a finite value by its units, `Infinity` above every finite value that
rounding produces. -/
def F64.rank : F64 → Int
  | F64.finite units => units
  | F64.infinity => F64.overflowUnits
  | F64.nan => 0

/-- The key by which a sort order arranges the list, smallest key first. -/
def sortKey (sortBy : String) (p : ListedProject) : Int :=
  if sortBy = "newest" then -p.deadlineDate.timeValue
  else if sortBy = "oldest" then p.deadlineDate.timeValue
  else if sortBy = "price-high" then -F64.rank (parseFloat p.formattedAmount)
  else if sortBy = "price-low" then F64.rank (parseFloat p.formattedAmount)
  else 0

/-- The price of an entry can be compared: `parseFloat(formattedAmount)` is a
number. -/
def PriceParses (p : ListedProject) : Prop := parseFloat p.formattedAmount ≠ F64.nan

/-- The date of an entry can be compared: `deadlineDate` is not an Invalid
Date. -/
def DateValid (p : ListedProject) : Prop := p.deadlineDate ≠ JsDate.invalid

/-- The entries of the list can be ordered by `sortBy`: under the deadline
orders every date is valid, under the price orders every price is a number.
The comparator then orders the list consistently. -/
def Sortable (sortBy : String) (projects : List ListedProject) : Prop :=
  ((sortBy = "newest" ∨ sortBy = "oldest") → ∀ p ∈ projects, DateValid p) ∧
    ((sortBy = "price-high" ∨ sortBy = "price-low") → ∀ p ∈ projects, PriceParses p)

/-- The exact value of a decimal string: for digits, a `.` and digits, the
number written by all the digits together with the power of ten by which it
is to be divided; `none` for any other string. -/
def decimalValue (s : String) : Option (Nat × Nat) :=
  let whole := s.data.takeWhile (fun c => c != '.')
  let frac := (s.data.dropWhile (fun c => c != '.')).drop 1
  if (whole ++ frac).all Char.isDigit ∧ whole ≠ [] ∧ frac ≠ [] ∧
      s.data = whole ++ '.' :: frac then
    some (digitsValue (whole ++ frac), 10 ^ frac.length)
  else none

/-- The amount in wei written by a decimal string of ether, `0` when the
string is not a decimal string. -/
def recoverWei (s : String) : Nat :=
  match decimalValue s with
  | some (num, den) => num * 10 ^ 18 / den
  | none => 0

/-- An open record named `Logo`, worth one ether. -/
def logoRecord : Project :=
  ⟨"Logo", "Draw a mark", 10 ^ 18, "0xA1", ZeroAddress, 1700000000, false, false⟩

/-- An open record named `Site`, worth one ether and one wei. -/
def siteRecord : Project :=
  ⟨"Site", "Build a LOGO page", 10 ^ 18 + 1, "0xA1", ZeroAddress, 1700003600, false, false⟩

/-- The entry of `Logo`, at ledger index `0` and clock reading 1700010000000. -/
def logoEntry : ListedProject := ListedProject.ofRecord 1700010000000 0 logoRecord

/-- The entry of `Site`, at ledger index `1` and clock reading 1700010000000. -/
def siteEntry : ListedProject := ListedProject.ofRecord 1700010000000 1 siteRecord

/-- A state of `ViewProjects` that holds the entries of `Logo` and `Site`, with
the search term `LOGO`. -/
def searchDemo : ViewProjectsState :=
  { ViewProjectsState.init with
    projects := [logoEntry, siteEntry], loading := false, searchTerm := "LOGO" }

/-- An open record named `Banner` whose deadline, 8640000000001 seconds after
the epoch, lies beyond the last instant a `Date` can hold. -/
def bannerRecord : Project :=
  ⟨"Banner", "Print", 10 ^ 18, "0xA1", ZeroAddress, 8640000000001, false, false⟩

/-- The entry of `Banner`, at ledger index `1`; its `deadlineDate` is an
Invalid Date. -/
def bannerEntry : ListedProject := ListedProject.ofRecord 1700010000000 1 bannerRecord

/-- A state that holds the entries of `Logo` and `Banner`, in this order, under
the order `newest`. -/
def invalidDateDemo : ViewProjectsState :=
  { ViewProjectsState.init with projects := [logoEntry, bannerEntry], loading := false }

/-- A state that holds the entries of `Logo`, `Banner` and `Site`, in this
order, under the order `newest` and with the search term `logo`, which `Banner`
does not match. -/
def commuteDemo : ViewProjectsState :=
  { ViewProjectsState.init with
    projects := [logoEntry, bannerEntry, ListedProject.ofRecord 1700010000000 2 siteRecord],
    loading := false,
    searchTerm := "logo" }

/-- The demo list of `Logo` (one ether) and `Site` (one ether and one wei),
with the empty search term and the order `price-high`. -/
def priceTieDemo : ViewProjectsState :=
  { searchDemo with searchTerm := "", sortBy := "price-high" }

/-- A contract that accepts every submitted action and settles it, over an
empty settled ledger. -/
def acceptingContract : WritableContract where
  acceptTerms := fun _ _ => .ok ⟨.ok ()⟩
  createProject := fun _ _ _ => .ok ⟨.ok ()⟩
  settled := Contract.ofLedger []

/-- The state of `ViewProjects` with the entry of `Logo` selected in the modal. -/
def logoSelected : ViewProjectsState :=
  openModal logoEntry searchDemo

/-- The state of `CreateProject` with a complete form. -/
def filledForm : CreateProjectState :=
  { CreateProjectState.init with formData := ⟨"Logo", "Draw a mark", "0.1", ""⟩ }

/-! ## Component states of the statistics pages -/

/-- The React state of the `Dashboard` component. -/
structure DashboardState where
  contract : Option Contract
  stats : DashboardStats
  activeTab : String

/-- The effect of `Dashboard.fetchStats` on the state of the component: the
only setter it calls is `setStats`. -/
def Dashboard.afterFetchStats (contractInstance : Contract) (account : Option Address)
    (st : DashboardState) : DashboardState :=
  { st with stats := (Dashboard.fetchStats contractInstance account st.stats).1 }

/-- The `profile` state of `Profile`. -/
structure ProfileData where
  name : String
  bio : String
  avatar : String
deriving DecidableEq, Repr

/-- The React state of the `Profile` component. -/
structure ProfileState where
  profile : ProfileData
  editing : Bool
  message : Message
  loading : Bool
  stats : ProfileStats
deriving DecidableEq, Repr

/-- The initial state set up by the `useState` calls of `Profile`. -/
def ProfileState.init : ProfileState where
  profile := ⟨"", "", ""⟩
  editing := false
  message := ⟨"", ""⟩
  loading := true
  stats := ProfileStats.init

/-- The effect of `Profile.fetchStats` on the state of the component: the only
setter it calls is `setStats`. -/
def Profile.afterFetchStats (ethereum : Option Ethereum) (account : Option Address)
    (st : ProfileState) : ProfileState :=
  { st with stats := (Profile.fetchStats ethereum account st.stats).1 }

/-! ## Specification-side vocabulary for the action outcomes -/

/-- The accept of project `id` with value `amount` fails: the submission
rejects, or it is submitted and its settlement rejects. -/
def AcceptFails (c : WritableContract) (id amount : Nat) : Prop :=
  (∃ e, c.acceptTerms id amount = .error e) ∨
    ∃ tx e, c.acceptTerms id amount = .ok tx ∧ tx.wait = .error e

/-- The creation from the form `form` fails: the amount cannot be parsed, or
the submission rejects, or it is submitted and its settlement rejects. -/
def CreateFails (c : WritableContract) (form : FormData) : Prop :=
  (∃ e, parseEther form.amount = .error e) ∨
    ∃ wei, parseEther form.amount = .ok wei ∧
      ((∃ e, c.createProject form.name form.description wei = .error e) ∨
        ∃ tx e, c.createProject form.name form.description wei = .ok tx ∧
          tx.wait = .error e)

/-- The form passes the checks of `handleCreateProject`: name and description
are not blank and the amount is not empty. -/
def FormComplete (form : FormData) : Prop :=
  isBlank form.name = false ∧ isBlank form.description = false ∧ form.amount ≠ ""

/-- A contract whose every submission is reverted by the ledger, with the
revert reason as the error message. -/
def revertingContract : WritableContract where
  acceptTerms := fun _ _ => .error ⟨"CALL_EXCEPTION", "execution reverted: Incorrect amount"⟩
  createProject := fun _ _ _ =>
    .error ⟨"CALL_EXCEPTION", "execution reverted: Incorrect amount"⟩
  settled := Contract.ofLedger []

/-- A contract whose transport is unavailable: every submission rejects with a
network error. -/
def unavailableContract : WritableContract where
  acceptTerms := fun _ _ => .error ⟨"NETWORK_ERROR", "could not detect network"⟩
  createProject := fun _ _ _ => .error ⟨"NETWORK_ERROR", "could not detect network"⟩
  settled := Contract.ofLedger []

/-- A contract that accepts and settles every accept and whose every creation
is reverted by the ledger. -/
def createRevertingContract : WritableContract where
  acceptTerms := fun _ _ => .ok ⟨.ok ()⟩
  createProject := fun _ _ _ =>
    .error ⟨"CALL_EXCEPTION", "execution reverted: Incorrect amount"⟩
  settled := Contract.ofLedger []

/-- An open record of 100000000000000000 wei. -/
def openTenth : Project :=
  ⟨"job", "work", 100000000000000000, "0xA1", ZeroAddress, 1700000000, false, false⟩

/-- The ledger of the scenario: three records of which only record `1` is
open, with the amount 100000000000000000 wei. -/
def scenarioMarket : List Project := [clientWithoutFlags, openTenth, clientWithoutFlags]

/-- The record `Logo` after it has been accepted by the client `0xC1`. -/
def logoAccepted : Project :=
  { logoRecord with client := "0xC1", isAccepted := true }

/-- A contract that accepts and settles every action, after which the ledger
holds the accepted `Logo` and the open `Site`. -/
def settlingContract : WritableContract where
  acceptTerms := fun _ _ => .ok ⟨.ok ()⟩
  createProject := fun _ _ _ => .ok ⟨.ok ()⟩
  settled := Contract.ofLedger [logoAccepted, siteRecord]

/-- The options of the filter `select` of `ViewProjects.js`, each value with
the label shown for it. -/
def filterOptions : List (String × String) :=
  [("all", "All Projects"), ("recent", "Recent (Last Hour)"), ("today", "Today")]

/-- The age in milliseconds, at clock reading `now`, of an entry, measured as
`getTimeAgo` measures it: `now - deadline * 1000`. -/
def ageMs (now : Int) (p : ListedProject) : Int := now - (p.deadline : Int) * 1000

/-- The age of the entry lies within the last hour. -/
def WithinLastHour (now : Int) (p : ListedProject) : Prop :=
  0 ≤ ageMs now p ∧ ageMs now p < 3600000

/-- The entry is less than one day old. -/
def LessThanOneDayOld (now : Int) (p : ListedProject) : Prop :=
  0 ≤ ageMs now p ∧ ageMs now p < 86400000

/-- The entry, at clock reading 1700010000000, of a record whose deadline lies
`seconds` seconds before that reading. -/
def entryAged (seconds : Nat) : ListedProject :=
  ListedProject.ofRecord 1700010000000 0
    ⟨"Logo", "Draw a mark", 10 ^ 18, "0xA1", ZeroAddress, 1700010000 - seconds, false, false⟩

/-- The complete form with the amount written with an exponent. -/
def exponentForm : CreateProjectState :=
  { CreateProjectState.init with formData := ⟨"Logo", "Draw a mark", "1e2", ""⟩ }

/-- The complete form with the amount `1` followed by 160 zeros, which is more
ether than the signed 512-bit format holds in wei. -/
def hugeForm : CreateProjectState :=
  { CreateProjectState.init with
    formData := ⟨"Logo", "Draw a mark", String.mk ('1' :: List.replicate 160 '0'), ""⟩ }

/-! ## The scan -/

theorem scanProjects_ok {σ : Type} (c : Contract) (body : Nat → Project → σ → σ) :
    ∀ (xs : List Project) (i : Nat) (acc : σ),
      (∀ j p, xs[j]? = some p → c.projects (i + j) = .ok p) →
      scanProjects c body xs.length i acc =
        (.ok (foldFrom body i xs acc), (List.range' i xs.length).map LedgerRead.projects) := by
  intro xs
  induction xs with
  | nil => intro i acc _; rfl
  | cons x xs ih =>
    intro i acc h
    have h0 : c.projects i = .ok x := by simpa using h 0 x (by simp)
    have hs : ∀ j p, xs[j]? = some p → c.projects (i + 1 + j) = .ok p := by
      intro j p hj
      have := h (j + 1) p (by simpa using hj)
      rwa [show i + 1 + j = i + (j + 1) by omega]
    simp only [List.length_cons, scanProjects, h0, ih (i + 1) _ hs, foldFrom,
      List.range'_succ, List.map_cons]

theorem scanProjects_ofLedger {σ : Type} (ledger : List Project)
    (body : Nat → Project → σ → σ) (acc : σ) :
    scanProjects (Contract.ofLedger ledger) body ledger.length 0 acc =
      (.ok (foldFrom body 0 ledger acc), fullScan ledger.length) := by
  have h := scanProjects_ok (Contract.ofLedger ledger) body ledger 0 acc (by
    intro j p hj
    simp [Contract.ofLedger, hj])
  rw [h, fullScan, List.range_eq_range']

theorem scanProjects_reads {σ : Type} (c : Contract) (body : Nat → Project → σ → σ) :
    ∀ (n i : Nat) (acc : σ), (∀ j, j < n → ∃ p, c.projects (i + j) = .ok p) →
      (∃ a, (scanProjects c body n i acc).1 = .ok a) ∧
        (scanProjects c body n i acc).2 = (List.range' i n).map LedgerRead.projects := by
  intro n
  induction n with
  | zero => intro i acc _; exact ⟨⟨acc, rfl⟩, rfl⟩
  | succ n ih =>
    intro i acc h
    obtain ⟨p, hp⟩ := h 0 (by omega)
    have hs : ∀ j, j < n → ∃ q, c.projects (i + 1 + j) = .ok q := by
      intro j hj
      have := h (j + 1) (by omega)
      rwa [show i + 1 + j = i + (j + 1) by omega]
    have hp0 : c.projects i = .ok p := by simpa using hp
    obtain ⟨⟨a, ha⟩, hr⟩ := ih (i + 1) (body i p acc) hs
    simp only [scanProjects, hp0, List.range'_succ, List.map_cons]
    exact ⟨⟨a, ha⟩, by rw [hr]⟩

theorem scanProjects_error {σ : Type} (c : Contract) (body : Nat → Project → σ → σ) :
    ∀ (n i : Nat) (acc : σ), (∃ j, j < n ∧ ∃ e, c.projects (i + j) = .error e) →
      ∃ e, (scanProjects c body n i acc).1 = .error e := by
  intro n
  induction n with
  | zero => intro i acc h; obtain ⟨j, hj, _⟩ := h; omega
  | succ n ih =>
    intro i acc h
    obtain ⟨j, hj, e, he⟩ := h
    cases hc : c.projects i with
    | error e0 => exact ⟨e0, by simp [scanProjects, hc]⟩
    | ok p =>
      have hj0 : j ≠ 0 := by
        intro h0
        subst h0
        simp [hc] at he
      have hs : ∃ k, k < n ∧ ∃ e, c.projects (i + 1 + k) = .error e :=
        ⟨j - 1, by omega, e, by rwa [show i + 1 + (j - 1) = i + j by omega]⟩
      obtain ⟨e1, he1⟩ := ih (i + 1) (body i p acc) hs
      exact ⟨e1, by simp [scanProjects, hc, he1]⟩

/-! ## The scan of `fetchProjects` -/

theorem listProject_throws (now : Int) (i : Nat) (project : Project) :
    listProject now i project = .error mixedOperands := rfl

theorem fetchProjectsBody_open (clock : Nat → Int) (i : Nat) (project : Project)
    (acc : List ListedProject) (h : project.client = ZeroAddress) :
    fetchProjectsBody clock i project acc = .error mixedOperands := by
  simp only [fetchProjectsBody, h, if_true, listProject_throws]
  rfl

theorem fetchProjectsBody_closed (clock : Nat → Int) (i : Nat) (project : Project)
    (acc : List ListedProject) (h : project.client ≠ ZeroAddress) :
    fetchProjectsBody clock i project acc = .ok acc := by
  simp only [fetchProjectsBody, h, if_false]

theorem scanThrowing_closed (c : Contract) (clock : Nat → Int) :
    ∀ (n i : Nat) (acc : List ListedProject),
      (∀ j, j < n → ∃ p, c.projects (i + j) = .ok p ∧ p.client ≠ ZeroAddress) →
      scanProjectsThrowing c (fetchProjectsBody clock) n i acc =
        (.ok acc, (List.range' i n).map LedgerRead.projects) := by
  intro n
  induction n with
  | zero => intro i acc _; rfl
  | succ n ih =>
    intro i acc h
    obtain ⟨p, hp, hcl⟩ := h 0 (by omega)
    have hp0 : c.projects i = .ok p := by simpa using hp
    have hs : ∀ j, j < n → ∃ q, c.projects (i + 1 + j) = .ok q ∧ q.client ≠ ZeroAddress := by
      intro j hj
      have := h (j + 1) (by omega)
      rwa [show i + 1 + j = i + (j + 1) by omega]
    simp only [scanProjectsThrowing, hp0, fetchProjectsBody_closed clock i p acc hcl,
      ih (i + 1) acc hs, List.range'_succ, List.map_cons]

theorem scanThrowing_stops (c : Contract) (clock : Nat → Int) :
    ∀ (k n i : Nat) (acc : List ListedProject), k < n →
      (∀ j, j < k → ∃ p, c.projects (i + j) = .ok p ∧ p.client ≠ ZeroAddress) →
      (∃ p, c.projects (i + k) = .ok p ∧ p.client = ZeroAddress) →
      scanProjectsThrowing c (fetchProjectsBody clock) n i acc =
        (.error mixedOperands, (List.range' i (k + 1)).map LedgerRead.projects) := by
  intro k
  induction k with
  | zero =>
    intro n i acc hn _ hopen
    obtain ⟨p, hp, hcl⟩ := hopen
    have hp0 : c.projects i = .ok p := by simpa using hp
    obtain ⟨m, rfl⟩ : ∃ m, n = m + 1 := ⟨n - 1, by omega⟩
    simp only [scanProjectsThrowing, hp0, fetchProjectsBody_open clock i p acc hcl]
    rfl
  | succ k ih =>
    intro n i acc hn hclosed hopen
    obtain ⟨m, rfl⟩ : ∃ m, n = m + 1 := ⟨n - 1, by omega⟩
    obtain ⟨p, hp, hcl⟩ := hclosed 0 (by omega)
    have hp0 : c.projects i = .ok p := by simpa using hp
    have hs : ∀ j, j < k → ∃ q, c.projects (i + 1 + j) = .ok q ∧ q.client ≠ ZeroAddress := by
      intro j hj
      have := hclosed (j + 1) (by omega)
      rwa [show i + 1 + j = i + (j + 1) by omega]
    have ho : ∃ q, c.projects (i + 1 + k) = .ok q ∧ q.client = ZeroAddress := by
      rwa [show i + 1 + k = i + (k + 1) by omega]
    simp only [scanProjectsThrowing, hp0, fetchProjectsBody_closed clock i p acc hcl,
      ih m (i + 1) acc (by omega) hs ho]
    rw [List.range'_succ i (k + 1), List.map_cons]

theorem scanThrowing_error {σ : Type} (c : Contract)
    (body : Nat → Project → σ → Except JsError σ) :
    ∀ (n i : Nat) (acc : σ), (∃ j, j < n ∧ ∃ e, c.projects (i + j) = .error e) →
      ∃ e, (scanProjectsThrowing c body n i acc).1 = .error e := by
  intro n
  induction n with
  | zero => intro i acc h; obtain ⟨j, hj, _⟩ := h; omega
  | succ n ih =>
    intro i acc h
    obtain ⟨j, hj, e, he⟩ := h
    cases hc : c.projects i with
    | error e0 => exact ⟨e0, by simp [scanProjectsThrowing, hc]⟩
    | ok p =>
      cases hb : body i p acc with
      | error e0 => exact ⟨e0, by simp [scanProjectsThrowing, hc, hb]⟩
      | ok next =>
        have hj0 : j ≠ 0 := by
          intro h0
          subst h0
          simp [hc] at he
        have hs : ∃ k, k < n ∧ ∃ e, c.projects (i + 1 + k) = .error e :=
          ⟨j - 1, by omega, e, by rwa [show i + 1 + (j - 1) = i + j by omega]⟩
        obtain ⟨e1, he1⟩ := ih (i + 1) next hs
        exact ⟨e1, by simp [scanProjectsThrowing, hc, hb, he1]⟩

theorem scanThrowing_reads_are_records {σ : Type} (c : Contract)
    (body : Nat → Project → σ → Except JsError σ) :
    ∀ (n i : Nat) (acc : σ), ∀ r ∈ (scanProjectsThrowing c body n i acc).2,
      ∃ j, r = LedgerRead.projects j := by
  intro n
  induction n with
  | zero => intro i acc r hr; simp [scanProjectsThrowing] at hr
  | succ n ih =>
    intro i acc r hr
    cases hc : c.projects i with
    | error e =>
      simp only [scanProjectsThrowing, hc, List.mem_singleton] at hr
      exact ⟨i, hr⟩
    | ok p =>
      cases hb : body i p acc with
      | error e =>
        simp only [scanProjectsThrowing, hc, hb, List.mem_singleton] at hr
        exact ⟨i, hr⟩
      | ok next =>
        simp only [scanProjectsThrowing, hc, hb, List.mem_cons] at hr
        rcases hr with h | h
        · exact ⟨i, h⟩
        · exact ih _ _ r h

/-- The loop of `fetchProjects` never adds an entry: when it ends without an
error, the list it leaves is the list it started with. -/
theorem scanThrowing_keeps_list (c : Contract) (clock : Nat → Int) :
    ∀ (n i : Nat) (acc a : List ListedProject),
      (scanProjectsThrowing c (fetchProjectsBody clock) n i acc).1 = .ok a → a = acc := by
  intro n
  induction n with
  | zero =>
    intro i acc a h
    simp only [scanProjectsThrowing] at h
    injection h with h
    exact h.symm
  | succ n ih =>
    intro i acc a h
    cases hc : c.projects i with
    | error e => simp [scanProjectsThrowing, hc] at h
    | ok p =>
      by_cases hcl : p.client = ZeroAddress
      · simp [scanProjectsThrowing, hc, fetchProjectsBody_open clock i p acc hcl] at h
      · simp only [scanProjectsThrowing, hc, fetchProjectsBody_closed clock i p acc hcl] at h
        exact ih (i + 1) acc a h

/-! ## The marketplace list -/

/-- The two outcomes of `fetchProjects` with a contract: the empty list is
published, or the error message is set and the list stays. -/
theorem fetchProjects_outcome (c : Contract) (clock : Nat → Int) (st : ViewProjectsState) :
    (fetchProjects (some c) clock st).1 = { st with projects := [], loading := false } ∨
      (fetchProjects (some c) clock st).1 =
        { st with message := ⟨"error", "Error loading projects"⟩, loading := false } := by
  simp only [fetchProjects]
  cases c.nextProjectId with
  | error e => exact Or.inr rfl
  | ok n =>
    dsimp only
    have hkeep := scanThrowing_keeps_list c clock n 0 []
    rcases hscan : scanProjectsThrowing c (fetchProjectsBody clock) n 0 [] with ⟨res, reads⟩
    rw [hscan] at hkeep
    cases res with
    | error e => exact Or.inr rfl
    | ok a =>
      have ha : a = [] := hkeep a rfl
      subst ha
      exact Or.inl rfl

theorem fetchProjects_noOpen (c : Contract) (count : Nat) (clock : Nat → Int)
    (st : ViewProjectsState) (h : AllReadsSucceed c count) (hno : NoOpenRecord c count) :
    fetchProjects (some c) clock st =
      ({ st with projects := [], loading := false },
        LedgerRead.nextProjectId :: fullScan count) := by
  obtain ⟨hcount, hreads⟩ := h
  have hclosed : ∀ j, j < count → ∃ p, c.projects (0 + j) = .ok p ∧ p.client ≠ ZeroAddress := by
    intro j hj
    obtain ⟨p, hp⟩ := hreads j hj
    exact ⟨p, by simpa using hp, hno j hj p hp⟩
  simp only [fetchProjects, hcount, scanThrowing_closed c clock count 0 [] hclosed, fullScan,
    List.range_eq_range']

theorem fetchProjects_firstOpen (c : Contract) (count k : Nat) (clock : Nat → Int)
    (st : ViewProjectsState) (hcount : c.nextProjectId = .ok count) (hk : k < count)
    (hfirst : FirstOpenRecord c k) :
    fetchProjects (some c) clock st =
      ({ st with message := ⟨"error", "Error loading projects"⟩, loading := false },
        LedgerRead.nextProjectId :: fullScan (k + 1)) := by
  obtain ⟨hopen, hclosed⟩ := hfirst
  have h1 : ∀ j, j < k → ∃ p, c.projects (0 + j) = .ok p ∧ p.client ≠ ZeroAddress := by
    intro j hj
    simpa using hclosed j hj
  have h2 : ∃ p, c.projects (0 + k) = .ok p ∧ p.client = ZeroAddress := by
    simpa using hopen
  simp only [fetchProjects, hcount, scanThrowing_stops c clock k count 0 [] hk h1 h2, fullScan,
    List.range_eq_range']

theorem ofLedger_projects (ledger : List Project) (i : Nat) (p : Project) :
    (Contract.ofLedger ledger).projects i = .ok p ↔ ledger[i]? = some p := by
  simp only [Contract.ofLedger]
  cases h : ledger[i]? with
  | none => simp
  | some q => simp

theorem allReadsSucceed_ofLedger (ledger : List Project) :
    AllReadsSucceed (Contract.ofLedger ledger) ledger.length := by
  refine ⟨rfl, ?_⟩
  intro i hi
  exact ⟨ledger[i], by simp [Contract.ofLedger, List.getElem?_eq_getElem hi]⟩

theorem noOpenRecord_ofLedger (ledger : List Project)
    (h : ∀ p ∈ ledger, p.client ≠ ZeroAddress) :
    NoOpenRecord (Contract.ofLedger ledger) ledger.length := by
  intro i _ p hp
  exact h p (List.getElem?_mem ((ofLedger_projects ledger i p).mp hp))

theorem firstOpenRecord_ofLedger (ledger : List Project)
    (h : ∃ p ∈ ledger, p.client = ZeroAddress) :
    ∃ k, k < ledger.length ∧ FirstOpenRecord (Contract.ofLedger ledger) k := by
  induction ledger with
  | nil => obtain ⟨p, hp, _⟩ := h; simp at hp
  | cons x xs ih =>
    by_cases hx : x.client = ZeroAddress
    · exact ⟨0, by simp, ⟨x, by simp [Contract.ofLedger], hx⟩, by intro i hi; omega⟩
    · have hrest : ∃ p ∈ xs, p.client = ZeroAddress := by
        obtain ⟨p, hp, hcl⟩ := h
        rcases List.mem_cons.mp hp with rfl | hp'
        · exact absurd hcl hx
        · exact ⟨p, hp', hcl⟩
      obtain ⟨k, hk, ⟨q, hq, hqcl⟩, hbefore⟩ := ih hrest
      refine ⟨k + 1, by simp [hk], ⟨q, ?_, hqcl⟩, ?_⟩
      · rw [ofLedger_projects] at hq ⊢
        simpa using hq
      · intro i hi
        cases i with
        | zero => exact ⟨x, by simp [Contract.ofLedger], hx⟩
        | succ i =>
          obtain ⟨r, hr, hrcl⟩ := hbefore i (by omega)
          refine ⟨r, ?_, hrcl⟩
          rw [ofLedger_projects] at hr ⊢
          simpa using hr

theorem fetchProjects_ofLedger_closed (ledger : List Project) (clock : Nat → Int)
    (st : ViewProjectsState) (h : ∀ p ∈ ledger, p.client ≠ ZeroAddress) :
    fetchProjects (some (Contract.ofLedger ledger)) clock st =
      ({ st with projects := [], loading := false },
        LedgerRead.nextProjectId :: fullScan ledger.length) :=
  fetchProjects_noOpen _ _ clock st (allReadsSucceed_ofLedger ledger)
    (noOpenRecord_ofLedger ledger h)

theorem fetchProjects_ofLedger_open (ledger : List Project) (clock : Nat → Int)
    (st : ViewProjectsState) (h : ∃ p ∈ ledger, p.client = ZeroAddress) :
    (fetchProjects (some (Contract.ofLedger ledger)) clock st).1 =
      { st with message := ⟨"error", "Error loading projects"⟩, loading := false } := by
  obtain ⟨k, hk, hfirst⟩ := firstOpenRecord_ofLedger ledger h
  rw [fetchProjects_firstOpen _ ledger.length k clock st rfl hk hfirst]

theorem openEntries_ids_increasing (clock : Nat → Int) (i : Nat) (xs : List Project) :
    ((openEntries clock i xs).map (fun e => e.id)).Pairwise (fun a b => a < b) := by
  have h1 : (openEntries clock i xs).map (fun e => e.id) =
      ((xs.enumFrom i).filter (fun ip => decide (ip.2.client = ZeroAddress))).map Prod.fst := by
    simp [openEntries, ListedProject.ofRecord, Function.comp_def]
  rw [h1]
  have h2 : (((xs.enumFrom i).filter
      (fun ip => decide (ip.2.client = ZeroAddress))).map Prod.fst).Sublist
      (List.range' i xs.length) := by
    have h3 : (xs.enumFrom i).map Prod.fst = List.range' i xs.length := by
      simp [List.enumFrom_map_fst]
    rw [← h3]
    exact List.Sublist.map _ (List.filter_sublist _)
  exact List.Pairwise.sublist h2 (List.pairwise_lt_range' i xs.length)

/-- C1. The code at the failing inputs.  The entry of an open record is built
by multiplying the bigint `deadline` by the Number `1000`, which throws: over
every healthy ledger that holds an open record `fetchProjects` publishes
nothing, sets the message `Error loading projects` and leaves the previous
list in place, although the records to be shown (those with the zero client,
in ledger order, each with its index as `id`) are there; only over a ledger
without an open record does the build succeed, and then it publishes the empty
list.  On the ledger of one open and one accepted record, one record is to be
shown and none is. -/
theorem fetchProjects_throws_on_open_record (ledger : List Project) (clock : Nat → Int)
    (st : ViewProjectsState) :
    (∀ (now : Int) (i : Nat) (p : Project), listProject now i p = .error mixedOperands) ∧
      ((∃ p ∈ ledger, p.client = ZeroAddress) →
        openEntries clock 0 ledger ≠ [] ∧
        (fetchProjects (some (Contract.ofLedger ledger)) clock st).1 =
          { st with message := ⟨"error", "Error loading projects"⟩, loading := false }) ∧
      ((∀ p ∈ ledger, p.client ≠ ZeroAddress) →
        openEntries clock 0 ledger = [] ∧
        (fetchProjects (some (Contract.ofLedger ledger)) clock st).1 =
          { st with projects := [], loading := false }) ∧
      ((openEntries (fun _ => 0) 0 twoRecords).map (fun e => e.id) = [0] ∧
        (fetchProjects (some (Contract.ofLedger twoRecords)) (fun _ => 0)
          ViewProjectsState.init).1 =
          { ViewProjectsState.init with
            message := ⟨"error", "Error loading projects"⟩, loading := false }) := by
  refine ⟨listProject_throws, ?_, ?_, ?_, ?_⟩
  · intro h
    refine ⟨?_, fetchProjects_ofLedger_open ledger clock st h⟩
    obtain ⟨p, hp, hcl⟩ := h
    obtain ⟨i, hi⟩ := List.getElem?_of_mem hp
    intro hnil
    have hmem : ListedProject.ofRecord (clock i) i p ∈ openEntries clock 0 ledger := by
      simp only [openEntries, List.mem_map, List.mem_filter]
      exact ⟨(i, p), ⟨List.mk_mem_enum_iff_getElem?.mpr hi, by simpa using hcl⟩, rfl⟩
    rw [hnil] at hmem
    simp at hmem
  · intro h
    refine ⟨?_, by rw [fetchProjects_ofLedger_closed ledger clock st h]⟩
    simp only [openEntries, List.map_eq_nil_iff, List.filter_eq_nil_iff]
    intro ip hip
    have := h ip.2 (List.snd_mem_of_mem_enumFrom hip)
    simpa using this
  · decide
  · decide
/-! ## The reads of a build -/

/-- C2. The code at the failing inputs.  When the count read returns `count`
and no record read fails, `Dashboard.fetchStats` and `Profile.fetchStats` read
the count once and then the records at indices `0`, `1`, ..., `count - 1`,
each exactly once and in this order, and nothing else.  `fetchProjects` does
so only when no record is open; when index `k` holds the first open record,
the entry built for it throws and the scan stops there: the reads are the
count and the records at indices `0`, ..., `k`, and the records after `k` are
not read. -/
theorem builds_read_until_open_record (c : Contract) (count : Nat) (clock : Nat → Int)
    (st : ViewProjectsState) (account : Option Address) (dstats : DashboardStats)
    (pstats : ProfileStats) (h : AllReadsSucceed c count)
    (hacc : accountMissing account = false) :
    (Dashboard.fetchStats c account dstats).2 = LedgerRead.nextProjectId :: fullScan count ∧
      (Profile.fetchStats (some ⟨.ok c⟩) account pstats).2 =
        LedgerRead.nextProjectId :: fullScan count ∧
      (NoOpenRecord c count →
        (fetchProjects (some c) clock st).2 = LedgerRead.nextProjectId :: fullScan count) ∧
      (∀ k, k < count → FirstOpenRecord c k →
        (fetchProjects (some c) clock st).2 = LedgerRead.nextProjectId :: fullScan (k + 1) ∧
          ∀ i, k < i → LedgerRead.projects i ∉ (fetchProjects (some c) clock st).2) ∧
      fullScan 0 = [] ∧
      (fullScan count).length = count ∧
      (∀ i, LedgerRead.projects i ∈ fullScan count ↔ i < count) ∧
      (fullScan count).Nodup := by
  have hall := h
  obtain ⟨hcount, hreads⟩ := h
  have hr : ∀ j, j < count → ∃ p, c.projects (0 + j) = .ok p := by
    intro j hj
    simpa using hreads j hj
  have hfull : (List.range' 0 count).map LedgerRead.projects = fullScan count := by
    rw [fullScan, List.range_eq_range']
  refine ⟨?_, ?_, ?_, ?_, rfl, by simp [fullScan], ?_, ?_⟩
  · obtain ⟨⟨a, ha⟩, hlog⟩ :=
      scanProjects_reads c (dashboardBody account) count 0 ⟨0, 0, F64.zero⟩ hr
    simp only [Dashboard.fetchStats, hcount]
    rcases hscan : scanProjects c (dashboardBody account) count 0 ⟨0, 0, F64.zero⟩
      with ⟨res, reads⟩
    rw [hscan] at ha hlog
    simp only at ha hlog
    subst ha
    simp [hlog, hfull]
  · obtain ⟨⟨a, ha⟩, hlog⟩ :=
      scanProjects_reads c (profileBody account) count 0 ⟨0, F64.zero⟩ hr
    simp only [Profile.fetchStats, hacc, hcount]
    rcases hscan : scanProjects c (profileBody account) count 0 ⟨0, F64.zero⟩
      with ⟨res, reads⟩
    rw [hscan] at ha hlog
    simp only at ha hlog
    subst ha
    simp [hlog, hfull]
  · intro hno
    rw [fetchProjects_noOpen c count clock st hall hno]
  · intro k hk hfirst
    rw [fetchProjects_firstOpen c count k clock st hcount hk hfirst]
    refine ⟨rfl, ?_⟩
    intro i hi hmem
    simp [fullScan] at hmem
    omega
  · intro i
    simp [fullScan]
  · exact (List.nodup_range count).map (fun a b hab => by injection hab)

/-- Over the healthy ledger of two records whose record `0` is open,
`fetchProjects` reads the count and record `0` and stops, while
`Dashboard.fetchStats` reads both records. -/
theorem builds_read_until_open_record_witness :
    AllReadsSucceed (Contract.ofLedger twoRecords) 2 ∧
      (fetchProjects (some (Contract.ofLedger twoRecords)) (fun _ => 0)
          ViewProjectsState.init).2 =
        [LedgerRead.nextProjectId, LedgerRead.projects 0] ∧
      (Dashboard.fetchStats (Contract.ofLedger twoRecords) (some "0xA1")
          DashboardStats.init).2 =
        [LedgerRead.nextProjectId, LedgerRead.projects 0, LedgerRead.projects 1] :=
  ⟨allReadsSucceed_ofLedger twoRecords,
    ((builds_read_until_open_record (Contract.ofLedger twoRecords) 2 (fun _ => 0)
      ViewProjectsState.init (some "0xA1") DashboardStats.init ProfileStats.init
      (allReadsSucceed_ofLedger twoRecords) (by decide)).2.2.2.1 0 (by decide)
        ⟨⟨_, rfl, rfl⟩, by intro i hi; omega⟩).1,
    (builds_read_until_open_record (Contract.ofLedger twoRecords) 2 (fun _ => 0)
      ViewProjectsState.init (some "0xA1") DashboardStats.init ProfileStats.init
      (allReadsSucceed_ofLedger twoRecords) (by decide)).1⟩

/-! ## Failed builds -/

theorem fetchProjects_failed (c : Contract) (clock : Nat → Int) (st : ViewProjectsState)
    (h : SomeReadFails c) :
    (fetchProjects (some c) clock st).1 =
      { st with message := ⟨"error", "Error loading projects"⟩, loading := false } := by
  rcases h with ⟨e, he⟩ | ⟨count, hcount, j, hj, e, he⟩
  · simp [fetchProjects, he]
  · obtain ⟨e1, he1⟩ := scanThrowing_error c (fetchProjectsBody clock) count 0 []
      ⟨j, hj, e, by simpa using he⟩
    simp only [fetchProjects, hcount]
    rcases hscan : scanProjectsThrowing c (fetchProjectsBody clock) count 0 []
      with ⟨res, reads⟩
    rw [hscan] at he1
    simp only at he1
    subst he1
    rfl

theorem dashboard_fetchStats_failed (c : Contract) (account : Option Address)
    (stats : DashboardStats) (h : SomeReadFails c) :
    (Dashboard.fetchStats c account stats).1 = stats := by
  rcases h with ⟨e, he⟩ | ⟨count, hcount, j, hj, e, he⟩
  · simp [Dashboard.fetchStats, he]
  · obtain ⟨e1, he1⟩ := scanProjects_error c (dashboardBody account) count 0
      ⟨0, 0, F64.zero⟩ ⟨j, hj, e, by simpa using he⟩
    simp only [Dashboard.fetchStats, hcount]
    rcases hscan : scanProjects c (dashboardBody account) count 0 ⟨0, 0, F64.zero⟩
      with ⟨res, reads⟩
    rw [hscan] at he1
    simp only at he1
    subst he1
    rfl

/-- C3. If the count read fails, or the read of some record below the count
fails, the build publishes nothing: `fetchProjects` leaves the `projects` list
as it was, and `Dashboard.fetchStats` and `Profile.fetchStats` leave `stats`
as it was. -/
theorem failed_build_publishes_nothing (c : Contract) (clock : Nat → Int)
    (st : ViewProjectsState) (account : Option Address) (dstats : DashboardStats)
    (pstats : ProfileStats) (h : SomeReadFails c) :
    (fetchProjects (some c) clock st).1.projects = st.projects ∧
      (Dashboard.fetchStats c account dstats).1 = dstats ∧
      (Profile.fetchStats (some ⟨.ok c⟩) account pstats).1 = pstats := by
  refine ⟨by rw [fetchProjects_failed c clock st h],
    dashboard_fetchStats_failed c account dstats h, ?_⟩
  rcases h with ⟨e, he⟩ | ⟨count, hcount, j, hj, e, he⟩
  · cases hm : accountMissing account <;> simp [Profile.fetchStats, hm, he]
  · have hfail : ∃ k, k < count ∧ ∃ e, c.projects (0 + k) = .error e :=
      ⟨j, hj, e, by simpa using he⟩
    obtain ⟨e1, he1⟩ :=
      scanProjects_error c (profileBody account) count 0 ⟨0, F64.zero⟩ hfail
    cases hm : accountMissing account
    · simp only [Profile.fetchStats, hm, hcount]
      rcases hscan : scanProjects c (profileBody account) count 0 ⟨0, F64.zero⟩
        with ⟨res, reads⟩
      rw [hscan] at he1
      simp only at he1
      subst he1
      rfl
    · simp [Profile.fetchStats, hm]

theorem someReadFails_failingAtTwo : SomeReadFails failingAtTwo :=
  Or.inr ⟨3, rfl, 2, by decide, ⟨"CALL_EXCEPTION", "NotFound"⟩, rfl⟩

/-- With a ledger of three records whose record `2` cannot be read, the
previously published list and statistics stay in place. -/
theorem failed_build_publishes_nothing_witness :
    SomeReadFails failingAtTwo ∧
      (fetchProjects (some failingAtTwo) (fun _ => 0)
        { ViewProjectsState.init with
          projects := [ListedProject.ofRecord 0 7
            ⟨"old", "entry", 5, "0xA1", ZeroAddress, 1, false, false⟩]
        }).1.projects =
        [ListedProject.ofRecord 0 7 ⟨"old", "entry", 5, "0xA1", ZeroAddress, 1, false, false⟩] ∧
      (Dashboard.fetchStats failingAtTwo (some "0xA1") ⟨4, 1, 2, F64.finite 0⟩).1 =
        ⟨4, 1, 2, F64.finite 0⟩ ∧
      (Profile.fetchStats (some ⟨.ok failingAtTwo⟩) (some "0xA1") ⟨4, 2, F64.finite 0, 20⟩).1 =
        ⟨4, 2, F64.finite 0, 20⟩ :=
  ⟨someReadFails_failingAtTwo,
    failed_build_publishes_nothing failingAtTwo (fun _ => 0) _ (some "0xA1") _ _
      someReadFails_failingAtTwo⟩
/-! ## Account statistics -/

theorem foldFrom_dashboardBody (account : Option Address) :
    ∀ (xs : List Project) (i : Nat) (acc : DashboardCounters),
      foldFrom (dashboardBody account) i xs acc =
        ⟨acc.activeCount + xs.countP (fun p => createdBy account p && isActive p),
          acc.completedCount + xs.countP (fun p => createdBy account p && p.isCompleted),
          floatSum (xs.filter (fun p => createdBy account p && p.isCompleted))
            acc.totalEarnings⟩ := by
  intro xs
  induction xs with
  | nil => intro i acc; simp [foldFrom, floatSum]
  | cons x xs ih =>
    intro i acc
    by_cases hm : some x.freelancer = account <;>
      cases hc : x.isCompleted <;> cases ha : x.isAccepted <;>
      simp [foldFrom, dashboardBody, ih, hm, hc, ha, createdBy, isActive, floatSum,
        List.countP_cons, List.filter_cons, Nat.add_assoc, Nat.add_comm 1]

theorem foldFrom_profileBody (account : Option Address) :
    ∀ (xs : List Project) (i : Nat) (acc : ProfileCounters),
      foldFrom (profileBody account) i xs acc =
        ⟨acc.completedCount + xs.countP (fun p => createdBy account p && p.isCompleted),
          floatSum (xs.filter (fun p => createdBy account p && p.isCompleted))
            acc.totalEarnings⟩ := by
  intro xs
  induction xs with
  | nil => intro i acc; simp [foldFrom, floatSum]
  | cons x xs ih =>
    intro i acc
    by_cases hm : some x.freelancer = account <;>
      cases hc : x.isCompleted <;>
      simp [foldFrom, profileBody, ih, hm, hc, createdBy, floatSum,
        List.countP_cons, List.filter_cons, Nat.add_assoc, Nat.add_comm 1]

theorem dashboard_fetchStats_ofLedger (ledger : List Project) (account : Option Address)
    (stats : DashboardStats) :
    Dashboard.fetchStats (Contract.ofLedger ledger) account stats =
      (⟨ledger.length,
        ledger.countP (fun p => createdBy account p && isActive p),
        ledger.countP (fun p => createdBy account p && p.isCompleted),
        floatSum (ledger.filter (fun p => createdBy account p && p.isCompleted)) F64.zero⟩,
        LedgerRead.nextProjectId :: fullScan ledger.length) := by
  have hcount : (Contract.ofLedger ledger).nextProjectId = .ok ledger.length := rfl
  simp only [Dashboard.fetchStats, hcount, scanProjects_ofLedger, foldFrom_dashboardBody,
    Nat.zero_add]

theorem profile_fetchStats_ofLedger (ledger : List Project) (account : Option Address)
    (stats : ProfileStats) (hacc : accountMissing account = false) :
    Profile.fetchStats (some ⟨.ok (Contract.ofLedger ledger)⟩) account stats =
      (⟨ledger.length,
        ledger.countP (fun p => createdBy account p && p.isCompleted),
        floatSum (ledger.filter (fun p => createdBy account p && p.isCompleted)) F64.zero,
        ledger.countP (fun p => createdBy account p && p.isCompleted) * 10⟩,
        LedgerRead.nextProjectId :: fullScan ledger.length) := by
  have hcount : (Contract.ofLedger ledger).nextProjectId = .ok ledger.length := rfl
  simp only [Profile.fetchStats, hacc, hcount, scanProjects_ofLedger, foldFrom_profileBody,
    Nat.zero_add]
  rfl

theorem accountMissing_some (a : Address) (ha : a ≠ "") : accountMissing (some a) = false := by
  simp [accountMissing, ha]

/-- C4, as stated, fails: over a ledger whose only record belongs to another
account both builds publish `totalProjects = 1`, while the account created no
record. -/
theorem totalProjects_counts_foreign_records :
    (Dashboard.fetchStats (Contract.ofLedger foreignRecord) (some "0xA1")
        DashboardStats.init).1.totalProjects = 1 ∧
      (Profile.fetchStats (some ⟨.ok (Contract.ofLedger foreignRecord)⟩) (some "0xA1")
        ProfileStats.init).1.totalProjects = 1 ∧
      foreignRecord.countP (fun p => decide (p.freelancer = "0xA1")) = 0 := by
  decide

/-- C4, amended. For every ledger and account, the `totalProjects` statistic
published by `Dashboard.fetchStats` and by `Profile.fetchStats` is the number
of records on the ledger, whoever created them. -/
theorem totalProjects_eq_ledger_length (ledger : List Project) (account : Address)
    (dstats : DashboardStats) (pstats : ProfileStats) (ha : account ≠ "") :
    (Dashboard.fetchStats (Contract.ofLedger ledger) (some account) dstats).1.totalProjects =
        ledger.length ∧
      (Profile.fetchStats (some ⟨.ok (Contract.ofLedger ledger)⟩) (some account)
        pstats).1.totalProjects = ledger.length := by
  rw [dashboard_fetchStats_ofLedger,
    profile_fetchStats_ofLedger ledger (some account) pstats (accountMissing_some account ha)]
  exact ⟨rfl, rfl⟩

/-- The ledger with one foreign record has `totalProjects = 1` on both pages. -/
theorem totalProjects_eq_ledger_length_witness :
    ("0xA1" : Address) ≠ "" ∧
      (Dashboard.fetchStats (Contract.ofLedger foreignRecord) (some "0xA1")
        DashboardStats.init).1.totalProjects = foreignRecord.length ∧
      (Profile.fetchStats (some ⟨.ok (Contract.ofLedger foreignRecord)⟩) (some "0xA1")
        ProfileStats.init).1.totalProjects = foreignRecord.length :=
  ⟨by decide,
    totalProjects_eq_ledger_length foreignRecord "0xA1" DashboardStats.init ProfileStats.init
      (by decide)⟩

/-- C5, as stated, fails: a record of the account with the accepted flag set
and the zero client is counted as active, although it has no client set. -/
theorem activeProjects_counts_flag_without_client :
    (Dashboard.fetchStats (Contract.ofLedger flaggedWithoutClient) (some "0xA1")
        DashboardStats.init).1.activeProjects = 1 ∧
      flaggedWithoutClient.countP (fun p =>
        decide (p.freelancer = "0xA1") && decide (p.client ≠ ZeroAddress) &&
          !p.isCompleted) = 0 := by
  decide

/-- C5, amended. For every ledger and account, `activeProjects` published by
`Dashboard.fetchStats` is the number of records created by the account whose
`isAccepted` is true and whose `isCompleted` is false; on a ledger where
`isAccepted` holds exactly for the records with a client set, this is the
number of records created by the account with a client set and `isCompleted`
false. -/
theorem activeProjects_eq_count_accepted_flag (ledger : List Project) (account : Address)
    (dstats : DashboardStats) :
    (Dashboard.fetchStats (Contract.ofLedger ledger) (some account) dstats).1.activeProjects =
        ledger.countP (fun p =>
          decide (p.freelancer = account) && p.isAccepted && !p.isCompleted) ∧
      ((∀ p ∈ ledger, p.isAccepted = true ↔ p.client ≠ ZeroAddress) →
        (Dashboard.fetchStats (Contract.ofLedger ledger) (some account)
            dstats).1.activeProjects =
          ledger.countP (fun p =>
            decide (p.freelancer = account) && decide (p.client ≠ ZeroAddress) &&
              !p.isCompleted)) := by
  rw [dashboard_fetchStats_ofLedger]
  have h1 : ledger.countP (fun p => createdBy (some account) p && isActive p) =
      ledger.countP (fun p =>
        decide (p.freelancer = account) && p.isAccepted && !p.isCompleted) := by
    apply List.countP_congr
    intro p _
    cases hc : p.isCompleted <;> cases hacc : p.isAccepted <;>
      simp [createdBy, isActive, hc, hacc]
  refine ⟨h1, ?_⟩
  intro hwf
  show ledger.countP (fun p => createdBy (some account) p && isActive p) = _
  rw [h1]
  apply List.countP_congr
  intro p hp
  have hiff := hwf p hp
  cases hacc : p.isAccepted
  · have : p.client = ZeroAddress := by
      by_contra hne
      have := hiff.mpr hne
      simp [hacc] at this
    simp [this]
  · have : p.client ≠ ZeroAddress := hiff.mp hacc
    simp [this]

/-- On the two-record ledger, whose flags agree with its clients, the one
accepted record of `0xA1` is the one active project. -/
theorem activeProjects_eq_count_accepted_flag_witness :
    (∀ p ∈ twoRecords, p.isAccepted = true ↔ p.client ≠ ZeroAddress) ∧
      (Dashboard.fetchStats (Contract.ofLedger twoRecords) (some "0xA1")
        DashboardStats.init).1.activeProjects = 1 := by
  have hwf : ∀ p ∈ twoRecords, p.isAccepted = true ↔ p.client ≠ ZeroAddress := by decide
  refine ⟨hwf, ?_⟩
  rw [(activeProjects_eq_count_accepted_flag twoRecords "0xA1" DashboardStats.init).2 hwf]
  decide

/-! ## Earnings and reputation -/

set_option exponentiation.threshold 4096 in
set_option maxRecDepth 100000 in
/-- C6, as stated, fails: for two completed records of 0.1 and 0.2 ether the
amounts sum to 3 * 10 ^ 17 wei, yet the published `totalEarnings` is neither
exactly 3 / 10 nor the number nearest to it, `Number("0.3")`. -/
theorem totalEarnings_not_exact :
    (tenthAndFifth.map (fun p => p.amount)).sum = 3 * 10 ^ 17 ∧
      ¬ F64.IsExactly (Dashboard.fetchStats (Contract.ofLedger tenthAndFifth) (some "0xA1")
        DashboardStats.init).1.totalEarnings (3 * 10 ^ 17) (10 ^ 18) ∧
      (Dashboard.fetchStats (Contract.ofLedger tenthAndFifth) (some "0xA1")
        DashboardStats.init).1.totalEarnings ≠ Number "0.3" ∧
      (Profile.fetchStats (some ⟨.ok (Contract.ofLedger tenthAndFifth)⟩) (some "0xA1")
        ProfileStats.init).1.totalEarnings ≠ Number "0.3" := by
  decide

/-- C6, amended. For every ledger and account, `totalEarnings` published by
either `fetchStats` is the floating-point running total, started from `0` and
taken in ledger order, of `Number(formatEther(amount))` over exactly the
records with `freelancer == account` and `isCompleted == true`; records of
other creators and records that are not completed contribute nothing. -/
theorem totalEarnings_eq_floatSum (ledger : List Project) (account : Address)
    (dstats : DashboardStats) (pstats : ProfileStats) (ha : account ≠ "") :
    (Dashboard.fetchStats (Contract.ofLedger ledger) (some account) dstats).1.totalEarnings =
        floatSum (ledger.filter (fun p => decide (p.freelancer = account) && p.isCompleted))
          F64.zero ∧
      (Profile.fetchStats (some ⟨.ok (Contract.ofLedger ledger)⟩) (some account)
          pstats).1.totalEarnings =
        floatSum (ledger.filter (fun p => decide (p.freelancer = account) && p.isCompleted))
          F64.zero := by
  rw [dashboard_fetchStats_ofLedger,
    profile_fetchStats_ofLedger ledger (some account) pstats (accountMissing_some account ha)]
  have h : (fun p : Project => createdBy (some account) p && p.isCompleted) =
      (fun p => decide (p.freelancer = account) && p.isCompleted) := by
    funext p
    simp [createdBy]
  refine ⟨?_, ?_⟩ <;> simp only [h]

set_option exponentiation.threshold 4096 in
set_option maxRecDepth 100000 in
/-- For 0.1 and 0.2 ether the running total is the sum of the two converted
amounts. -/
theorem totalEarnings_eq_floatSum_witness :
    ("0xA1" : Address) ≠ "" ∧
      (Dashboard.fetchStats (Contract.ofLedger tenthAndFifth) (some "0xA1")
        DashboardStats.init).1.totalEarnings = F64.add (Number "0.1") (Number "0.2") := by
  refine ⟨by decide, ?_⟩
  rw [(totalEarnings_eq_floatSum tenthAndFifth "0xA1" DashboardStats.init ProfileStats.init
    (by decide)).1]
  decide

set_option exponentiation.threshold 4096 in
set_option maxRecDepth 100000 in
/-- C7, as stated, fails: for the two completed records of 50000000000000000
and 30000000000000000 wei `Profile.fetchStats` does not compute earnings 0.8
(neither exactly 8 / 10 nor the number `0.8`). -/
theorem scenario_earnings_not_point_eight :
    ¬ F64.IsExactly (Profile.fetchStats (some ⟨.ok (Contract.ofLedger scenarioEarnings)⟩)
        (some "0xA1") ProfileStats.init).1.totalEarnings 8 10 ∧
      (Profile.fetchStats (some ⟨.ok (Contract.ofLedger scenarioEarnings)⟩)
        (some "0xA1") ProfileStats.init).1.totalEarnings ≠ Number "0.8" := by
  decide

set_option exponentiation.threshold 4096 in
set_option maxRecDepth 100000 in
theorem floatSum_scenario (r1 r2 : Project)
    (hamt : (r1.amount = 50000000000000000 ∧ r2.amount = 30000000000000000) ∨
      (r1.amount = 30000000000000000 ∧ r2.amount = 50000000000000000)) :
    floatSum [r1, r2] F64.zero = Number "0.08" := by
  rcases hamt with ⟨h1, h2⟩ | ⟨h1, h2⟩ <;>
    · simp only [floatSum, List.foldl_cons, List.foldl_nil, h1, h2]
      decide

/-- C7, amended. For a ledger whose only records created by the account are
two completed records with amounts 50000000000000000 and 30000000000000000
wei, `Profile.fetchStats` computes earnings 0.08 (the number `0.08`),
`completedProjects = 2` and reputation 20. -/
theorem scenario_earnings_and_reputation (ledger : List Project) (account : Address)
    (pstats : ProfileStats) (r1 r2 : Project) (ha : account ≠ "")
    (hmine : ledger.filter (fun p => decide (p.freelancer = account)) = [r1, r2])
    (hc1 : r1.isCompleted = true) (hc2 : r2.isCompleted = true)
    (hamt : (r1.amount = 50000000000000000 ∧ r2.amount = 30000000000000000) ∨
      (r1.amount = 30000000000000000 ∧ r2.amount = 50000000000000000)) :
    (Profile.fetchStats (some ⟨.ok (Contract.ofLedger ledger)⟩) (some account)
        pstats).1.totalEarnings = Number "0.08" ∧
      (Profile.fetchStats (some ⟨.ok (Contract.ofLedger ledger)⟩) (some account)
        pstats).1.completedProjects = 2 ∧
      (Profile.fetchStats (some ⟨.ok (Contract.ofLedger ledger)⟩) (some account)
        pstats).1.reputation = 20 := by
  rw [profile_fetchStats_ofLedger ledger (some account) pstats (accountMissing_some account ha)]
  have hsplit : ledger.filter (fun p => createdBy (some account) p && p.isCompleted) =
      [r1, r2] := by
    have h : (fun p : Project => createdBy (some account) p && p.isCompleted) =
        (fun p => p.isCompleted && decide (p.freelancer = account)) := by
      funext p
      simp [createdBy, Bool.and_comm]
    rw [h, ← List.filter_filter, hmine]
    simp [hc1, hc2]
  have hcount : ledger.countP (fun p => createdBy (some account) p && p.isCompleted) = 2 := by
    rw [List.countP_eq_length_filter, hsplit]
    rfl
  refine ⟨?_, hcount, ?_⟩
  · show floatSum (ledger.filter _) F64.zero = _
    rw [hsplit]
    exact floatSum_scenario r1 r2 hamt
  · show ledger.countP _ * 10 = 20
    rw [hcount]

/-- The scenario ledger itself: earnings 0.08 and reputation 20. -/
theorem scenario_earnings_and_reputation_witness :
    (Profile.fetchStats (some ⟨.ok (Contract.ofLedger scenarioEarnings)⟩) (some "0xA1")
        ProfileStats.init).1.totalEarnings = Number "0.08" ∧
      (Profile.fetchStats (some ⟨.ok (Contract.ofLedger scenarioEarnings)⟩) (some "0xA1")
        ProfileStats.init).1.completedProjects = 2 ∧
      (Profile.fetchStats (some ⟨.ok (Contract.ofLedger scenarioEarnings)⟩) (some "0xA1")
        ProfileStats.init).1.reputation = 20 :=
  scenario_earnings_and_reputation scenarioEarnings "0xA1" ProfileStats.init
    ⟨"one", "first", 50000000000000000, "0xA1", "0xC1", 1700000000, true, true⟩
    ⟨"two", "second", 30000000000000000, "0xA1", "0xC1", 1700000000, true, true⟩
    (by decide) (by decide) rfl rfl (Or.inl ⟨rfl, rfl⟩)

/-- C8. For every ledger and account, the reputation published by
`Profile.fetchStats` is 10 times `completedProjects`, and `completedProjects`
is the number of records with `freelancer == account` and `isCompleted ==
true`.  Hence reputation does not decrease when the completed count grows, and
it has no ceiling: every bound is reached by some ledger. -/
theorem reputation_eq_ten_times_completed (account : Address) (ha : account ≠ "") :
    (∀ (ledger : List Project) (pstats : ProfileStats),
        (Profile.fetchStats (some ⟨.ok (Contract.ofLedger ledger)⟩) (some account)
            pstats).1.reputation =
          10 * (Profile.fetchStats (some ⟨.ok (Contract.ofLedger ledger)⟩) (some account)
            pstats).1.completedProjects ∧
        (Profile.fetchStats (some ⟨.ok (Contract.ofLedger ledger)⟩) (some account)
            pstats).1.completedProjects =
          ledger.countP (fun p => decide (p.freelancer = account) && p.isCompleted)) ∧
      (∀ (l1 l2 : List Project) (pstats : ProfileStats),
        (Profile.fetchStats (some ⟨.ok (Contract.ofLedger l1)⟩) (some account)
            pstats).1.completedProjects ≤
          (Profile.fetchStats (some ⟨.ok (Contract.ofLedger l2)⟩) (some account)
            pstats).1.completedProjects →
        (Profile.fetchStats (some ⟨.ok (Contract.ofLedger l1)⟩) (some account)
            pstats).1.reputation ≤
          (Profile.fetchStats (some ⟨.ok (Contract.ofLedger l2)⟩) (some account)
            pstats).1.reputation) ∧
      (∀ (bound : Nat) (pstats : ProfileStats), ∃ ledger : List Project,
        bound ≤ (Profile.fetchStats (some ⟨.ok (Contract.ofLedger ledger)⟩) (some account)
          pstats).1.reputation) := by
  have hm := accountMissing_some account ha
  have h : (fun p : Project => createdBy (some account) p && p.isCompleted) =
      (fun p => decide (p.freelancer = account) && p.isCompleted) := by
    funext p
    simp [createdBy]
  refine ⟨?_, ?_, ?_⟩
  · intro ledger pstats
    rw [profile_fetchStats_ofLedger ledger (some account) pstats hm]
    refine ⟨Nat.mul_comm _ _, ?_⟩
    simp only [h]
  · intro l1 l2 pstats
    rw [profile_fetchStats_ofLedger l1 (some account) pstats hm,
      profile_fetchStats_ofLedger l2 (some account) pstats hm]
    intro hle
    exact Nat.mul_le_mul_right 10 hle
  · intro bound pstats
    refine ⟨List.replicate bound (completedRecord account), ?_⟩
    rw [profile_fetchStats_ofLedger _ (some account) pstats hm]
    have hall : (List.replicate bound (completedRecord account)).countP
        (fun p => createdBy (some account) p && p.isCompleted) = bound := by
      have hlen := (List.countP_eq_length
        (p := fun p : Project => createdBy (some account) p && p.isCompleted)
        (l := List.replicate bound (completedRecord account))).mpr (by
          intro a hmem
          rw [List.eq_of_mem_replicate hmem]
          simp [createdBy, completedRecord])
      simpa using hlen
    show bound ≤ _ * 10
    rw [hall]
    omega

/-- Three completed records of `0xA1` give reputation 30. -/
theorem reputation_eq_ten_times_completed_witness :
    ("0xA1" : Address) ≠ "" ∧
      (Profile.fetchStats (some ⟨.ok (Contract.ofLedger
        (List.replicate 3 (completedRecord "0xA1")))⟩) (some "0xA1")
        ProfileStats.init).1.reputation = 10 * 3 := by
  refine ⟨by decide, ?_⟩
  have h := (reputation_eq_ten_times_completed "0xA1" (by decide)).1
    (List.replicate 3 (completedRecord "0xA1")) ProfileStats.init
  rw [h.1, h.2]
  decide

/-! ## Lifecycle classes -/

/-- C9, as stated, fails: a completed record without a client falls in two
classes (it passes the test under which `fetchProjects` lists a record and is
counted as completed by `Dashboard.fetchStats`), and a record with a client set
whose flags are both false falls in none. -/
theorem lifecycle_classes_overlap_and_gap :
    classCount completedUnaccepted = 2 ∧
      classCount clientWithoutFlags = 0 ∧
      (isOpen completedUnaccepted = true ∧ isCompleted completedUnaccepted = true) ∧
      (Dashboard.fetchStats (Contract.ofLedger [completedUnaccepted]) (some "0xA1")
        DashboardStats.init).1.completedProjects = 1 := by
  decide

/-- C9, amended. For any record whose flags agree with the ledger lifecycle
(`isAccepted` exactly when a client is set, `isCompleted` only when
accepted), exactly one of the three classes of the code holds.  The classes
are the tests of the code: the loop of `fetchProjects` builds and pushes an
entry exactly when the record is open, and the loop of `Dashboard.fetchStats`
adds one to the active count exactly when a record of the account is active
and one to the completed count exactly when it is completed. -/
theorem lifecycle_classes_partition (p : Project) (h : p.Consistent) :
    classCount p = 1 ∧
      (∀ (clock : Nat → Int) (i : Nat) (acc : List ListedProject),
        fetchProjectsBody clock i p acc =
          if isOpen p then (listProject (clock i) i p).map (fun entry => acc ++ [entry])
          else .ok acc) ∧
      (∀ (i : Nat) (acc : DashboardCounters),
        (dashboardBody (some p.freelancer) i p acc).activeCount =
            acc.activeCount + (isActive p).toNat ∧
          (dashboardBody (some p.freelancer) i p acc).completedCount =
            acc.completedCount + (isCompleted p).toNat) := by
  obtain ⟨hacc, hcomp⟩ := h
  refine ⟨?_, ?_, ?_⟩
  · cases hc : p.isCompleted <;> cases ha : p.isAccepted
    · have hcl : p.client = ZeroAddress := by
        by_contra hne
        have := hacc.mpr hne
        simp [ha] at this
      simp [classCount, isOpen, isActive, isCompleted, hc, ha, hcl]
    · have hcl : p.client ≠ ZeroAddress := hacc.mp ha
      simp [classCount, isOpen, isActive, isCompleted, hc, ha, hcl]
    · have := hcomp hc
      simp [ha] at this
    · have hcl : p.client ≠ ZeroAddress := hacc.mp ha
      simp [classCount, isOpen, isActive, isCompleted, hc, ha, hcl]
  · intro clock i acc
    by_cases hcl : p.client = ZeroAddress <;> simp [fetchProjectsBody, isOpen, hcl]
  · intro i acc
    cases hc : p.isCompleted <;> cases ha : p.isAccepted <;>
      simp [dashboardBody, isActive, isCompleted, hc, ha]

/-- An accepted, not completed record with a client set is in exactly one
class. -/
theorem lifecycle_classes_partition_witness :
    Project.Consistent ⟨"c", "d", 2, "0xA1", "0xC1", 6, true, false⟩ ∧
      classCount ⟨"c", "d", 2, "0xA1", "0xC1", 6, true, false⟩ = 1 :=
  ⟨by simp [Project.Consistent, ZeroAddress],
    (lifecycle_classes_partition ⟨"c", "d", 2, "0xA1", "0xC1", 6, true, false⟩
      (by simp [Project.Consistent, ZeroAddress])).1⟩

/-! ## Completed records that were never accepted -/

set_option exponentiation.threshold 4096 in
set_option maxRecDepth 100000 in
/-- C10, as stated, fails: over a ledger whose only record is completed but
was never accepted and has no client, the statistics builds surface no
failure; the record is counted in `completedProjects` and `totalEarnings`, and
the message of `Profile` stays empty.  Over a ledger whose only record is
completed with a client set and the accepted flag false, `fetchProjects`
surfaces no failure either: it leaves the message empty. -/
theorem completed_unaccepted_is_counted_silently :
    completedUnaccepted.isCompleted = true ∧
      completedUnaccepted.isAccepted = false ∧
      completedUnaccepted.client = ZeroAddress ∧
      (Dashboard.fetchStats (Contract.ofLedger [completedUnaccepted]) (some "0xA1")
        DashboardStats.init).1 = ⟨1, 0, 1, Number "1.0"⟩ ∧
      (Profile.fetchStats (some ⟨.ok (Contract.ofLedger [completedUnaccepted])⟩) (some "0xA1")
        ProfileStats.init).1 = ⟨1, 1, Number "1.0", 10⟩ ∧
      (Profile.afterFetchStats (some ⟨.ok (Contract.ofLedger [completedUnaccepted])⟩)
        (some "0xA1") ProfileState.init).message = ⟨"", ""⟩ ∧
      (completedNeverFlagged.isCompleted = true ∧ completedNeverFlagged.isAccepted = false) ∧
      (fetchProjects (some (Contract.ofLedger [completedNeverFlagged])) (fun _ => 0)
        ViewProjectsState.init).1 =
        { ViewProjectsState.init with projects := [], loading := false } := by
  decide

/-- C10, amended. A record with `isCompleted == true` is counted by that flag
alone, whether or not it was accepted: the statistics builds have no integrity
check and surface no failure for it.  If it was created by the account it is
among the records that `Dashboard.fetchStats` and `Profile.fetchStats` count in
`completedProjects` and add up in `totalEarnings`; the only state either build
touches is `stats`, so the message of `Profile` is as before.  On a ledger
none of whose records is open, the marketplace build does not list it and
leaves the message as it was. -/
theorem completed_flag_alone_classifies (ledger : List Project) (i : Nat) (p : Project)
    (account : Address) (clock : Nat → Int) (st : ViewProjectsState)
    (dstats : DashboardStats) (pst : ProfileState) (hget : ledger[i]? = some p)
    (hcomp : p.isCompleted = true) (hmine : p.freelancer = account) (ha : account ≠ "") :
    p ∈ ledger.filter (fun q => decide (q.freelancer = account) && q.isCompleted) ∧
      ((Dashboard.fetchStats (Contract.ofLedger ledger) (some account)
            dstats).1.completedProjects =
          (ledger.filter (fun q => decide (q.freelancer = account) && q.isCompleted)).length ∧
        (Dashboard.fetchStats (Contract.ofLedger ledger) (some account)
            dstats).1.totalEarnings =
          floatSum (ledger.filter
            (fun q => decide (q.freelancer = account) && q.isCompleted)) F64.zero) ∧
      ((Profile.afterFetchStats (some ⟨.ok (Contract.ofLedger ledger)⟩) (some account)
            pst).stats.completedProjects =
          (ledger.filter (fun q => decide (q.freelancer = account) && q.isCompleted)).length ∧
        (Profile.afterFetchStats (some ⟨.ok (Contract.ofLedger ledger)⟩) (some account)
            pst).stats.totalEarnings =
          floatSum (ledger.filter
            (fun q => decide (q.freelancer = account) && q.isCompleted)) F64.zero ∧
        (Profile.afterFetchStats (some ⟨.ok (Contract.ofLedger ledger)⟩) (some account)
            pst).message = pst.message) ∧
      ((∀ q ∈ ledger, q.client ≠ ZeroAddress) →
        (fetchProjects (some (Contract.ofLedger ledger)) clock st).1 =
          { st with projects := [], loading := false }) := by
  have h : (fun q : Project => createdBy (some account) q && q.isCompleted) =
      (fun q => decide (q.freelancer = account) && q.isCompleted) := by
    funext q
    simp [createdBy]
  refine ⟨?_, ⟨?_, ?_⟩, ⟨?_, ?_, rfl⟩, ?_⟩
  · rw [List.mem_filter]
    exact ⟨List.getElem?_mem hget, by simp [hmine, hcomp]⟩
  · rw [dashboard_fetchStats_ofLedger]
    show ledger.countP _ = _
    rw [List.countP_eq_length_filter, h]
  · rw [dashboard_fetchStats_ofLedger]
    show floatSum (ledger.filter _) F64.zero = _
    rw [h]
  · rw [Profile.afterFetchStats,
      profile_fetchStats_ofLedger ledger (some account) pst.stats (accountMissing_some account ha)]
    show ledger.countP _ = _
    rw [List.countP_eq_length_filter, h]
  · rw [Profile.afterFetchStats,
      profile_fetchStats_ofLedger ledger (some account) pst.stats (accountMissing_some account ha)]
    show floatSum (ledger.filter _) F64.zero = _
    rw [h]
  · intro hclosed
    rw [fetchProjects_ofLedger_closed ledger clock st hclosed]

set_option exponentiation.threshold 4096 in
set_option maxRecDepth 100000 in
/-- The never-accepted completed record, alone on the ledger, is counted as
one completed project worth one ether. -/
theorem completed_flag_alone_classifies_witness :
    completedUnaccepted.isAccepted = false ∧
      (Dashboard.fetchStats (Contract.ofLedger [completedUnaccepted]) (some "0xA1")
        DashboardStats.init).1.completedProjects = 1 ∧
      (Dashboard.fetchStats (Contract.ofLedger [completedUnaccepted]) (some "0xA1")
        DashboardStats.init).1.totalEarnings = Number "1.0" := by
  have h := (completed_flag_alone_classifies [completedUnaccepted] 0 completedUnaccepted "0xA1"
    (fun _ => 0) ViewProjectsState.init DashboardStats.init ProfileState.init rfl rfl rfl
    (by decide)).2.1
  refine ⟨rfl, ?_, ?_⟩
  · rw [h.1]
    rfl
  · rw [h.2]
    decide
/-! ## Text search -/

theorem includesChars_iff (s t : List Char) : includesChars s t = true ↔ t <:+: s := by
  induction s with
  | nil => simp [includesChars]
  | cons c s ih =>
    simp only [includesChars, Bool.or_eq_true, ih, List.infix_cons_iff]
    simp

theorem includes_empty (s : String) : includes s "" = true := by
  rw [includes, includesChars_iff]
  exact List.nil_infix

theorem char_toLower_toUpper (c : Char) : c.toUpper.toLower = c.toLower := by
  by_cases h : c.toNat ≥ 97 ∧ c.toNat ≤ 122
  · have h1 : c.toUpper = Char.ofNat (c.toNat - 32) := by simp [Char.toUpper, h]
    have hv : (Char.ofNat (c.toNat - 32)).toNat = c.toNat - 32 := by
      obtain ⟨h97, h122⟩ := h
      generalize c.toNat = n at h97 h122
      interval_cases n <;> rfl
    have h2 : c.toLower = c := by
      have : ¬ (c.toNat ≥ 65 ∧ c.toNat ≤ 90) := by omega
      simp [Char.toLower, this]
    rw [h1, h2]
    have h3 : (Char.ofNat (c.toNat - 32)).toNat ≥ 65 ∧ (Char.ofNat (c.toNat - 32)).toNat ≤ 90 := by
      rw [hv]; omega
    show (if (Char.ofNat (c.toNat - 32)).toNat ≥ 65 ∧ (Char.ofNat (c.toNat - 32)).toNat ≤ 90
      then Char.ofNat ((Char.ofNat (c.toNat - 32)).toNat + 32) else Char.ofNat (c.toNat - 32)) = c
    rw [if_pos h3, hv, show c.toNat - 32 + 32 = c.toNat by omega, Char.ofNat_toNat]
  · have h1 : c.toUpper = c := by simp [Char.toUpper, h]
    rw [h1]

theorem char_toLower_toLower (c : Char) : c.toLower.toLower = c.toLower := by
  by_cases h : c.toNat ≥ 65 ∧ c.toNat ≤ 90
  · have h1 : c.toLower = Char.ofNat (c.toNat + 32) := by simp [Char.toLower, h]
    have hv : (Char.ofNat (c.toNat + 32)).toNat = c.toNat + 32 := by
      obtain ⟨h97, h122⟩ := h
      generalize c.toNat = n at h97 h122
      interval_cases n <;> rfl
    rw [h1]
    have : ¬ ((Char.ofNat (c.toNat + 32)).toNat ≥ 65 ∧ (Char.ofNat (c.toNat + 32)).toNat ≤ 90) := by
      rw [hv]; omega
    simp [Char.toLower, this]
  · have h1 : c.toLower = c := by simp [Char.toLower, h]
    rw [h1, h1]

theorem char_toUpper_ascii (c : Char) (h : c.toNat < 128) : c.toUpper.toNat < 128 := by
  by_cases hc : c.toNat ≥ 97 ∧ c.toNat ≤ 122
  · have h1 : c.toUpper = Char.ofNat (c.toNat - 32) := by simp [Char.toUpper, hc]
    rw [h1]
    obtain ⟨h97, h122⟩ := hc
    generalize c.toNat = n at h97 h122
    interval_cases n <;> decide
  · have h1 : c.toUpper = c := by simp [Char.toUpper, hc]
    rw [h1]
    exact h

theorem char_toLower_ascii (c : Char) (h : c.toNat < 128) : c.toLower.toNat < 128 := by
  by_cases hc : c.toNat ≥ 65 ∧ c.toNat ≤ 90
  · have h1 : c.toLower = Char.ofNat (c.toNat + 32) := by simp [Char.toLower, hc]
    rw [h1]
    obtain ⟨h65, h90⟩ := hc
    generalize c.toNat = n at h65 h90
    interval_cases n <;> decide
  · have h1 : c.toLower = c := by simp [Char.toLower, hc]
    rw [h1]
    exact h

theorem asciiToLowerCase_toUpperCase (s : String) :
    asciiToLowerCase (asciiToUpperCase s) = asciiToLowerCase s := by
  simp [asciiToLowerCase, asciiToUpperCase, Function.comp_def, char_toLower_toUpper]

theorem asciiToLowerCase_toLowerCase (s : String) :
    asciiToLowerCase (asciiToLowerCase s) = asciiToLowerCase s := by
  simp [asciiToLowerCase, Function.comp_def, char_toLower_toLower]

theorem isAscii_toUpperCase (s : String) (h : isAscii s = true) :
    isAscii (asciiToUpperCase s) = true := by
  simp only [isAscii, asciiToUpperCase, List.all_eq_true, decide_eq_true_eq, List.mem_map] at h ⊢
  rintro c ⟨d, hd, rfl⟩
  exact char_toUpper_ascii d (h d hd)

theorem isAscii_toLowerCase (s : String) (h : isAscii s = true) :
    isAscii (asciiToLowerCase s) = true := by
  simp only [isAscii, asciiToLowerCase, List.all_eq_true, decide_eq_true_eq, List.mem_map] at h ⊢
  rintro c ⟨d, hd, rfl⟩
  exact char_toLower_ascii d (h d hd)

theorem toLowerCase_empty (js : CaseTables) : js.toLowerCase "" = "" := by
  rw [js.onAscii "" rfl]
  rfl

theorem toLowerCase_upper (js : CaseTables) (s : String) (h : isAscii s = true) :
    js.toLowerCase (asciiToUpperCase s) = js.toLowerCase s := by
  rw [js.onAscii _ (isAscii_toUpperCase s h), js.onAscii s h, asciiToLowerCase_toUpperCase]

theorem toLowerCase_lower (js : CaseTables) (s : String) (h : isAscii s = true) :
    js.toLowerCase (asciiToLowerCase s) = js.toLowerCase s := by
  rw [js.onAscii _ (isAscii_toLowerCase s h), js.onAscii s h, asciiToLowerCase_toLowerCase]

theorem mem_filteredAndSortedProjects (js : CaseTables) (st : ViewProjectsState)
    (p : ListedProject) :
    p ∈ filteredAndSortedProjects js st ↔
      p ∈ st.projects ∧ matchesSearch js st.searchTerm p = true ∧
        matchesFilter st.filterBy p = true := by
  simp [filteredAndSortedProjects, sortProjects, List.mem_insertionSort, List.mem_filter]

theorem matchesSearch_iff (js : CaseTables) (term : String) (p : ListedProject) :
    matchesSearch js term p = true ↔
      ((js.toLowerCase term).data <:+: (js.toLowerCase p.name).data ∨
        (js.toLowerCase term).data <:+: (js.toLowerCase p.description).data) := by
  simp [matchesSearch, includes, includesChars_iff]

theorem matchesSearch_congr (js : CaseTables) (t1 t2 : String)
    (h : js.toLowerCase t1 = js.toLowerCase t2) :
    matchesSearch js t1 = matchesSearch js t2 := by
  funext p
  simp [matchesSearch, h]

theorem matchesSearch_empty (js : CaseTables) (p : ListedProject) :
    matchesSearch js "" p = true := by
  rw [matchesSearch_iff, toLowerCase_empty]
  exact Or.inl List.nil_infix

/-- On ASCII text the search of every engine is the search with the ASCII
case tables. -/
theorem matchesSearch_ascii (js : CaseTables) (term : String) (p : ListedProject)
    (hterm : isAscii term = true) (hname : isAscii p.name = true)
    (hdesc : isAscii p.description = true) :
    matchesSearch js term p = matchesSearch asciiTables term p := by
  simp only [matchesSearch, js.onAscii term hterm, js.onAscii p.name hname,
    js.onAscii p.description hdesc, asciiTables]

theorem query_ascii (js : CaseTables) (st : ViewProjectsState)
    (hterm : isAscii st.searchTerm = true)
    (htexts : ∀ p ∈ st.projects, isAscii p.name = true ∧ isAscii p.description = true) :
    filteredAndSortedProjects js st = filteredAndSortedProjects asciiTables st := by
  simp only [filteredAndSortedProjects]
  congr 1
  apply List.filter_congr
  intro p hp
  rw [matchesSearch_ascii js st.searchTerm p hterm (htexts p hp).1 (htexts p hp).2]

/-- C11. Under `filterBy = "all"` the query keeps a project if and only if the
lower-cased search term is a substring of its lower-cased name or of its
lower-cased description, whatever the case tables of the engine.  Hence the
result does not depend on letter case: two terms with the same lower-casing
give the same result, and two projects whose names and descriptions have the
same lower-casings are kept or dropped together; on ASCII text, where the
lower-casing is known, the upper-cased and the lower-cased term give the result
of the term itself, and upper-casing or lower-casing the name and description
of a project does not change whether it is kept.  The empty term keeps every
project.  On the demo list of `Logo` and `Site` the term `LOGO` keeps both
(`Logo` by its name, `Site` by its description) and the term `banner` keeps
neither. -/
theorem search_keeps_iff_substring (js : CaseTables) (st : ViewProjectsState)
    (hall : st.filterBy = "all") :
    (∀ p, p ∈ filteredAndSortedProjects js st ↔
        p ∈ st.projects ∧
          ((js.toLowerCase st.searchTerm).data <:+: (js.toLowerCase p.name).data ∨
            (js.toLowerCase st.searchTerm).data <:+: (js.toLowerCase p.description).data)) ∧
      (∀ term, js.toLowerCase term = js.toLowerCase st.searchTerm →
        filteredAndSortedProjects js { st with searchTerm := term } =
          filteredAndSortedProjects js st) ∧
      (∀ p q : ListedProject, js.toLowerCase p.name = js.toLowerCase q.name →
        js.toLowerCase p.description = js.toLowerCase q.description →
        matchesSearch js st.searchTerm p = matchesSearch js st.searchTerm q) ∧
      (isAscii st.searchTerm = true →
        filteredAndSortedProjects js { st with searchTerm := asciiToUpperCase st.searchTerm } =
            filteredAndSortedProjects js st ∧
          filteredAndSortedProjects js { st with searchTerm := asciiToLowerCase st.searchTerm } =
            filteredAndSortedProjects js st) ∧
      (∀ p : ListedProject, isAscii p.name = true → isAscii p.description = true →
        matchesSearch js st.searchTerm
            { p with name := asciiToUpperCase p.name,
                     description := asciiToUpperCase p.description } =
          matchesSearch js st.searchTerm p ∧
        matchesSearch js st.searchTerm
            { p with name := asciiToLowerCase p.name,
                     description := asciiToLowerCase p.description } =
          matchesSearch js st.searchTerm p) ∧
      (st.searchTerm = "" → (filteredAndSortedProjects js st).Perm st.projects) ∧
      (filteredAndSortedProjects js searchDemo = [siteEntry, logoEntry] ∧
        filteredAndSortedProjects js { searchDemo with searchTerm := "banner" } = []) := by
  have hfilter : ∀ p, matchesFilter st.filterBy p = true := by
    intro p
    simp [matchesFilter, hall]
  have hcongr : ∀ term, js.toLowerCase term = js.toLowerCase st.searchTerm →
      filteredAndSortedProjects js { st with searchTerm := term } =
        filteredAndSortedProjects js st := by
    intro term h
    simp only [filteredAndSortedProjects, matchesSearch_congr js term st.searchTerm h]
  refine ⟨?_, hcongr, ?_, ?_, ?_, ?_, ?_, ?_⟩
  · intro p
    rw [mem_filteredAndSortedProjects, matchesSearch_iff]
    simp [hfilter]
  · intro p q hn hd
    simp only [matchesSearch, hn, hd]
  · intro hterm
    exact ⟨hcongr _ (toLowerCase_upper js _ hterm), hcongr _ (toLowerCase_lower js _ hterm)⟩
  · intro p hn hd
    simp only [matchesSearch, toLowerCase_upper js _ hn, toLowerCase_upper js _ hd,
      toLowerCase_lower js _ hn, toLowerCase_lower js _ hd, and_self]
  · intro hempty
    have hall' : st.projects.filter (fun project =>
        matchesSearch js st.searchTerm project && matchesFilter st.filterBy project) =
        st.projects := by
      rw [List.filter_eq_self]
      intro p _
      rw [hempty, matchesSearch_empty, hfilter]
      rfl
    rw [filteredAndSortedProjects, hall', sortProjects]
    exact List.perm_insertionSort _ _
  · rw [query_ascii js searchDemo (by decide) (by decide)]
    decide
  · rw [query_ascii js { searchDemo with searchTerm := "banner" } (by decide) (by decide)]
    decide

/-- The term `logo` has the lower-casing of `LOGO`, so with either term the
query over the demo list gives the same result. -/
theorem search_keeps_iff_substring_witness :
    searchDemo.filterBy = "all" ∧
      asciiTables.toLowerCase "logo" = asciiTables.toLowerCase searchDemo.searchTerm ∧
      filteredAndSortedProjects asciiTables { searchDemo with searchTerm := "logo" } =
        filteredAndSortedProjects asciiTables searchDemo :=
  ⟨rfl, by decide, (search_keeps_iff_substring asciiTables searchDemo rfl).2.1 "logo" (by decide)⟩
/-! ## Age labels -/

theorem getTimeAgo_of_days (now timestamp : Int) (h : 86400000 ≤ now - timestamp) :
    getTimeAgo now timestamp =
      toString ((now - timestamp) / 86400000) ++ " day" ++
        (if (now - timestamp) / 86400000 > 1 then "s" else "") ++ " ago" := by
  have hd : Int.fdiv (now - timestamp) (1000 * 60 * 60 * 24) = (now - timestamp) / 86400000 := by
    rw [Int.fdiv_eq_ediv _ (by norm_num)]
    norm_num
  have hpos : (now - timestamp) / 86400000 > 0 := by omega
  simp only [getTimeAgo, hd, hpos, if_true]

theorem getTimeAgo_of_hours (now timestamp : Int) (h0 : 0 ≤ now - timestamp)
    (h1 : now - timestamp < 86400000) :
    getTimeAgo now timestamp =
      if (now - timestamp) / 3600000 > 0 then
        toString ((now - timestamp) / 3600000) ++ " hour" ++
          (if (now - timestamp) / 3600000 > 1 then "s" else "") ++ " ago"
      else "Just now" := by
  have hd : Int.fdiv (now - timestamp) (1000 * 60 * 60 * 24) = (now - timestamp) / 86400000 := by
    rw [Int.fdiv_eq_ediv _ (by norm_num)]
    norm_num
  have hm : Int.tmod (now - timestamp) (1000 * 60 * 60 * 24) = now - timestamp := by
    rw [Int.tmod_eq_emod h0 (by norm_num)]
    omega
  have hh : Int.fdiv (now - timestamp) (1000 * 60 * 60) = (now - timestamp) / 3600000 := by
    rw [Int.fdiv_eq_ediv _ (by norm_num)]
    norm_num
  have hz : ¬ ((now - timestamp) / 86400000 > 0) := by omega
  simp only [getTimeAgo, hd, hm, hh, hz, if_false]

/-- C17. For `diff = now - timestamp >= 0`, `getTimeAgo` returns: if `diff >=
86400000`, with `D = floor(diff / 86400000)` (which is at least 1), `1 day
ago` for `D = 1` and `D days ago` for `D > 1`; else if `diff >= 3600000`, with
`H = floor(diff / 3600000)`, `1 hour ago` for `H = 1` and `H hours ago` for
`H > 1`; else `Just now`.  Being a function of `now` and `timestamp`, the
label depends on nothing else. -/
theorem getTimeAgo_label (now timestamp : Int) (h : 0 ≤ now - timestamp) :
    (86400000 ≤ now - timestamp →
        1 ≤ (now - timestamp) / 86400000 ∧
        ((now - timestamp) / 86400000 = 1 → getTimeAgo now timestamp = "1 day ago") ∧
        (1 < (now - timestamp) / 86400000 →
          getTimeAgo now timestamp =
            toString ((now - timestamp) / 86400000) ++ " days ago")) ∧
      (now - timestamp < 86400000 → 3600000 ≤ now - timestamp →
        1 ≤ (now - timestamp) / 3600000 ∧
        ((now - timestamp) / 3600000 = 1 → getTimeAgo now timestamp = "1 hour ago") ∧
        (1 < (now - timestamp) / 3600000 →
          getTimeAgo now timestamp =
            toString ((now - timestamp) / 3600000) ++ " hours ago")) ∧
      (now - timestamp < 3600000 → getTimeAgo now timestamp = "Just now") := by
  refine ⟨?_, ?_, ?_⟩
  · intro hd
    rw [getTimeAgo_of_days now timestamp hd]
    refine ⟨by omega, ?_, ?_⟩
    · intro h1
      rw [h1]
      decide
    · intro h1
      simp only [gt_iff_lt, h1, if_true, String.append_assoc]
      rfl
  · intro hlt hh
    rw [getTimeAgo_of_hours now timestamp h hlt]
    have hpos : (now - timestamp) / 3600000 > 0 := by omega
    simp only [hpos, if_true]
    refine ⟨by omega, ?_, ?_⟩
    · intro h1
      rw [h1]
      decide
    · intro h1
      simp only [gt_iff_lt, h1, if_true, String.append_assoc]
      rfl
  · intro hlt
    rw [getTimeAgo_of_hours now timestamp h (by omega)]
    have hz : ¬ ((now - timestamp) / 3600000 > 0) := by omega
    simp only [hz, if_false]

/-- One day and one thousand seconds after the timestamp the label is
`1 day ago`. -/
theorem getTimeAgo_label_witness :
    (0 : Int) ≤ 87400000 - 0 ∧ getTimeAgo 87400000 0 = "1 day ago" :=
  ⟨by decide, ((getTimeAgo_label 87400000 0 (by decide)).1 (by decide)).2.1 (by decide)⟩

/-! ## Digits -/

theorem digitChar_isDigit (k : Nat) (h : k < 10) : (Nat.digitChar k).isDigit = true := by
  interval_cases k <;> rfl

theorem digitValue_digitChar (k : Nat) (h : k < 10) : digitValue (Nat.digitChar k) = k := by
  interval_cases k <;> rfl

theorem digitsValue_singleton (c : Char) : digitsValue [c] = digitValue c := by
  simp [digitsValue]

theorem digitsValue_append (xs ys : List Char) :
    digitsValue (xs ++ ys) = digitsValue xs * 10 ^ ys.length + digitsValue ys := by
  induction ys using List.reverseRecOn generalizing xs with
  | nil => simp [digitsValue]
  | append_singleton ys y ih =>
    have h1 : ∀ zs : List Char, digitsValue (zs ++ [y]) = 10 * digitsValue zs + digitValue y := by
      intro zs
      simp [digitsValue, List.foldl_append]
    rw [← List.append_assoc, h1, h1, ih, List.length_append, List.length_singleton, pow_succ]
    ring

theorem digitsValue_replicate_zero (k : Nat) : digitsValue (List.replicate k '0') = 0 := by
  induction k with
  | zero => rfl
  | succ k ih =>
    rw [List.replicate_succ', digitsValue_append, ih]
    rfl

/-- The digits written by `Nat.toDigitsCore` with enough fuel. -/
theorem toDigitsCore_spec : ∀ (fuel n : Nat) (ds : List Char), n < fuel →
    ∃ L : List Char, Nat.toDigitsCore 10 fuel n ds = L ++ ds ∧ digitsValue L = n ∧
      (∀ c ∈ L, c.isDigit = true) ∧ L ≠ [] ∧
      (∀ e, 0 < e → n < 10 ^ e → L.length ≤ e) := by
  intro fuel
  induction fuel with
  | zero => intro n ds h; omega
  | succ fuel ih =>
    intro n ds h
    have hmod : n % 10 < 10 := Nat.mod_lt _ (by norm_num)
    by_cases hn : n / 10 = 0
    · refine ⟨[Nat.digitChar (n % 10)], ?_, ?_, ?_, by simp, ?_⟩
      · simp [Nat.toDigitsCore, hn]
      · rw [digitsValue_singleton, digitValue_digitChar _ hmod]
        omega
      · intro c hc
        simp only [List.mem_singleton] at hc
        rw [hc]
        exact digitChar_isDigit _ hmod
      · intro e he _
        simpa using he
    · obtain ⟨L, hL, hv, hd, hne, hlen⟩ := ih (n / 10) (Nat.digitChar (n % 10) :: ds) (by omega)
      refine ⟨L ++ [Nat.digitChar (n % 10)], ?_, ?_, ?_, by simp, ?_⟩
      · simp [Nat.toDigitsCore, hn, hL]
      · rw [digitsValue_append, hv, digitsValue_singleton, digitValue_digitChar _ hmod]
        simp only [List.length_singleton, pow_one]
        omega
      · intro c hc
        rcases List.mem_append.mp hc with h1 | h1
        · exact hd c h1
        · simp only [List.mem_singleton] at h1
          rw [h1]
          exact digitChar_isDigit _ hmod
      · intro e he hlt
        have he2 : 2 ≤ e := by
          by_contra hcon
          have he1 : e = 1 := by omega
          rw [he1] at hlt
          omega
        have hdiv : n / 10 < 10 ^ (e - 1) := by
          rw [Nat.div_lt_iff_lt_mul (by norm_num)]
          calc n < 10 ^ e := hlt
            _ = 10 ^ (e - 1 + 1) := by rw [Nat.sub_add_cancel (by omega)]
            _ = 10 ^ (e - 1) * 10 := pow_succ _ _
        have := hlen (e - 1) (by omega) hdiv
        simp only [List.length_append, List.length_singleton]
        omega

theorem toDigits_spec (n : Nat) :
    digitsValue (Nat.toDigits 10 n) = n ∧ (∀ c ∈ Nat.toDigits 10 n, c.isDigit = true) ∧
      Nat.toDigits 10 n ≠ [] ∧ (∀ e, 0 < e → n < 10 ^ e → (Nat.toDigits 10 n).length ≤ e) := by
  obtain ⟨L, hL, hv, hd, hne, hlen⟩ := toDigitsCore_spec (n + 1) n [] (by omega)
  have h : Nat.toDigits 10 n = L := by
    rw [Nat.toDigits, hL, List.append_nil]
  rw [h]
  exact ⟨hv, hd, hne, hlen⟩

theorem takeWhile_append_stop {p : Char → Bool} (w : List Char) (x : Char) (rest : List Char)
    (hw : ∀ c ∈ w, p c = true) (hx : p x = false) :
    (w ++ x :: rest).takeWhile p = w ∧ (w ++ x :: rest).dropWhile p = x :: rest := by
  induction w with
  | nil => simp [List.takeWhile, List.dropWhile, hx]
  | cons c w ih =>
    have hc : p c = true := hw c (by simp)
    have := ih (fun d hd => hw d (by simp [hd]))
    simp [List.takeWhile, List.dropWhile, hc, this]

/-- The shape of the trimmed fractional part. -/
theorem trimTrailingZeros_spec (F : List Char) (hF : ∀ c ∈ F, c.isDigit = true)
    (hlen : 0 < F.length) :
    (∀ c ∈ trimTrailingZeros F, c.isDigit = true) ∧ trimTrailingZeros F ≠ [] ∧
      ∃ k, (trimTrailingZeros F).length + k = F.length ∧
        digitsValue F = digitsValue (trimTrailingZeros F) * 10 ^ k := by
  have hsplit : F = (F.reverse.dropWhile (fun c => c == '0')).reverse ++
      List.replicate (F.reverse.takeWhile (fun c => c == '0')).length '0' := by
    have h1 : F.reverse.takeWhile (fun c => c == '0') =
        List.replicate (F.reverse.takeWhile (fun c => c == '0')).length '0' := by
      rw [List.eq_replicate_iff]
      refine ⟨rfl, ?_⟩
      intro b hb
      have := List.mem_takeWhile_imp hb
      simpa using this
    have h2 := List.takeWhile_append_dropWhile (fun c => c == '0') F.reverse
    have h3 : F = (F.reverse.dropWhile (fun c => c == '0')).reverse ++
        (F.reverse.takeWhile (fun c => c == '0')).reverse := by
      rw [← List.reverse_append, h2, List.reverse_reverse]
    rw [h1] at h3
    rw [List.reverse_replicate] at h3
    exact h3
  generalize hk : (F.reverse.takeWhile (fun c => c == '0')).length = k at hsplit
  cases hE : (F.reverse.dropWhile (fun c => c == '0')).reverse with
  | nil =>
    have htrim : trimTrailingZeros F = ['0'] := by simp [trimTrailingZeros, hE]
    rw [hE] at hsplit
    simp only [List.nil_append] at hsplit
    rw [htrim]
    refine ⟨by simp, by simp, F.length - 1, ?_, ?_⟩
    · simp only [List.length_singleton]
      omega
    · rw [hsplit, digitsValue_replicate_zero]
      simp [digitsValue, digitValue]
  | cons r R =>
    have htrim : trimTrailingZeros F = r :: R := by simp [trimTrailingZeros, hE]
    rw [hE] at hsplit
    rw [htrim]
    refine ⟨?_, by simp, k, ?_, ?_⟩
    · intro c hc
      exact hF c (by rw [hsplit]; exact List.mem_append_left _ hc)
    · have := congrArg List.length hsplit
      simp only [List.length_append, List.length_replicate] at this
      omega
    · conv_lhs => rw [hsplit]
      rw [digitsValue_append, digitsValue_replicate_zero, List.length_replicate]
      simp

/-! ## Category filter -/

theorem toString_int_data (d : Int) (h : 0 ≤ d) :
    (toString d).data = Nat.toDigits 10 d.toNat := by
  obtain ⟨n, rfl⟩ := Int.eq_ofNat_of_zero_le h
  rfl

theorem day_label_has_no_hour (now timestamp : Int) (h : 86400000 ≤ now - timestamp) :
    ¬ "hour".data <:+: (getTimeAgo now timestamp).data := by
  intro hin
  have hmem : 'h' ∈ (getTimeAgo now timestamp).data := hin.subset (by decide)
  rw [getTimeAgo_of_days now timestamp h] at hmem
  simp only [String.data_append, List.mem_append] at hmem
  have hpos : 0 ≤ (now - timestamp) / 86400000 := by omega
  rcases hmem with ((h1 | h1) | h1) | h1
  · rw [toString_int_data _ hpos] at h1
    have := (toDigits_spec _).2.1 _ h1
    exact absurd this (by decide)
  · exact absurd h1 (by decide)
  · split_ifs at h1
    · exact absurd h1 (by decide)
    · exact absurd h1 (by decide)
  · exact absurd h1 (by decide)

/-- C12. With an empty search term: `filterBy = "all"` keeps every project;
`filterBy = "recent"` keeps exactly the projects whose age label contains
`hour`; `filterBy = "today"` keeps exactly the projects whose age label
contains `day`.  In particular a project whose label is the day label of
`getTimeAgo` (an age of at least one day) is never kept by `recent`. -/
theorem filter_buckets_by_label (js : CaseTables) (st : ViewProjectsState)
    (hterm : st.searchTerm = "") :
    (st.filterBy = "all" → (filteredAndSortedProjects js st).Perm st.projects) ∧
      (st.filterBy = "recent" → ∀ p, p ∈ filteredAndSortedProjects js st ↔
        p ∈ st.projects ∧ "hour".data <:+: p.timeAgo.data) ∧
      (st.filterBy = "today" → ∀ p, p ∈ filteredAndSortedProjects js st ↔
        p ∈ st.projects ∧ "day".data <:+: p.timeAgo.data) ∧
      (st.filterBy = "recent" → ∀ (p : ListedProject) (now timestamp : Int),
        86400000 ≤ now - timestamp → p.timeAgo = getTimeAgo now timestamp →
          p ∉ filteredAndSortedProjects js st) := by
  have hsearch : ∀ p, matchesSearch js st.searchTerm p = true := by
    intro p
    rw [hterm]
    exact matchesSearch_empty js p
  have hrecent : st.filterBy = "recent" → ∀ p, p ∈ filteredAndSortedProjects js st ↔
      p ∈ st.projects ∧ "hour".data <:+: p.timeAgo.data := by
    intro h p
    rw [mem_filteredAndSortedProjects]
    simp [hsearch, matchesFilter, h, includes, includesChars_iff]
  refine ⟨?_, hrecent, ?_, ?_⟩
  · intro hall
    have hall' : st.projects.filter (fun project =>
        matchesSearch js st.searchTerm project && matchesFilter st.filterBy project) =
        st.projects := by
      rw [List.filter_eq_self]
      intro p _
      simp [hsearch, matchesFilter, hall]
    rw [filteredAndSortedProjects, hall', sortProjects]
    exact List.perm_insertionSort _ _
  · intro h p
    rw [mem_filteredAndSortedProjects]
    simp [hsearch, matchesFilter, h, includes, includesChars_iff]
  · intro h p now timestamp hday hlabel hmem
    have := ((hrecent h p).mp hmem).2
    rw [hlabel] at this
    exact day_label_has_no_hour now timestamp hday this

/-- With the empty term and `filterBy = "all"` the demo list keeps both of its
projects. -/
theorem filter_buckets_by_label_witness :
    ({ searchDemo with searchTerm := "" } : ViewProjectsState).searchTerm = "" ∧
      (filteredAndSortedProjects asciiTables { searchDemo with searchTerm := "" }).Perm
        searchDemo.projects :=
  ⟨rfl, (filter_buckets_by_label asciiTables { searchDemo with searchTerm := "" } rfl).1 rfl⟩

/-! ## Sorting -/

theorem orderedInsert_pairwise_key {α : Type} (r : α → α → Prop) [DecidableRel r]
    (key : α → Int) (Q : α → α → Prop) (x : α) :
    ∀ S : List α, (∀ b ∈ S, r x b ↔ key x ≤ key b) →
      S.Pairwise (fun a b => key a ≤ key b ∧ (key a = key b → Q a b)) →
      (∀ y ∈ S, Q x y) →
      (S.orderedInsert r x).Pairwise (fun a b => key a ≤ key b ∧ (key a = key b → Q a b)) := by
  intro S
  induction S with
  | nil => intro _ _ _; simp
  | cons b S ih =>
    intro hr hS hx
    have hb : r x b ↔ key x ≤ key b := hr b (by simp)
    rw [List.pairwise_cons] at hS
    obtain ⟨hbS, hS'⟩ := hS
    by_cases hxb : r x b
    · rw [List.orderedInsert, if_pos hxb]
      have hle := hb.mp hxb
      refine List.Pairwise.cons ?_ (List.Pairwise.cons hbS hS')
      intro c hc
      rcases List.mem_cons.mp hc with rfl | hc'
      · exact ⟨hle, fun _ => hx _ (by simp)⟩
      · exact ⟨le_trans hle (hbS c hc').1, fun _ => hx c (by simp [hc'])⟩
    · rw [List.orderedInsert, if_neg hxb]
      have hlt : key b < key x := by
        by_contra hcon
        exact hxb (hb.mpr (not_lt.mp hcon))
      refine List.Pairwise.cons ?_
        (ih (fun c hc => hr c (by simp [hc])) hS' (fun y hy => hx y (by simp [hy])))
      intro c hc
      rcases (List.mem_orderedInsert r).mp hc with rfl | hc'
      · exact ⟨le_of_lt hlt, fun h => absurd h (ne_of_lt hlt)⟩
      · exact hbS c hc'

theorem insertionSort_pairwise_key {α : Type} (r : α → α → Prop) [DecidableRel r]
    (key : α → Int) (Q : α → α → Prop) :
    ∀ l : List α, (∀ a ∈ l, ∀ b ∈ l, r a b ↔ key a ≤ key b) → l.Pairwise Q →
      (l.insertionSort r).Pairwise (fun a b => key a ≤ key b ∧ (key a = key b → Q a b)) := by
  intro l
  induction l with
  | nil => intro _ _; simp
  | cons x xs ih =>
    intro hr hQ
    rw [List.pairwise_cons] at hQ
    rw [List.insertionSort]
    apply orderedInsert_pairwise_key
    · intro b hb
      exact hr x (by simp) b (by simp [(List.mem_insertionSort r).mp hb])
    · exact ih (fun a ha b hb => hr a (by simp [ha]) b (by simp [hb])) hQ.2
    · intro y hy
      exact hQ.1 y ((List.mem_insertionSort r).mp hy)

theorem round_range (num den : Nat) :
    F64.round num den = F64.infinity ∨
      ∃ u : Nat, u < F64.overflowUnits ∧ F64.round num den = F64.finite u := by
  unfold F64.round
  dsimp only
  split_ifs with h1 h2 h2
  · exact Or.inr ⟨_, h2, rfl⟩
  · exact Or.inl rfl
  · exact Or.inr ⟨_, h2, rfl⟩
  · exact Or.inl rfl

theorem parseFloat_range (s : String) :
    parseFloat s = F64.nan ∨ parseFloat s = F64.infinity ∨
      ∃ u : Nat, u < F64.overflowUnits ∧ parseFloat s = F64.finite u := by
  unfold parseFloat
  dsimp only
  split_ifs
  · exact Or.inl rfl
  · exact Or.inr (round_range _ _)

theorem differenceSign_le_iff (s t : String) (hs : parseFloat s ≠ F64.nan)
    (ht : parseFloat t ≠ F64.nan) :
    F64.differenceSign (parseFloat s) (parseFloat t) ≤ 0 ↔
      F64.rank (parseFloat s) ≤ F64.rank (parseFloat t) := by
  rcases parseFloat_range s with h | h | ⟨u, hu, h⟩
  · exact absurd h hs
  · rcases parseFloat_range t with h' | h' | ⟨v, hv, h'⟩
    · exact absurd h' ht
    · rw [h, h']; simp [F64.differenceSign, F64.rank]
    · rw [h, h']
      simp only [F64.differenceSign, F64.rank]
      have : (v : Int) < (F64.overflowUnits : Int) := Int.ofNat_lt.mpr hv
      constructor
      · intro h1; omega
      · intro h1; omega
  · rcases parseFloat_range t with h' | h' | ⟨v, hv, h'⟩
    · exact absurd h' ht
    · rw [h, h']
      simp only [F64.differenceSign, F64.rank]
      have : (u : Int) < (F64.overflowUnits : Int) := Int.ofNat_lt.mpr hu
      constructor
      · intro _; omega
      · intro _; omega
    · rw [h, h']
      simp only [F64.differenceSign, F64.rank]
      split_ifs <;> constructor <;> intro h1 <;> omega

theorem dateDifference_le_iff (x y : JsDate) (hx : x ≠ JsDate.invalid)
    (hy : y ≠ JsDate.invalid) :
    JsDate.difference x y ≤ 0 ↔ x.timeValue ≤ y.timeValue := by
  cases x with
  | invalid => exact absurd rfl hx
  | valid a ha =>
    cases y with
    | invalid => exact absurd rfl hy
    | valid b hb =>
      simp only [JsDate.difference, JsDate.timeValue]
      omega

theorem dateDifference_eq_zero_iff (x y : JsDate) (hx : x ≠ JsDate.invalid)
    (hy : y ≠ JsDate.invalid) :
    JsDate.difference x y = 0 ↔ x.timeValue = y.timeValue := by
  cases x with
  | invalid => exact absurd rfl hx
  | valid a ha =>
    cases y with
    | invalid => exact absurd rfl hy
    | valid b hb =>
      simp only [JsDate.difference, JsDate.timeValue]
      omega

theorem compareProjects_le_iff (sortBy : String) (l : List ListedProject)
    (hl : Sortable sortBy l) (a b : ListedProject) (ha : a ∈ l) (hb : b ∈ l) :
    compareProjects sortBy a b ≤ 0 ↔ sortKey sortBy a ≤ sortKey sortBy b := by
  obtain ⟨hdate, hprice⟩ := hl
  unfold compareProjects sortKey
  split_ifs with h1 h2 h3 h4
  · rw [dateDifference_le_iff _ _ (hdate (Or.inl h1) b hb) (hdate (Or.inl h1) a ha)]
    omega
  · rw [dateDifference_le_iff _ _ (hdate (Or.inr h2) a ha) (hdate (Or.inr h2) b hb)]
  · rw [differenceSign_le_iff _ _ (hprice (Or.inl h3) b hb) (hprice (Or.inl h3) a ha)]
    omega
  · rw [differenceSign_le_iff _ _ (hprice (Or.inr h4) a ha) (hprice (Or.inr h4) b hb)]
  · simp

theorem differenceSign_eq_zero_iff (s t : String) (hs : parseFloat s ≠ F64.nan)
    (ht : parseFloat t ≠ F64.nan) :
    F64.differenceSign (parseFloat s) (parseFloat t) = 0 ↔
      F64.rank (parseFloat s) = F64.rank (parseFloat t) := by
  rcases parseFloat_range s with h | h | ⟨u, hu, h⟩
  · exact absurd h hs
  · rcases parseFloat_range t with h' | h' | ⟨v, hv, h'⟩
    · exact absurd h' ht
    · rw [h, h']; simp [F64.differenceSign, F64.rank]
    · rw [h, h']
      simp only [F64.differenceSign, F64.rank]
      have : (v : Int) < (F64.overflowUnits : Int) := Int.ofNat_lt.mpr hv
      constructor
      · intro h1; omega
      · intro h1; omega
  · rcases parseFloat_range t with h' | h' | ⟨v, hv, h'⟩
    · exact absurd h' ht
    · rw [h, h']
      simp only [F64.differenceSign, F64.rank]
      have : (u : Int) < (F64.overflowUnits : Int) := Int.ofNat_lt.mpr hu
      constructor
      · intro h1; omega
      · intro h1; omega
    · rw [h, h']
      simp only [F64.differenceSign, F64.rank]
      split_ifs with h1 h2
      · simp only [Int.reduceNeg, neg_eq_zero, one_ne_zero, false_iff]
        omega
      · simp only [one_ne_zero, false_iff]
        omega
      · simp only [true_iff]
        omega

theorem differenceSign_zero_symm (x y : F64) (h : F64.differenceSign x y = 0) :
    F64.differenceSign y x = 0 := by
  cases x <;> cases y <;> simp only [F64.differenceSign] at h ⊢
  · split_ifs at h ⊢ <;> omega
  · omega
  · omega

theorem dateDifference_zero_symm (x y : JsDate) (h : JsDate.difference x y = 0) :
    JsDate.difference y x = 0 := by
  cases x <;> cases y <;> simp only [JsDate.difference] at h ⊢
  omega

theorem compareProjects_zero_symm (sortBy : String) (a b : ListedProject)
    (h : compareProjects sortBy a b = 0) : compareProjects sortBy b a = 0 := by
  unfold compareProjects at h ⊢
  split_ifs at h ⊢
  · exact dateDifference_zero_symm _ _ h
  · exact dateDifference_zero_symm _ _ h
  · exact differenceSign_zero_symm _ _ h
  · exact differenceSign_zero_symm _ _ h
  · rfl

theorem rank_le_iff (s t : String) (hs : parseFloat s ≠ F64.nan)
    (ht : parseFloat t ≠ F64.nan) :
    F64.rank (parseFloat s) ≤ F64.rank (parseFloat t) ↔
      F64.le (parseFloat s) (parseFloat t) = true := by
  rcases parseFloat_range s with h | h | ⟨u, hu, h⟩
  · exact absurd h hs
  · rcases parseFloat_range t with h' | h' | ⟨v, hv, h'⟩
    · exact absurd h' ht
    · rw [h, h']; simp [F64.le, F64.rank]
    · rw [h, h']
      simp only [F64.le, F64.rank]
      have : (v : Int) < (F64.overflowUnits : Int) := Int.ofNat_lt.mpr hv
      constructor
      · intro h1; omega
      · intro h1; exact absurd h1 (by simp)
  · rcases parseFloat_range t with h' | h' | ⟨v, hv, h'⟩
    · exact absurd h' ht
    · rw [h, h']
      simp only [F64.le, F64.rank]
      have : (u : Int) < (F64.overflowUnits : Int) := Int.ofNat_lt.mpr hu
      constructor
      · intro _; trivial
      · intro _; omega
    · rw [h, h']
      simp only [F64.le, F64.rank, decide_eq_true_eq]
      omega

/-- The sorted list is arranged by the sort key, and entries with equal keys
keep the relation `Q` that held between them in the input. -/
theorem sortProjects_pairwise (sortBy : String) (Q : ListedProject → ListedProject → Prop)
    (l : List ListedProject) (hl : Sortable sortBy l) (hQ : l.Pairwise Q) :
    (sortProjects (compareProjects sortBy) l).Pairwise
      (fun a b => sortKey sortBy a ≤ sortKey sortBy b ∧
        (sortKey sortBy a = sortKey sortBy b → Q a b)) := by
  apply insertionSort_pairwise_key _ (sortKey sortBy) Q l _ hQ
  intro a ha b hb
  exact compareProjects_le_iff sortBy l hl a b ha hb

theorem sortable_filter (sortBy : String) (l : List ListedProject) (keep : ListedProject → Bool)
    (hl : Sortable sortBy l) : Sortable sortBy (l.filter keep) :=
  ⟨fun h p hp => hl.1 h p (List.mem_of_mem_filter hp),
    fun h p hp => hl.2 h p (List.mem_of_mem_filter hp)⟩

theorem orderedInsert_pairwise_tie {α : Type} (r : α → α → Prop) [DecidableRel r]
    (tie : α → α → Prop) (Q : α → α → Prop) (x : α) :
    ∀ S : List α, (∀ b ∈ S, tie b x → r x b) →
      S.Pairwise (fun a b => tie a b → Q a b) →
      (∀ y ∈ S, Q x y) →
      (S.orderedInsert r x).Pairwise (fun a b => tie a b → Q a b) := by
  intro S
  induction S with
  | nil => intro _ _ _; simp
  | cons b S ih =>
    intro hr hS hx
    rw [List.pairwise_cons] at hS
    obtain ⟨hbS, hS'⟩ := hS
    by_cases hxb : r x b
    · rw [List.orderedInsert, if_pos hxb]
      refine List.Pairwise.cons ?_ (List.Pairwise.cons hbS hS')
      intro c hc _
      exact hx c hc
    · rw [List.orderedInsert, if_neg hxb]
      refine List.Pairwise.cons ?_
        (ih (fun c hc => hr c (by simp [hc])) hS' (fun y hy => hx y (by simp [hy])))
      intro c hc
      rcases (List.mem_orderedInsert r).mp hc with rfl | hc'
      · intro htie
        exact absurd (hr b (by simp) htie) hxb
      · exact hbS c hc'

/-- Sorting by insertion never moves an element behind a later element with
which it ties, whatever the comparator. -/
theorem insertionSort_pairwise_tie {α : Type} (r : α → α → Prop) [DecidableRel r]
    (tie : α → α → Prop) (Q : α → α → Prop) (htie : ∀ a b, tie b a → r a b) :
    ∀ l : List α, l.Pairwise Q →
      (l.insertionSort r).Pairwise (fun a b => tie a b → Q a b) := by
  intro l
  induction l with
  | nil => intro _; simp
  | cons x xs ih =>
    intro hQ
    rw [List.pairwise_cons] at hQ
    rw [List.insertionSort]
    apply orderedInsert_pairwise_tie
    · intro b _ hb
      exact htie x b hb
    · exact ih hQ.2
    · intro y hy
      exact hQ.1 y ((List.mem_insertionSort r).mp hy)

/-! ## Formatted amounts -/

theorem padZeros_spec (D : List Char) (hD : ∀ c ∈ D, c.isDigit = true) (hlen : D.length ≤ 18) :
    (padZeros 18 D).length = 18 ∧ (∀ c ∈ padZeros 18 D, c.isDigit = true) ∧
      digitsValue (padZeros 18 D) = digitsValue D := by
  refine ⟨?_, ?_, ?_⟩
  · simp only [padZeros, List.length_append, List.length_replicate]
    omega
  · intro c hc
    simp only [padZeros, List.mem_append] at hc
    rcases hc with h | h
    · rw [(List.mem_replicate.mp h).2]
      rfl
    · exact hD c h
  · rw [padZeros, digitsValue_append, digitsValue_replicate_zero]
    simp

/-- The shape of the string `formatEther` builds. -/
theorem formatEther_shape (a : Nat) :
    ∃ (W T : List Char) (k : Nat), (formatEther a).data = W ++ '.' :: T ∧
      (∀ c ∈ W, c.isDigit = true) ∧ W ≠ [] ∧ (∀ c ∈ T, c.isDigit = true) ∧ T ≠ [] ∧
      T.length + k = 18 ∧ digitsValue W = a / 10 ^ 18 ∧
      digitsValue T * 10 ^ k = a % 10 ^ 18 := by
  obtain ⟨hWv, hWd, hWne, -⟩ := toDigits_spec (a / 10 ^ 18)
  obtain ⟨hDv, hDd, -, hDlen⟩ := toDigits_spec (a % 10 ^ 18)
  have hlt : a % 10 ^ 18 < 10 ^ 18 := Nat.mod_lt _ (by positivity)
  obtain ⟨hPlen, hPd, hPv⟩ := padZeros_spec _ hDd (hDlen 18 (by norm_num) hlt)
  obtain ⟨hTd, hTne, k, hk, hTv⟩ := trimTrailingZeros_spec _ hPd (by omega)
  refine ⟨_, _, k, rfl, hWd, hWne, hTd, hTne, by omega, hWv, ?_⟩
  rw [← hTv, hPv, hDv]

theorem split_at_point (W T : List Char) (hW : ∀ c ∈ W, c.isDigit = true) :
    (W ++ '.' :: T).takeWhile (fun c => c != '.') = W ∧
      ((W ++ '.' :: T).dropWhile (fun c => c != '.')).drop 1 = T := by
  have h := takeWhile_append_stop (p := fun c => c != '.') W '.' T (by
    intro c hc
    have hd := hW c hc
    have : c ≠ '.' := by
      intro h
      rw [h] at hd
      exact absurd hd (by decide)
    simpa using this) (by simp)
  rw [h.1, h.2]
  exact ⟨rfl, rfl⟩

theorem decimalValue_formatEther (a : Nat) :
    ∃ num den, decimalValue (formatEther a) = some (num, den) ∧ 0 < den ∧
      num * 10 ^ 18 = a * den := by
  obtain ⟨W, T, k, hdata, hWd, hWne, hTd, hTne, hk, hWv, hTv⟩ := formatEther_shape a
  obtain ⟨h1, h2⟩ := split_at_point W T hWd
  refine ⟨digitsValue (W ++ T), 10 ^ T.length, ?_, by positivity, ?_⟩
  · have hall : (W ++ T).all Char.isDigit = true := by
      rw [List.all_eq_true]
      intro c hc
      rcases List.mem_append.mp hc with h | h
      · exact hWd c h
      · exact hTd c h
    simp only [decimalValue, hdata, h1, h2, hall, true_and]
    rw [if_pos ⟨hWne, hTne, trivial⟩]
  · rw [digitsValue_append, hWv]
    have h18 : (10 : Nat) ^ 18 = 10 ^ T.length * 10 ^ k := by
      rw [← pow_add, hk]
    have ha : a = a / 10 ^ 18 * 10 ^ 18 + a % 10 ^ 18 := (Nat.div_add_mod' a (10 ^ 18)).symm
    calc (a / 10 ^ 18 * 10 ^ T.length + digitsValue T) * 10 ^ 18
        = a / 10 ^ 18 * 10 ^ 18 * 10 ^ T.length + digitsValue T * 10 ^ 18 := by ring
      _ = a / 10 ^ 18 * 10 ^ 18 * 10 ^ T.length +
            digitsValue T * 10 ^ k * 10 ^ T.length := by rw [h18]; ring
      _ = (a / 10 ^ 18 * 10 ^ 18 + a % 10 ^ 18) * 10 ^ T.length := by rw [hTv]; ring
      _ = a * 10 ^ T.length := by rw [← ha]

theorem recoverWei_formatEther (a : Nat) : recoverWei (formatEther a) = a := by
  obtain ⟨num, den, hval, hden, heq⟩ := decimalValue_formatEther a
  simp only [recoverWei, hval]
  rw [heq]
  exact Nat.mul_div_cancel a hden

theorem formatEther_injective (a b : Nat) (h : formatEther a = formatEther b) : a = b := by
  have := congrArg recoverWei h
  rwa [recoverWei_formatEther, recoverWei_formatEther] at this

theorem round_scale (c N D : Nat) (hc : 0 < c) :
    F64.round (c * N) (c * D) = F64.round N D := by
  unfold F64.round
  have hq0 : c * N / (c * D) = N / D := Nat.mul_div_mul_left N D hc
  simp only [hq0]
  generalize bitLength (N / D) (N / D) 0 - 53 = s
  have hd : c * D * 2 ^ s = c * (D * 2 ^ s) := by ring
  have hq : c * N / (c * (D * 2 ^ s)) = N / (D * 2 ^ s) := Nat.mul_div_mul_left _ _ hc
  have hr : c * N % (c * (D * 2 ^ s)) = c * (N % (D * 2 ^ s)) := Nat.mul_mod_mul_left _ _ _
  simp only [hd, hq, hr]
  have h1 : (c * (D * 2 ^ s) < 2 * (c * (N % (D * 2 ^ s)))) ↔
      (D * 2 ^ s < 2 * (N % (D * 2 ^ s))) := by
    rw [show 2 * (c * (N % (D * 2 ^ s))) = c * (2 * (N % (D * 2 ^ s))) by ring]
    exact Nat.mul_lt_mul_left hc
  have h2 : (2 * (c * (N % (D * 2 ^ s))) = c * (D * 2 ^ s)) ↔
      (2 * (N % (D * 2 ^ s)) = D * 2 ^ s) := by
    rw [show 2 * (c * (N % (D * 2 ^ s))) = c * (2 * (N % (D * 2 ^ s))) by ring]
    exact Nat.mul_right_inj (Nat.pos_iff_ne_zero.mp hc)
  simp only [h1, h2]

theorem parseFloat_formatEther (a : Nat) :
    parseFloat (formatEther a) = F64.round (a * 2 ^ 1074) (10 ^ 18) := by
  obtain ⟨W, T, k, hdata, hWd, hWne, hTd, hTne, hk, hWv, hTv⟩ := formatEther_shape a
  have h := takeWhile_append_stop (p := Char.isDigit) W '.' T hWd (by decide)
  have hT : T.takeWhile Char.isDigit = T := by
    rw [List.takeWhile_eq_self_iff]
    exact hTd
  have hne : W ++ T ≠ [] := by
    intro hcon
    exact hWne (List.append_eq_nil.mp hcon).1
  simp only [parseFloat, hdata, h.1, h.2, hT, hne, if_false]
  have hnum : a = 10 ^ k * digitsValue (W ++ T) := by
    rw [digitsValue_append, hWv]
    have h18 : (10 : Nat) ^ 18 = 10 ^ T.length * 10 ^ k := by
      rw [← pow_add, hk]
    have ha : a = a / 10 ^ 18 * 10 ^ 18 + a % 10 ^ 18 := (Nat.div_add_mod' a (10 ^ 18)).symm
    calc a = a / 10 ^ 18 * 10 ^ 18 + a % 10 ^ 18 := ha
      _ = a / 10 ^ 18 * (10 ^ T.length * 10 ^ k) + digitsValue T * 10 ^ k := by rw [← h18, hTv]
      _ = 10 ^ k * (a / 10 ^ 18 * 10 ^ T.length + digitsValue T) := by ring
  have hden : (10 : Nat) ^ 18 = 10 ^ k * 10 ^ T.length := by
    rw [← pow_add, Nat.add_comm, hk]
  conv_rhs => rw [hnum, hden, Nat.mul_assoc]
  exact (round_scale (10 ^ k) _ _ (by positivity)).symm

theorem parseFloat_formatEther_ne_nan (a : Nat) : parseFloat (formatEther a) ≠ F64.nan := by
  rw [parseFloat_formatEther]
  rcases round_range (a * 2 ^ 1074) (10 ^ 18) with h | ⟨u, -, h⟩ <;> rw [h] <;> simp

/-! ## Sort orders -/

theorem query_perm (js : CaseTables) (st : ViewProjectsState) :
    (filteredAndSortedProjects js st).Perm
      (st.projects.filter (fun p =>
        matchesSearch js st.searchTerm p && matchesFilter st.filterBy p)) :=
  List.perm_insertionSort _ _

theorem query_mem_projects (js : CaseTables) (st : ViewProjectsState) :
    ∀ p ∈ filteredAndSortedProjects js st, p ∈ st.projects :=
  fun p hp => ((mem_filteredAndSortedProjects js st p).mp hp).1

/-- When the list can be ordered by `sortBy`, the query output is arranged by
the sort key. -/
theorem query_pairwise_key (js : CaseTables) (st : ViewProjectsState)
    (hl : Sortable st.sortBy st.projects) :
    (filteredAndSortedProjects js st).Pairwise
      (fun a b => sortKey st.sortBy a ≤ sortKey st.sortBy b) := by
  have h := sortProjects_pairwise st.sortBy (fun _ _ => True)
    (st.projects.filter (fun p =>
      matchesSearch js st.searchTerm p && matchesFilter st.filterBy p))
    (sortable_filter _ _ _ hl) (List.pairwise_of_forall (fun _ _ => trivial))
  exact h.imp (fun hab => hab.1)

theorem ofMillis_valid (ms : Int) (h : ms.natAbs ≤ 8640000000000000) :
    JsDate.ofMillis ms ≠ JsDate.invalid ∧ (JsDate.ofMillis ms).timeValue = ms := by
  simp [JsDate.ofMillis, h, JsDate.timeValue]

/-- C13, as stated, fails: `Logo` has the deadline 1700000000 and `Banner` the
later deadline 8640000000001, whose date is an Invalid Date; the comparator of
`newest` returns `NaN` for the pair, so the sort leaves `Logo` in front of
`Banner`, an increase in the deadline. -/
theorem newest_ignores_invalid_date :
    invalidDateDemo.sortBy = "newest" ∧
      (∀ js : CaseTables,
        filteredAndSortedProjects js invalidDateDemo = [logoEntry, bannerEntry]) ∧
      logoEntry.deadline = 1700000000 ∧ bannerEntry.deadline = 8640000000001 ∧
      bannerEntry.deadlineDate = JsDate.invalid ∧
      ¬ (filteredAndSortedProjects asciiTables invalidDateDemo).Chain'
        (fun a b => b.deadline ≤ a.deadline) := by
  have h : ∀ js : CaseTables,
      filteredAndSortedProjects js invalidDateDemo = [logoEntry, bannerEntry] := by
    intro js
    rw [query_ascii js invalidDateDemo (by decide) (by decide)]
    decide
  refine ⟨rfl, h, rfl, rfl, by decide, ?_⟩
  rw [h, List.chain'_pair]
  decide

/-- C13, amended. For every project list, the query output is a permutation of
the projects that pass search and filter.  When the date of every entry is
valid, with `sortBy = "newest"` every output entry has a time value not below
those of the entries after it, and with `sortBy = "oldest"` not above them.
When moreover the entries carry the date of their deadline, `deadlineDate = new
Date(deadline * 1000)` with `deadline * 1000` at most 8.64e15, consecutive
output entries have non-increasing deadline under `newest` and non-decreasing
deadline under `oldest`. -/
theorem sorted_by_deadline (js : CaseTables) (st : ViewProjectsState) :
    (filteredAndSortedProjects js st).Perm
        (st.projects.filter (fun p =>
          matchesSearch js st.searchTerm p && matchesFilter st.filterBy p)) ∧
      ((∀ p ∈ st.projects, DateValid p) →
        (st.sortBy = "newest" →
          (filteredAndSortedProjects js st).Pairwise
            (fun a b => b.deadlineDate.timeValue ≤ a.deadlineDate.timeValue)) ∧
        (st.sortBy = "oldest" →
          (filteredAndSortedProjects js st).Pairwise
            (fun a b => a.deadlineDate.timeValue ≤ b.deadlineDate.timeValue))) ∧
      ((∀ p ∈ st.projects, p.deadlineDate = JsDate.ofMillis ((p.deadline : Int) * 1000) ∧
          p.deadline * 1000 ≤ 8640000000000000) →
        (st.sortBy = "newest" →
          (filteredAndSortedProjects js st).Chain' (fun a b => b.deadline ≤ a.deadline)) ∧
        (st.sortBy = "oldest" →
          (filteredAndSortedProjects js st).Chain' (fun a b => a.deadline ≤ b.deadline))) := by
  have hnew : (∀ p ∈ st.projects, DateValid p) → st.sortBy = "newest" →
      (filteredAndSortedProjects js st).Pairwise
        (fun a b => b.deadlineDate.timeValue ≤ a.deadlineDate.timeValue) := by
    intro hvalid h
    have hl : Sortable st.sortBy st.projects :=
      ⟨fun _ => hvalid, fun hp => by
        rcases hp with h2 | h2 <;> rw [h] at h2 <;> exact absurd h2 (by decide)⟩
    refine (query_pairwise_key js st hl).imp ?_
    intro a b hab
    simp only [sortKey, h, if_true] at hab
    omega
  have hold : (∀ p ∈ st.projects, DateValid p) → st.sortBy = "oldest" →
      (filteredAndSortedProjects js st).Pairwise
        (fun a b => a.deadlineDate.timeValue ≤ b.deadlineDate.timeValue) := by
    intro hvalid h
    have hl : Sortable st.sortBy st.projects :=
      ⟨fun _ => hvalid, fun hp => by
        rcases hp with h2 | h2 <;> rw [h] at h2 <;> exact absurd h2 (by decide)⟩
    refine (query_pairwise_key js st hl).imp ?_
    intro a b hab
    have hne : ¬ ("oldest" = "newest") := by decide
    simpa only [sortKey, h, hne, if_false, if_true] using hab
  refine ⟨query_perm js st, fun hvalid => ⟨hnew hvalid, hold hvalid⟩, ?_⟩
  intro hbuilt
  have hspec : ∀ p ∈ st.projects,
      DateValid p ∧ p.deadlineDate.timeValue = (p.deadline : Int) * 1000 := by
    intro p hp
    obtain ⟨hd, hr⟩ := hbuilt p hp
    have hrange : ((p.deadline : Int) * 1000).natAbs ≤ 8640000000000000 := by omega
    rw [DateValid, hd]
    exact ofMillis_valid _ hrange
  have hvalid : ∀ p ∈ st.projects, DateValid p := fun p hp => (hspec p hp).1
  have hmem := query_mem_projects js st
  constructor
  · intro h
    refine List.Pairwise.chain' ?_
    refine (List.Pairwise.and_mem.mp (hnew hvalid h)).imp ?_
    rintro a b ⟨ha, hb, hab⟩
    rw [(hspec a (hmem a ha)).2, (hspec b (hmem b hb)).2] at hab
    omega
  · intro h
    refine List.Pairwise.chain' ?_
    refine (List.Pairwise.and_mem.mp (hold hvalid h)).imp ?_
    rintro a b ⟨ha, hb, hab⟩
    rw [(hspec a (hmem a ha)).2, (hspec b (hmem b hb)).2] at hab
    omega

/-- The demo list of `Logo` and `Site` under `newest`: both dates are valid and
the deadlines of consecutive output entries do not increase. -/
theorem sorted_by_deadline_witness :
    (∀ p ∈ searchDemo.projects, p.deadlineDate = JsDate.ofMillis ((p.deadline : Int) * 1000) ∧
        p.deadline * 1000 ≤ 8640000000000000) ∧
      (filteredAndSortedProjects asciiTables searchDemo).Chain'
        (fun a b => b.deadline ≤ a.deadline) := by
  have h : ∀ p ∈ searchDemo.projects,
      p.deadlineDate = JsDate.ofMillis ((p.deadline : Int) * 1000) ∧
        p.deadline * 1000 ≤ 8640000000000000 := by decide
  exact ⟨h, ((sorted_by_deadline asciiTables searchDemo).2.2 h).1 rfl⟩

set_option exponentiation.threshold 4096 in
set_option maxRecDepth 100000 in
/-- C14, as stated, fails: `Logo` is worth one ether and `Site` one ether and
one wei; both amounts format to strings that `parseFloat` reads as `1`, so the
comparator of `price-high` returns `0` and the stable sort leaves `Logo` in
front of `Site`, an increase in the amount. -/
theorem price_high_ignores_low_digits :
    priceTieDemo.sortBy = "price-high" ∧
      (∀ js : CaseTables, filteredAndSortedProjects js priceTieDemo = [logoEntry, siteEntry]) ∧
      logoEntry.amount = 10 ^ 18 ∧ siteEntry.amount = 10 ^ 18 + 1 ∧
      (logoEntry.formattedAmount = formatEther logoEntry.amount ∧
        siteEntry.formattedAmount = formatEther siteEntry.amount) ∧
      ¬ (filteredAndSortedProjects asciiTables priceTieDemo).Chain'
        (fun a b => b.amount ≤ a.amount) := by
  have h : ∀ js : CaseTables,
      filteredAndSortedProjects js priceTieDemo = [logoEntry, siteEntry] := by
    intro js
    rw [query_ascii js priceTieDemo (by decide) (by decide)]
    decide
  refine ⟨rfl, h, rfl, rfl, ⟨rfl, rfl⟩, ?_⟩
  rw [h, List.chain'_pair]
  decide

/-- C14, amended. For every project list whose entries carry the formatted
amount of their record, `formattedAmount = formatEther(amount)`, the price
`parseFloat(formattedAmount)` of an entry is the double nearest to `amount /
10^18`; under `price-high` every output entry has a price not below the prices
of the entries after it, and under `price-low` not above them.  Amounts that
round to the same double compare as equal. -/
theorem sorted_by_rounded_price (js : CaseTables) (st : ViewProjectsState)
    (hbuilt : ∀ p ∈ st.projects, p.formattedAmount = formatEther p.amount) :
    (∀ p ∈ filteredAndSortedProjects js st,
        parseFloat p.formattedAmount = F64.round (p.amount * 2 ^ 1074) (10 ^ 18)) ∧
      (st.sortBy = "price-high" →
        (filteredAndSortedProjects js st).Pairwise
          (fun a b =>
            F64.le (parseFloat b.formattedAmount) (parseFloat a.formattedAmount) = true)) ∧
      (st.sortBy = "price-low" →
        (filteredAndSortedProjects js st).Pairwise
          (fun a b =>
            F64.le (parseFloat a.formattedAmount) (parseFloat b.formattedAmount) = true)) := by
  have hmem := query_mem_projects js st
  have hparse : ∀ p ∈ st.projects, PriceParses p := by
    intro p hp
    rw [PriceParses, hbuilt p hp]
    exact parseFloat_formatEther_ne_nan _
  have hl : st.sortBy = "price-high" ∨ st.sortBy = "price-low" →
      Sortable st.sortBy st.projects := by
    intro hs
    refine ⟨fun hd => ?_, fun _ => hparse⟩
    rcases hs with h | h <;> rcases hd with h2 | h2 <;> rw [h] at h2 <;>
      exact absurd h2 (by decide)
  refine ⟨?_, ?_, ?_⟩
  · intro p hp
    rw [hbuilt p (hmem p hp)]
    exact parseFloat_formatEther _
  · intro h
    refine (List.Pairwise.and_mem.mp (query_pairwise_key js st (hl (Or.inl h)))).imp ?_
    rintro a b ⟨ha, hb, hab⟩
    have hne : ¬ ("price-high" = "newest") := by decide
    have hne2 : ¬ ("price-high" = "oldest") := by decide
    simp only [sortKey, h, hne, hne2, if_false, if_true] at hab
    rw [← rank_le_iff _ _ (hparse b (hmem b hb)) (hparse a (hmem a ha))]
    omega
  · intro h
    refine (List.Pairwise.and_mem.mp (query_pairwise_key js st (hl (Or.inr h)))).imp ?_
    rintro a b ⟨ha, hb, hab⟩
    have hne : ¬ ("price-low" = "newest") := by decide
    have hne2 : ¬ ("price-low" = "oldest") := by decide
    have hne3 : ¬ ("price-low" = "price-high") := by decide
    simp only [sortKey, h, hne, hne2, hne3, if_false, if_true] at hab
    rw [← rank_le_iff _ _ (hparse a (hmem a ha)) (hparse b (hmem b hb))]
    exact hab

/-- The demo list under `price-high`: prices do not increase along the output. -/
theorem sorted_by_rounded_price_witness :
    (∀ p ∈ priceTieDemo.projects, p.formattedAmount = formatEther p.amount) ∧
      (filteredAndSortedProjects asciiTables priceTieDemo).Pairwise
        (fun a b =>
          F64.le (parseFloat b.formattedAmount) (parseFloat a.formattedAmount) = true) := by
  have h : ∀ p ∈ priceTieDemo.projects, p.formattedAmount = formatEther p.amount := by
    intro p hp
    simp only [priceTieDemo, searchDemo, List.mem_cons, List.mem_singleton,
      List.not_mem_nil, or_false] at hp
    rcases hp with rfl | rfl <;> rfl
  exact ⟨h, (sorted_by_rounded_price asciiTables priceTieDemo h).2.1 rfl⟩

/-! ## Ties -/

/-- Two entries on which the comparator returns `0` leave the query in the
order in which they stood in the list. -/
theorem query_pairwise_tie (js : CaseTables) (st : ViewProjectsState)
    (Q : ListedProject → ListedProject → Prop) (hQ : st.projects.Pairwise Q) :
    (filteredAndSortedProjects js st).Pairwise
      (fun a b => compareProjects st.sortBy a b = 0 → Q a b) := by
  apply insertionSort_pairwise_tie _ (fun a b => compareProjects st.sortBy a b = 0) Q
  · intro a b h
    show compareProjects st.sortBy a b ≤ 0
    rw [compareProjects_zero_symm st.sortBy b a h]
  · exact hQ.sublist (List.filter_sublist _)

/-- C15. The list of `fetchProjects` is in ledger index order: that order
holds of the initial, empty list and every run of `fetchProjects` keeps it.
For every list in ledger index order and every `sortBy`, any two output
projects on which the comparator returns `0` appear in ledger index order, the
one with the smaller `id` first; in particular two projects with equal
`deadlineDate` under `newest` or `oldest` (hence two projects with equal
deadline, when the entries carry the date of their deadline), and two projects
with equal price under `price-high` or `price-low`. -/
theorem ties_keep_ledger_order (js : CaseTables) (st : ViewProjectsState)
    (hids : st.projects.Pairwise (fun a b => a.id < b.id)) :
    (filteredAndSortedProjects js st).Pairwise
        (fun a b => compareProjects st.sortBy a b = 0 → a.id < b.id) ∧
      ((st.sortBy = "newest" ∨ st.sortBy = "oldest") →
        (filteredAndSortedProjects js st).Pairwise
            (fun a b => a.deadlineDate = b.deadlineDate → a.id < b.id) ∧
          ((∀ p ∈ st.projects,
              p.deadlineDate = JsDate.ofMillis ((p.deadline : Int) * 1000)) →
            (filteredAndSortedProjects js st).Pairwise
              (fun a b => a.deadline = b.deadline → a.id < b.id))) ∧
      ((st.sortBy = "price-high" ∨ st.sortBy = "price-low") →
        (filteredAndSortedProjects js st).Pairwise
          (fun a b => parseFloat a.formattedAmount = parseFloat b.formattedAmount →
            a.id < b.id)) ∧
      (ViewProjectsState.init.projects.Pairwise (fun a b => a.id < b.id) ∧
        ∀ (contract : Option Contract) (clock : Nat → Int),
          (fetchProjects contract clock st).1.projects.Pairwise (fun a b => a.id < b.id)) := by
  have hmain := query_pairwise_tie js st (fun a b => a.id < b.id) hids
  have hmem := query_mem_projects js st
  have hdates : (st.sortBy = "newest" ∨ st.sortBy = "oldest") →
      (filteredAndSortedProjects js st).Pairwise
        (fun a b => a.deadlineDate = b.deadlineDate → a.id < b.id) := by
    intro hs
    refine hmain.imp ?_
    intro a b hab hdl
    apply hab
    have hself : JsDate.difference b.deadlineDate b.deadlineDate = 0 := by
      cases b.deadlineDate <;> simp [JsDate.difference]
    rcases hs with h | h
    · simp only [compareProjects, h, if_true, hdl, hself]
    · have hne : ¬ ("oldest" = "newest") := by decide
      simp only [compareProjects, h, hne, if_false, if_true, hdl, hself]
  refine ⟨hmain, ?_, ?_, ?_⟩
  · intro hs
    refine ⟨hdates hs, ?_⟩
    intro hbuilt
    refine (List.Pairwise.and_mem.mp (hdates hs)).imp ?_
    rintro a b ⟨ha, hb, hab⟩ hdl
    apply hab
    rw [hbuilt a (hmem a ha), hbuilt b (hmem b hb), hdl]
  · intro hs
    refine hmain.imp ?_
    intro a b hab hprice
    apply hab
    rcases hs with h | h
    · have hne : ¬ ("price-high" = "newest") := by decide
      have hne2 : ¬ ("price-high" = "oldest") := by decide
      simp only [compareProjects, h, hne, hne2, if_false, if_true, hprice]
      cases parseFloat b.formattedAmount <;> simp [F64.differenceSign]
    · have hne : ¬ ("price-low" = "newest") := by decide
      have hne2 : ¬ ("price-low" = "oldest") := by decide
      have hne3 : ¬ ("price-low" = "price-high") := by decide
      simp only [compareProjects, h, hne, hne2, hne3, if_false, if_true, hprice]
      cases parseFloat b.formattedAmount <;> simp [F64.differenceSign]
  · refine ⟨List.Pairwise.nil, ?_⟩
    intro contract clock
    cases contract with
    | none => exact hids
    | some c =>
      rcases fetchProjects_outcome c clock st with h | h <;> rw [h]
      · exact List.Pairwise.nil
      · exact hids

set_option exponentiation.threshold 4096 in
set_option maxRecDepth 100000 in
/-- `Logo` and `Site` have the same price under `price-high`, and `Logo`, with
the smaller id, comes first. -/
theorem ties_keep_ledger_order_witness :
    priceTieDemo.projects.Pairwise (fun a b => a.id < b.id) ∧
      parseFloat logoEntry.formattedAmount = parseFloat siteEntry.formattedAmount ∧
      (filteredAndSortedProjects asciiTables priceTieDemo).Pairwise
        (fun a b => parseFloat a.formattedAmount = parseFloat b.formattedAmount →
          a.id < b.id) := by
  have h : priceTieDemo.projects.Pairwise (fun a b => a.id < b.id) := by decide
  exact ⟨h, by decide, (ties_keep_ledger_order asciiTables priceTieDemo h).2.2.1 (Or.inl rfl)⟩

/-! ## Composition of search, filter and sort -/

theorem filter_orderedInsert_key {α : Type} (r : α → α → Prop) [DecidableRel r]
    (key : α → Int) (keep : α → Bool) (x : α) :
    ∀ S : List α, (∀ b ∈ S, r x b ↔ key x ≤ key b) →
      S.Pairwise (fun a b => key a ≤ key b) →
      (S.orderedInsert r x).filter keep =
        if keep x then (S.filter keep).orderedInsert r x else S.filter keep := by
  intro S
  induction S with
  | nil =>
    intro _ _
    cases hk : keep x <;> simp [hk]
  | cons b S ih =>
    intro hr hS
    rw [List.pairwise_cons] at hS
    obtain ⟨hbS, hS'⟩ := hS
    have hb : r x b ↔ key x ≤ key b := hr b (by simp)
    by_cases hxb : r x b
    · rw [List.orderedInsert, if_pos hxb]
      have hfront : ∀ L : List α, (∀ c ∈ L, c ∈ b :: S) → L.orderedInsert r x = x :: L := by
        intro L hL
        cases L with
        | nil => rfl
        | cons c L =>
          have hc : c ∈ b :: S := hL c (by simp)
          have hle : key x ≤ key c := by
            rcases List.mem_cons.mp hc with rfl | hc'
            · exact hb.mp hxb
            · exact le_trans (hb.mp hxb) (hbS c hc')
          exact List.orderedInsert_of_le r L ((hr c hc).mpr hle)
      cases hk : keep x
      · simp [List.filter_cons, hk]
      · rw [if_pos rfl, hfront _ (fun c hc => List.mem_of_mem_filter hc)]
        simp [List.filter_cons, hk]
    · rw [List.orderedInsert, if_neg hxb]
      have ih' := ih (fun c hc => hr c (by simp [hc])) hS'
      cases hkb : keep b
      · rw [List.filter_cons, hkb, ih', List.filter_cons, hkb]
        simp
      · rw [List.filter_cons, hkb, ih', List.filter_cons, hkb]
        cases hk : keep x
        · simp
        · simp [List.orderedInsert, hxb]

theorem filter_insertionSort_key {α : Type} (r : α → α → Prop) [DecidableRel r]
    (key : α → Int) (keep : α → Bool) :
    ∀ l : List α, (∀ a ∈ l, ∀ b ∈ l, r a b ↔ key a ≤ key b) →
      (l.insertionSort r).filter keep = (l.filter keep).insertionSort r := by
  intro l
  induction l with
  | nil => intro _; rfl
  | cons x xs ih =>
    intro hr
    have hr' : ∀ a ∈ xs, ∀ b ∈ xs, r a b ↔ key a ≤ key b :=
      fun a ha b hb => hr a (by simp [ha]) b (by simp [hb])
    have hsorted := insertionSort_pairwise_key r key (fun _ _ => True) xs hr'
      (List.pairwise_of_forall (fun _ _ => trivial))
    rw [List.insertionSort, filter_orderedInsert_key r key keep x _
      (fun b hb => hr x (by simp) b (by simp [(List.mem_insertionSort r).mp hb]))
      (hsorted.imp (fun h => h.1)), ih hr']
    cases hk : keep x
    · simp [List.filter_cons, hk]
    · simp [List.filter_cons, hk, List.insertionSort]


/-- C16, as stated, fails: the list holds `Logo`, `Banner` and `Site`, `Banner`
with an Invalid Date, under `newest` with the search term `logo`.  Sorting the
whole list moves nothing, since every comparison with `Banner` returns `NaN`;
filtering then leaves `Logo` in front of `Site`.  Filtering first removes
`Banner`, and sorting then puts `Site`, whose deadline is later, in front of
`Logo`. -/
theorem filter_then_sort_differs_at_invalid_date :
    (commuteDemo.sortBy = "newest" ∧ bannerEntry.deadlineDate = JsDate.invalid) ∧
      sortProjects (compareProjects commuteDemo.sortBy) commuteDemo.projects =
        [logoEntry, bannerEntry, ListedProject.ofRecord 1700010000000 2 siteRecord] ∧
      (∀ js : CaseTables,
        filteredAndSortedProjects js commuteDemo =
            [ListedProject.ofRecord 1700010000000 2 siteRecord, logoEntry] ∧
          (sortProjects (compareProjects commuteDemo.sortBy) commuteDemo.projects).filter
              (fun p => matchesSearch js commuteDemo.searchTerm p &&
                matchesFilter commuteDemo.filterBy p) =
            [logoEntry, ListedProject.ofRecord 1700010000000 2 siteRecord] ∧
          filteredAndSortedProjects js commuteDemo ≠
            (sortProjects (compareProjects commuteDemo.sortBy) commuteDemo.projects).filter
              (fun p => matchesSearch js commuteDemo.searchTerm p &&
                matchesFilter commuteDemo.filterBy p)) := by
  have hsort : sortProjects (compareProjects commuteDemo.sortBy) commuteDemo.projects =
      [logoEntry, bannerEntry, ListedProject.ofRecord 1700010000000 2 siteRecord] := by decide
  refine ⟨⟨rfl, by decide⟩, hsort, ?_⟩
  intro js
  have h1 : filteredAndSortedProjects js commuteDemo =
      [ListedProject.ofRecord 1700010000000 2 siteRecord, logoEntry] := by
    rw [query_ascii js commuteDemo (by decide) (by decide)]
    decide
  have h2 : (sortProjects (compareProjects commuteDemo.sortBy) commuteDemo.projects).filter
      (fun p => matchesSearch js commuteDemo.searchTerm p &&
        matchesFilter commuteDemo.filterBy p) =
      [logoEntry, ListedProject.ofRecord 1700010000000 2 siteRecord] := by
    rw [hsort]
    have hm : ∀ p ∈ [logoEntry, bannerEntry, ListedProject.ofRecord 1700010000000 2 siteRecord],
        matchesSearch js commuteDemo.searchTerm p =
          matchesSearch asciiTables commuteDemo.searchTerm p := by
      intro p hp
      simp only [List.mem_cons, List.mem_singleton, List.not_mem_nil, or_false] at hp
      rcases hp with rfl | rfl | rfl <;>
        exact matchesSearch_ascii js _ _ (by decide) (by decide) (by decide)
    rw [List.filter_congr (fun p hp => by rw [hm p hp])]
    decide
  refine ⟨h1, h2, ?_⟩
  rw [h1, h2]
  decide

/-- C16, amended. The query is a function of the project list, the search
term, the filter and the sort order only.  Applying the search predicate and
then the category filter keeps the same list as applying them in the opposite
order, and as the single pass of the code.  Filtering and then sorting, as the
code does, gives the same ordered list as sorting and then filtering whenever
the comparator can order the list: under the deadline orders when every date
is valid, under the price orders when every price is a number. -/
theorem query_composition_order (js : CaseTables) (st : ViewProjectsState) :
    (∀ st' : ViewProjectsState, st.projects = st'.projects →
        st.searchTerm = st'.searchTerm → st.filterBy = st'.filterBy →
        st.sortBy = st'.sortBy →
        filteredAndSortedProjects js st = filteredAndSortedProjects js st') ∧
      ((st.projects.filter (matchesSearch js st.searchTerm)).filter
            (matchesFilter st.filterBy) =
          (st.projects.filter (matchesFilter st.filterBy)).filter
            (matchesSearch js st.searchTerm) ∧
        (st.projects.filter (matchesSearch js st.searchTerm)).filter
            (matchesFilter st.filterBy) =
          st.projects.filter (fun p =>
            matchesSearch js st.searchTerm p && matchesFilter st.filterBy p)) ∧
      (Sortable st.sortBy st.projects →
        filteredAndSortedProjects js st =
          (sortProjects (compareProjects st.sortBy) st.projects).filter
            (fun p => matchesSearch js st.searchTerm p && matchesFilter st.filterBy p)) := by
  refine ⟨?_, ⟨?_, ?_⟩, ?_⟩
  · intro st' h1 h2 h3 h4
    simp only [filteredAndSortedProjects, h1, h2, h3, h4]
  · rw [List.filter_filter, List.filter_filter]
    congr 1
    funext p
    exact Bool.and_comm _ _
  · rw [List.filter_filter]
    congr 1
    funext p
    exact Bool.and_comm _ _
  · intro hl
    rw [filteredAndSortedProjects, sortProjects, sortProjects]
    symm
    apply filter_insertionSort_key _ (sortKey st.sortBy)
    intro a ha b hb
    exact compareProjects_le_iff st.sortBy st.projects hl a b ha hb

/-- On the demo list of `Logo` and `Site`, whose dates are valid, filtering
then sorting is sorting then filtering. -/
theorem query_composition_order_witness :
    Sortable searchDemo.sortBy searchDemo.projects ∧
      filteredAndSortedProjects asciiTables searchDemo =
        (sortProjects (compareProjects searchDemo.sortBy) searchDemo.projects).filter
          (fun p => matchesSearch asciiTables searchDemo.searchTerm p &&
            matchesFilter searchDemo.filterBy p) := by
  have h : Sortable searchDemo.sortBy searchDemo.projects := by
    refine ⟨fun _ p hp => ?_, fun hs => ?_⟩
    · simp only [searchDemo, List.mem_cons, List.mem_singleton, List.not_mem_nil,
        or_false] at hp
      rcases hp with rfl | rfl <;> (unfold DateValid; decide)
    · rcases hs with h | h <;> exact absurd h (by decide)
  exact ⟨h, (query_composition_order asciiTables searchDemo).2.2 h⟩
/-! ## The formatted amount -/

/-- C18. The code at the failing input.  For every amount `a` in wei,
`formatEther a` is a decimal string whose exact value is `a / 10^18`: it is
read as `num / den` with `num * 10^18 = a * den`; nothing is rounded, so the
amount is recovered from the string and distinct amounts give distinct
strings; for `a = 100000000000000000` the string is `0.1`.  On a ledger of
three records of which only record 1 is open, with amount `10^17`, the one
entry to be listed is that of record 1, with `formattedAmount` `0.1`; but
building it throws, so `fetchProjects` reads the records `0` and `1`, sets the
message `Error loading projects` and publishes no list: from the initial state
the marketplace stays empty. -/
theorem scenario_entry_is_not_listed (a : Nat) :
    (∃ num den, decimalValue (formatEther a) = some (num, den) ∧ 0 < den ∧
        num * 10 ^ 18 = a * den) ∧
      recoverWei (formatEther a) = a ∧
      (∀ b, formatEther a = formatEther b → a = b) ∧
      formatEther 100000000000000000 = "0.1" ∧
      (∀ (r0 r1 r2 : Project) (clock : Nat → Int) (st0 : ViewProjectsState),
        r0.client ≠ ZeroAddress → r1.client = ZeroAddress → r2.client ≠ ZeroAddress →
        r1.amount = 100000000000000000 →
        openEntries clock 0 [r0, r1, r2] = [ListedProject.ofRecord (clock 1) 1 r1] ∧
          (ListedProject.ofRecord (clock 1) 1 r1).formattedAmount = "0.1" ∧
          fetchProjects (some (Contract.ofLedger [r0, r1, r2])) clock st0 =
            ({ st0 with message := ⟨"error", "Error loading projects"⟩, loading := false },
              [LedgerRead.nextProjectId, LedgerRead.projects 0, LedgerRead.projects 1])) ∧
      ((openEntries (fun _ => 0) 0 scenarioMarket).map (fun e => e.formattedAmount) = ["0.1"] ∧
        (fetchProjects (some (Contract.ofLedger scenarioMarket)) (fun _ => 0)
          ViewProjectsState.init).1 =
          { ViewProjectsState.init with
            message := ⟨"error", "Error loading projects"⟩, loading := false }) := by
  refine ⟨decimalValue_formatEther a, recoverWei_formatEther a,
    fun b h => formatEther_injective a b h, by decide, ?_, by decide, by decide⟩
  intro r0 r1 r2 clock st0 h0 h1 h2 hamt
  refine ⟨?_, ?_, ?_⟩
  · simp [openEntries, List.enumFrom, h0, h1, h2]
  · simp only [ListedProject.ofRecord, hamt]
    decide
  · have hfirst : FirstOpenRecord (Contract.ofLedger [r0, r1, r2]) 1 := by
      refine ⟨⟨r1, rfl, h1⟩, ?_⟩
      intro i hi
      have hi0 : i = 0 := by omega
      subst hi0
      exact ⟨r0, rfl, h0⟩
    rw [fetchProjects_firstOpen _ 3 1 clock st0 rfl (by decide) hfirst]
    rfl

/-! ## Accepting a project -/

/-- The calls of `handleBuy` with a project selected: the accept for the
selected project first, and no other accept after it. -/
theorem handleBuy_calls (c : WritableContract) (clock : Nat → Int) (st : ViewProjectsState)
    (q : ListedProject) (hq : st.selectedProject = some q) :
    ∃ rest, (handleBuy (some c) clock st).2 = LedgerCall.acceptTerms q.id q.amount :: rest ∧
      ∀ id value, LedgerCall.acceptTerms id value ∉ rest := by
  unfold handleBuy
  simp only [hq]
  cases c.acceptTerms q.id q.amount with
  | error e => exact ⟨[], rfl, by simp⟩
  | ok tx =>
    dsimp only
    cases tx.wait with
    | error e => exact ⟨[LedgerCall.wait], rfl, by simp⟩
    | ok u => exact ⟨_, rfl, by simp⟩

theorem fetchProjects_reads_indep (c : Contract) (clock : Nat → Int)
    (s1 s2 : ViewProjectsState) :
    (fetchProjects (some c) clock s1).2 = (fetchProjects (some c) clock s2).2 := by
  simp only [fetchProjects]
  cases c.nextProjectId with
  | error e => rfl
  | ok n =>
    dsimp only
    rcases scanProjectsThrowing c (fetchProjectsBody clock) n 0 [] with ⟨res, reads⟩
    cases res <;> rfl

theorem handleBuy_calls_pending (contract : Option WritableContract) (clock : Nat → Int)
    (st : ViewProjectsState) :
    (handleBuy contract clock (pendingBuy st)).2 = (handleBuy contract clock st).2 := by
  cases contract with
  | none => rfl
  | some c =>
    cases hsel : st.selectedProject with
    | none => simp [handleBuy, pendingBuy, hsel]
    | some q =>
      have hsel' : (pendingBuy st).selectedProject = some q := hsel
      unfold handleBuy
      simp only [hsel, hsel']
      cases c.acceptTerms q.id q.amount with
      | error e => rfl
      | ok tx =>
        dsimp only
        cases tx.wait with
        | error e => rfl
        | ok u =>
          dsimp only
          rw [fetchProjects_reads_indep]

theorem handleCreateProject_calls_pending (contract : Option WritableContract)
    (cst : CreateProjectState) :
    (handleCreateProject contract (pendingCreate cst)).2 =
      (handleCreateProject contract cst).2 := by
  cases contract with
  | none => rfl
  | some c =>
    unfold handleCreateProject
    have hf : (pendingCreate cst).formData = cst.formData := rfl
    simp only [hf]
    split_ifs
    · rfl
    · cases parseEther cst.formData.amount with
      | error e => rfl
      | ok amount =>
        dsimp only
        cases c.createProject cst.formData.name cst.formData.description amount with
        | error e => rfl
        | ok tx =>
          dsimp only
          cases tx.wait with
          | error e => rfl
          | ok u => rfl

/-- C19. With the entry `p` selected in the modal, `handleBuy` submits first
the accept with `id = p.id` and value `p.amount`.  For every entry that carries
the fields of the ledger record at its `id`, as the object literal of
`fetchProjects` sets them (`...project` and `id: i`), the accept therefore
targets the ledger index of that record and its value is the amount of that
same record.  In any state, every accept that `handleBuy` submits carries the
`id` and the `amount` of the selected project. -/
theorem handleBuy_escrow_is_record_amount (c : WritableContract) (clock : Nat → Int)
    (st : ViewProjectsState) (p : ListedProject) :
    (handleBuy (some c) clock (openModal p st)).2.head? =
        some (LedgerCall.acceptTerms p.id p.amount) ∧
      (∀ (ledger : List Project) (r : Project), ledger[p.id]? = some r → p.toProject = r →
        (handleBuy (some c) clock (openModal p st)).2.head? =
          some (LedgerCall.acceptTerms p.id r.amount)) ∧
      (∀ (ledger : List Project) (now : Int) (i : Nat) (r : Project), ledger[i]? = some r →
        (handleBuy (some c) clock (openModal (ListedProject.ofRecord now i r) st)).2.head? =
          some (LedgerCall.acceptTerms i r.amount)) ∧
      (∀ (s : ViewProjectsState) (q : ListedProject), s.selectedProject = some q →
        ∀ id value, LedgerCall.acceptTerms id value ∈ (handleBuy (some c) clock s).2 →
          id = q.id ∧ value = q.amount) := by
  have hfirst : ∀ e : ListedProject,
      (handleBuy (some c) clock (openModal e st)).2.head? =
        some (LedgerCall.acceptTerms e.id e.amount) := by
    intro e
    obtain ⟨rest, hcalls, -⟩ := handleBuy_calls c clock (openModal e st) e rfl
    rw [hcalls]
    rfl
  refine ⟨hfirst p, ?_, ?_, ?_⟩
  · intro ledger r _ hr
    rw [hfirst p, ← hr]
  · intro ledger now i r _
    exact hfirst _
  · intro s q hq id value hmem
    obtain ⟨rest, hcalls, hrest⟩ := handleBuy_calls c clock s q hq
    rw [hcalls, List.mem_cons] at hmem
    rcases hmem with h | h
    · injection h with h1 h2
      exact ⟨h1, h2⟩
    · exact absurd h (hrest id value)

/-- With the entry of `Logo`, record `0` of the ledger of `Logo` and `Site`,
selected, the accept carries the id `0` and the amount of that record, one
ether. -/
theorem handleBuy_escrow_is_record_amount_witness :
    [logoRecord, siteRecord][logoEntry.id]? = some logoRecord ∧
      logoEntry.toProject = logoRecord ∧
      (handleBuy (some acceptingContract) (fun _ => 0)
          (openModal logoEntry ViewProjectsState.init)).2.head? =
        some (LedgerCall.acceptTerms 0 (10 ^ 18)) :=
  ⟨rfl, rfl, (handleBuy_escrow_is_record_amount acceptingContract (fun _ => 0)
    ViewProjectsState.init logoEntry).2.1 [logoRecord, siteRecord] logoRecord rfl rfl⟩

/-! ## Pending actions -/

/-- C20, as stated, fails: invoked in the state where an accept is already
pending (`buying = true`), `handleBuy` submits the accept again; invoked in the
state where a creation is already pending (`isSubmitting = true`),
`handleCreateProject` submits the creation again. -/
theorem handlers_do_not_check_pending :
    (pendingBuy logoSelected).buying = true ∧
      (handleBuy (some acceptingContract) (fun _ => 0) (pendingBuy logoSelected)).2.head? =
        some (LedgerCall.acceptTerms 0 (10 ^ 18)) ∧
      (pendingCreate filledForm).isSubmitting = true ∧
      (handleCreateProject (some acceptingContract) (pendingCreate filledForm)).2.head? =
        some (LedgerCall.createProject "Logo" "Draw a mark" (10 ^ 17)) := by
  decide

/-- C20, amended. While an action is pending, the control that starts it is
disabled: a click on `Accept Project` in a state with `buying = true`, and a
submission of the creation form in a state with `isSubmitting = true`, run no
handler, leave the state as it is and issue no call to the contract.  The
handlers themselves do not test the pending flag: invoked directly, they issue
the same calls whether or not an action is pending. -/
theorem pending_action_disables_control (contract : Option WritableContract)
    (clock : Nat → Int) (st : ViewProjectsState) (cst : CreateProjectState) :
    (st.buying = true → clickAcceptProject contract clock st = (st, [])) ∧
      (cst.isSubmitting = true → submitCreateForm contract cst = (cst, [])) ∧
      clickAcceptProject contract clock (pendingBuy st) = (pendingBuy st, []) ∧
      submitCreateForm contract (pendingCreate cst) = (pendingCreate cst, []) ∧
      (handleBuy contract clock (pendingBuy st)).2 = (handleBuy contract clock st).2 ∧
      (handleCreateProject contract (pendingCreate cst)).2 =
        (handleCreateProject contract cst).2 := by
  refine ⟨?_, ?_, ?_, ?_, handleBuy_calls_pending contract clock st,
    handleCreateProject_calls_pending contract cst⟩
  · intro h
    simp [clickAcceptProject, h]
  · intro h
    simp [submitCreateForm, h]
  · simp [clickAcceptProject, pendingBuy]
  · simp [submitCreateForm, pendingCreate]

/-- With an accept pending for `Logo`, a click on the disabled button issues no
call. -/
theorem pending_action_disables_control_witness :
    (pendingBuy logoSelected).buying = true ∧
      clickAcceptProject (some acceptingContract) (fun _ => 0) (pendingBuy logoSelected) =
        (pendingBuy logoSelected, []) :=
  ⟨rfl, (pending_action_disables_control (some acceptingContract) (fun _ => 0)
    (pendingBuy logoSelected) filledForm).1 rfl⟩
/-! ## A settled accept -/

/-- What `fetchProjects` leaves alone, and the shape of its reads. -/
theorem fetchProjects_frame (c : Contract) (clock : Nat → Int) (st : ViewProjectsState) :
    (fetchProjects (some c) clock st).1.selectedProject = st.selectedProject ∧
      (fetchProjects (some c) clock st).1.modalIsOpen = st.modalIsOpen ∧
      (fetchProjects (some c) clock st).1.buying = st.buying ∧
      (fetchProjects (some c) clock st).1.searchTerm = st.searchTerm ∧
      (fetchProjects (some c) clock st).1.sortBy = st.sortBy ∧
      (fetchProjects (some c) clock st).1.filterBy = st.filterBy ∧
      (fetchProjects (some c) clock st).1.loading = false ∧
      ∃ reads, (fetchProjects (some c) clock st).2 = LedgerRead.nextProjectId :: reads ∧
        ∀ r ∈ reads, ∃ j, r = LedgerRead.projects j := by
  simp only [fetchProjects]
  cases c.nextProjectId with
  | error e => exact ⟨rfl, rfl, rfl, rfl, rfl, rfl, rfl, [], rfl, by simp⟩
  | ok n =>
    dsimp only
    have hreads := scanThrowing_reads_are_records c (fetchProjectsBody clock) n 0 []
    rcases hscan : scanProjectsThrowing c (fetchProjectsBody clock) n 0 [] with ⟨res, reads⟩
    rw [hscan] at hreads
    cases res <;> exact ⟨rfl, rfl, rfl, rfl, rfl, rfl, rfl, reads, rfl, hreads⟩

theorem handleBuy_settled (c : WritableContract) (clock : Nat → Int) (st : ViewProjectsState)
    (q : ListedProject) (tx : Transaction) (hq : st.selectedProject = some q)
    (haccept : c.acceptTerms q.id q.amount = .ok tx) (hwait : tx.wait = .ok ()) :
    handleBuy (some c) clock st =
      ((fetchProjects (some c.settled) clock
          (closeModal { pendingBuy st with
            message := ⟨"success", "Project accepted successfully!"⟩
            buying := false })).1,
        LedgerCall.acceptTerms q.id q.amount :: LedgerCall.wait ::
          (fetchProjects (some c.settled) clock
            (closeModal { pendingBuy st with
              message := ⟨"success", "Project accepted successfully!"⟩
              buying := false })).2.map LedgerCall.read) := by
  unfold handleBuy
  simp only [hq, haccept, hwait]

/-- C21. The code at the failing inputs.  When the accept submitted by
`handleBuy` settles (`acceptTerms` and `tx.wait` both succeed), `handleBuy`
runs `fetchProjects` exactly once, after the two calls of the accept, so that
its calls contain exactly one count read; afterwards `buying` is false, no
project is selected and the modal is closed.  The rebuild, however, publishes
a list only when the settled ledger holds no open record, and then the empty
list; when the settled ledger still holds an open record the rebuild throws,
the list of before the accept stays in place, the accepted entry included, and
the success message is replaced by `Error loading projects`. -/
theorem settled_accept_rebuilds_once (c : WritableContract) (clock : Nat → Int)
    (st : ViewProjectsState) (q : ListedProject) (tx : Transaction)
    (hq : st.selectedProject = some q)
    (haccept : c.acceptTerms q.id q.amount = .ok tx) (hwait : tx.wait = .ok ()) :
    handleBuy (some c) clock st =
        ((fetchProjects (some c.settled) clock
            (closeModal { pendingBuy st with
              message := ⟨"success", "Project accepted successfully!"⟩
              buying := false })).1,
          LedgerCall.acceptTerms q.id q.amount :: LedgerCall.wait ::
            (fetchProjects (some c.settled) clock
              (closeModal { pendingBuy st with
                message := ⟨"success", "Project accepted successfully!"⟩
                buying := false })).2.map LedgerCall.read) ∧
      (handleBuy (some c) clock st).2.count (LedgerCall.read LedgerRead.nextProjectId) = 1 ∧
      (handleBuy (some c) clock st).1.buying = false ∧
      (handleBuy (some c) clock st).1.selectedProject = none ∧
      (handleBuy (some c) clock st).1.modalIsOpen = false ∧
      (∀ ledger : List Project, c.settled = Contract.ofLedger ledger →
        (∀ p ∈ ledger, p.client ≠ ZeroAddress) →
        (handleBuy (some c) clock st).1.projects = [] ∧
          (handleBuy (some c) clock st).1.message =
            ⟨"success", "Project accepted successfully!"⟩) ∧
      (∀ ledger : List Project, c.settled = Contract.ofLedger ledger →
        (∃ p ∈ ledger, p.client = ZeroAddress) →
        (handleBuy (some c) clock st).1.projects = st.projects ∧
          (handleBuy (some c) clock st).1.message = ⟨"error", "Error loading projects"⟩) := by
  have hrun := handleBuy_settled c clock st q tx hq haccept hwait
  obtain ⟨hsel, hmodal, hbuy, -, -, -, -, reads, hreads, hrec⟩ :=
    fetchProjects_frame c.settled clock
      (closeModal { pendingBuy st with
        message := ⟨"success", "Project accepted successfully!"⟩
        buying := false })
  refine ⟨hrun, ?_, ?_, ?_, ?_, ?_, ?_⟩
  · rw [hrun]
    simp only [hreads, List.map_cons]
    have hnone : (reads.map LedgerCall.read).count (LedgerCall.read LedgerRead.nextProjectId)
        = 0 := by
      rw [List.count_eq_zero]
      intro hmem
      obtain ⟨r, hr, heq⟩ := List.mem_map.mp hmem
      obtain ⟨j, hj⟩ := hrec r hr
      rw [hj] at heq
      injection heq with h
      exact absurd h (by simp)
    simp [List.count_cons, hnone]
  · rw [hrun]
    exact hbuy
  · rw [hrun]
    exact hsel
  · rw [hrun]
    exact hmodal
  · intro ledger hsettled hclosed
    rw [hrun, hsettled, fetchProjects_ofLedger_closed ledger clock _ hclosed]
    exact ⟨rfl, rfl⟩
  · intro ledger hsettled hopen
    rw [hrun, hsettled, fetchProjects_ofLedger_open ledger clock _ hopen]
    exact ⟨rfl, rfl⟩

/-- After `Logo` is accepted and the ledger reports it with the client `0xC1`,
`Site` being still open, the list holds the entry of `Logo` as before and the
message is the error of the failed rebuild. -/
theorem settled_accept_rebuilds_once_witness :
    logoSelected.selectedProject = some logoEntry ∧
      settlingContract.settled = Contract.ofLedger [logoAccepted, siteRecord] ∧
      logoAccepted.client ≠ ZeroAddress ∧
      (handleBuy (some settlingContract) (fun _ => 1700010000000) logoSelected).1.projects =
        [logoEntry, siteEntry] ∧
      (handleBuy (some settlingContract) (fun _ => 1700010000000) logoSelected).1.message =
        ⟨"error", "Error loading projects"⟩ :=
  ⟨rfl, rfl, by decide,
    (settled_accept_rebuilds_once settlingContract (fun _ => 1700010000000) logoSelected
      logoEntry ⟨.ok ()⟩ rfl rfl rfl).2.2.2.2.2.2 [logoAccepted, siteRecord] rfl
        ⟨siteRecord, by simp, rfl⟩⟩

/-! ## Failed actions -/

theorem handleBuy_failed (c : WritableContract) (clock : Nat → Int) (st : ViewProjectsState)
    (q : ListedProject) (hq : st.selectedProject = some q)
    (hfail : AcceptFails c q.id q.amount) :
    (handleBuy (some c) clock st).1 =
        { st with
          message := ⟨"error", "Error accepting project. Please try again."⟩
          buying := false } ∧
      ((handleBuy (some c) clock st).2 = [LedgerCall.acceptTerms q.id q.amount] ∨
        (handleBuy (some c) clock st).2 =
          [LedgerCall.acceptTerms q.id q.amount, LedgerCall.wait]) := by
  have hst : ({ pendingBuy st with
      message := ⟨"error", "Error accepting project. Please try again."⟩
      buying := false } : ViewProjectsState) =
      { st with
        message := ⟨"error", "Error accepting project. Please try again."⟩
        buying := false } := rfl
  rcases hfail with ⟨e, he⟩ | ⟨tx, e, htx, he⟩
  · have hrun : handleBuy (some c) clock st =
        ({ pendingBuy st with
            message := ⟨"error", "Error accepting project. Please try again."⟩
            buying := false },
          [LedgerCall.acceptTerms q.id q.amount]) := by
      unfold handleBuy
      simp only [hq, he]
    rw [hrun]
    exact ⟨hst, Or.inl rfl⟩
  · have hrun : handleBuy (some c) clock st =
        ({ pendingBuy st with
            message := ⟨"error", "Error accepting project. Please try again."⟩
            buying := false },
          [LedgerCall.acceptTerms q.id q.amount, LedgerCall.wait]) := by
      unfold handleBuy
      simp only [hq, htx, he]
    rw [hrun]
    exact ⟨hst, Or.inr rfl⟩

theorem handleCreateProject_failed (c : WritableContract) (st : CreateProjectState)
    (hform : FormComplete st.formData) (hfail : CreateFails c st.formData) :
    (handleCreateProject (some c) st).1 =
        { st with
          message := ⟨"error", "Error creating project. Please try again."⟩
          isSubmitting := false } ∧
      ∀ call ∈ (handleCreateProject (some c) st).2, ∀ r, call ≠ LedgerCall.read r := by
  obtain ⟨h1, h2, h3⟩ := hform
  have hguard : (isBlank st.formData.name || isBlank st.formData.description ||
      st.formData.amount == "") = false := by
    simp [h1, h2, h3]
  unfold handleCreateProject
  simp only [hguard]
  rcases hfail with ⟨e, he⟩ | ⟨wei, hwei, ⟨e, he⟩ | ⟨tx, e, htx, he⟩⟩
  · simp only [he]
    exact ⟨rfl, by simp⟩
  · simp only [hwei, he]
    exact ⟨rfl, by simp⟩
  · simp only [hwei, htx, he]
    exact ⟨rfl, by simp⟩

theorem formComplete_iff (form : FormData) :
    FormComplete form ↔
      (isBlank form.name || isBlank form.description || form.amount == "") = false := by
  unfold FormComplete
  cases isBlank form.name <;> cases isBlank form.description <;>
    by_cases h : form.amount = "" <;> simp [h]

theorem acceptFails_reverting (id amount : Nat) : AcceptFails revertingContract id amount :=
  Or.inl ⟨_, rfl⟩

theorem acceptFails_unavailable (id amount : Nat) : AcceptFails unavailableContract id amount :=
  Or.inl ⟨_, rfl⟩

theorem createFails_createReverting :
    CreateFails createRevertingContract filledForm.formData :=
  Or.inr ⟨10 ^ 17, by rfl, Or.inl ⟨_, rfl⟩⟩

theorem createFails_exponent : CreateFails acceptingContract exponentForm.formData :=
  Or.inl ⟨_, by rfl⟩

theorem formComplete_filledForm : FormComplete filledForm.formData := by
  rw [formComplete_iff]
  decide

theorem formComplete_exponentForm : FormComplete exponentForm.formData := by
  rw [formComplete_iff]
  decide

/-- C22. When an accept fails (`acceptTerms` or `tx.wait` rejects in
`handleBuy`), the state after the handler is the state before it with the
error message set and `buying` reset to false, and nothing else changed: the
projects list and the selected project are as before and no read of a rebuild
is issued.  When a creation fails (`parseEther`, `createProject` or `tx.wait`
fails in `handleCreateProject`), the state after the handler is the state
before it with the error message set and `isSubmitting` reset to false: the
form data and the success flag are as before.  Each holds for every contract
on which that action fails, whatever the other action would do. -/
theorem failed_action_leaves_state :
    (∀ (c : WritableContract) (clock : Nat → Int) (st : ViewProjectsState)
        (q : ListedProject), st.selectedProject = some q → AcceptFails c q.id q.amount →
        (handleBuy (some c) clock st).1 =
            { st with
              message := ⟨"error", "Error accepting project. Please try again."⟩
              buying := false } ∧
          (handleBuy (some c) clock st).1.projects = st.projects ∧
          (handleBuy (some c) clock st).1.selectedProject = st.selectedProject ∧
          (∀ r, LedgerCall.read r ∉ (handleBuy (some c) clock st).2)) ∧
      (∀ (c : WritableContract) (cst : CreateProjectState),
        FormComplete cst.formData → CreateFails c cst.formData →
        (handleCreateProject (some c) cst).1 =
            { cst with
              message := ⟨"error", "Error creating project. Please try again."⟩
              isSubmitting := false } ∧
          (handleCreateProject (some c) cst).1.formData = cst.formData ∧
          (handleCreateProject (some c) cst).1.showSuccess = cst.showSuccess) := by
  constructor
  · intro c clock st q hq hfail
    obtain ⟨hstate, hlog⟩ := handleBuy_failed c clock st q hq hfail
    refine ⟨hstate, by rw [hstate], by rw [hstate], ?_⟩
    intro r hmem
    rcases hlog with h | h <;> rw [h] at hmem <;> simp at hmem
  · intro c cst hform hcreate
    obtain ⟨hcstate, -⟩ := handleCreateProject_failed c cst hform hcreate
    exact ⟨hcstate, by rw [hcstate], by rw [hcstate]⟩

/-- With every accept reverted, the accept of `Logo` leaves the list and the
selection in place; on a contract whose accepts succeed and whose creations
are reverted, the create leaves the form in place; and so does the create whose
amount `parseEther` rejects. -/
theorem failed_action_leaves_state_witness :
    AcceptFails revertingContract logoEntry.id logoEntry.amount ∧
      (handleBuy (some revertingContract) (fun _ => 0) logoSelected).1.projects =
        logoSelected.projects ∧
      ¬ AcceptFails createRevertingContract logoEntry.id logoEntry.amount ∧
      CreateFails createRevertingContract filledForm.formData ∧
      (handleCreateProject (some createRevertingContract) filledForm).1.formData =
        filledForm.formData ∧
      (handleCreateProject (some acceptingContract) exponentForm).1.formData =
        exponentForm.formData := by
  refine ⟨acceptFails_reverting _ _,
    (failed_action_leaves_state.1 revertingContract (fun _ => 0) logoSelected logoEntry rfl
      (acceptFails_reverting _ _)).2.1, ?_, createFails_createReverting,
    (failed_action_leaves_state.2 createRevertingContract filledForm formComplete_filledForm
      createFails_createReverting).2.1,
    (failed_action_leaves_state.2 acceptingContract exponentForm formComplete_exponentForm
      createFails_exponent).2.1⟩
  rintro (⟨e, he⟩ | ⟨tx, e, htx, he⟩)
  · simp [createRevertingContract] at he
  · simp only [createRevertingContract] at htx
    injection htx with htx
    rw [← htx] at he
    simp at he

/-- C23, as stated, fails: a submission reverted by the ledger and a
submission that finds no transport reject with different errors, yet
`handleBuy` sets the same message for both, and so does `handleCreateProject`;
the message is not the revert reason. -/
theorem failure_kinds_share_one_message :
    revertingContract.acceptTerms 0 (10 ^ 18) =
        .error ⟨"CALL_EXCEPTION", "execution reverted: Incorrect amount"⟩ ∧
      unavailableContract.acceptTerms 0 (10 ^ 18) =
        .error ⟨"NETWORK_ERROR", "could not detect network"⟩ ∧
      (handleBuy (some revertingContract) (fun _ => 0) logoSelected).1.message =
        (handleBuy (some unavailableContract) (fun _ => 0) logoSelected).1.message ∧
      (handleBuy (some revertingContract) (fun _ => 0) logoSelected).1.message.text ≠
        "execution reverted: Incorrect amount" ∧
      (handleCreateProject (some revertingContract) filledForm).1.message =
        (handleCreateProject (some unavailableContract) filledForm).1.message ∧
      (handleCreateProject (some revertingContract) filledForm).1.message.text ≠
        "execution reverted: Incorrect amount" := by
  refine ⟨rfl, rfl, by decide, by decide, by decide, by decide⟩

/-- C23, amended. After a failed action the message set by the handler is a
fixed text of type `error`, `Error accepting project. Please try again.` for
`handleBuy` and `Error creating project. Please try again.` for
`handleCreateProject`, whatever the failure was: for every contract on which
the action fails, with whatever error and at whatever step.  The failure
itself is only written to the console, so any two failed accepts produce the
same message, and so do any two failed creations. -/
theorem failure_message_is_fixed :
    (∀ (c : WritableContract) (clock : Nat → Int) (st : ViewProjectsState)
        (q : ListedProject), st.selectedProject = some q → AcceptFails c q.id q.amount →
        (handleBuy (some c) clock st).1.message =
          ⟨"error", "Error accepting project. Please try again."⟩) ∧
      (∀ (c : WritableContract) (cst : CreateProjectState),
        FormComplete cst.formData → CreateFails c cst.formData →
        (handleCreateProject (some c) cst).1.message =
          ⟨"error", "Error creating project. Please try again."⟩) ∧
      (∀ (c1 c2 : WritableContract) (clock1 clock2 : Nat → Int) (st1 st2 : ViewProjectsState)
        (q1 q2 : ListedProject), st1.selectedProject = some q1 → st2.selectedProject = some q2 →
        AcceptFails c1 q1.id q1.amount → AcceptFails c2 q2.id q2.amount →
        (handleBuy (some c1) clock1 st1).1.message =
          (handleBuy (some c2) clock2 st2).1.message) ∧
      (∀ (c1 c2 : WritableContract) (cst1 cst2 : CreateProjectState),
        FormComplete cst1.formData → FormComplete cst2.formData →
        CreateFails c1 cst1.formData → CreateFails c2 cst2.formData →
        (handleCreateProject (some c1) cst1).1.message =
          (handleCreateProject (some c2) cst2).1.message) := by
  have hbuy : ∀ (c : WritableContract) (clock : Nat → Int) (st : ViewProjectsState)
      (q : ListedProject), st.selectedProject = some q → AcceptFails c q.id q.amount →
      (handleBuy (some c) clock st).1.message =
        ⟨"error", "Error accepting project. Please try again."⟩ := by
    intro c clock st q hq hfail
    rw [(handleBuy_failed c clock st q hq hfail).1]
  have hcreate : ∀ (c : WritableContract) (cst : CreateProjectState),
      FormComplete cst.formData → CreateFails c cst.formData →
      (handleCreateProject (some c) cst).1.message =
        ⟨"error", "Error creating project. Please try again."⟩ := by
    intro c cst hform hfail
    rw [(handleCreateProject_failed c cst hform hfail).1]
  refine ⟨hbuy, hcreate, ?_, ?_⟩
  · intro c1 c2 clock1 clock2 st1 st2 q1 q2 h1 h2 hf1 hf2
    rw [hbuy c1 clock1 st1 q1 h1 hf1, hbuy c2 clock2 st2 q2 h2 hf2]
  · intro c1 c2 cst1 cst2 h1 h2 hf1 hf2
    rw [hcreate c1 cst1 h1 hf1, hcreate c2 cst2 h2 hf2]

/-- The reverted accept of `Logo` and the accept of `Logo` without a transport
set the same fixed message; the reverted creation sets the fixed message of
`handleCreateProject` on a contract whose accepts succeed. -/
theorem failure_message_is_fixed_witness :
    (handleBuy (some revertingContract) (fun _ => 0) logoSelected).1.message =
        ⟨"error", "Error accepting project. Please try again."⟩ ∧
      (handleBuy (some revertingContract) (fun _ => 0) logoSelected).1.message =
        (handleBuy (some unavailableContract) (fun _ => 0) logoSelected).1.message ∧
      (handleCreateProject (some createRevertingContract) filledForm).1.message =
        ⟨"error", "Error creating project. Please try again."⟩ :=
  ⟨failure_message_is_fixed.1 revertingContract (fun _ => 0) logoSelected logoEntry rfl
      (acceptFails_reverting _ _),
    failure_message_is_fixed.2.2.1 revertingContract unavailableContract (fun _ => 0)
      (fun _ => 0) logoSelected logoSelected logoEntry logoEntry rfl rfl
      (acceptFails_reverting _ _) (acceptFails_unavailable _ _),
    failure_message_is_fixed.2.1 createRevertingContract filledForm formComplete_filledForm
      createFails_createReverting⟩
/-! ## Builds without a contract, repeated builds, failed builds -/

/-- C24, as stated, fails: without a contract `fetchProjects` changes nothing
and sets no error; from the initial state the message type stays empty. -/
theorem absent_contract_sets_no_error :
    fetchProjects none (fun _ => 0) ViewProjectsState.init = (ViewProjectsState.init, []) ∧
      (fetchProjects none (fun _ => 0) ViewProjectsState.init).1.message.type ≠ "error" := by
  decide

/-- C24, amended. A marketplace build attempted with no ledger connection
returns at once: it issues no read and leaves the whole state, the message
included, as it was; no error state is set.  A successful build over a ledger
with zero records publishes the empty list and clears `loading`; the state
after the build without a contract equals that state exactly when the list
was already empty and `loading` already false. -/
theorem fetchProjects_without_contract (clock : Nat → Int) (st : ViewProjectsState) :
    fetchProjects none clock st = (st, []) ∧
      (fetchProjects (some (Contract.ofLedger [])) clock st).1 =
        { st with projects := [], loading := false } ∧
      ((fetchProjects none clock st).1 =
          (fetchProjects (some (Contract.ofLedger [])) clock st).1 ↔
        st.projects = [] ∧ st.loading = false) := by
  refine ⟨rfl, rfl, ?_⟩
  constructor
  · intro h
    have h1 : st = { st with projects := [], loading := false } := h
    exact ⟨by rw [h1], by rw [h1]⟩
  · rintro ⟨h1, h2⟩
    show st = { st with projects := [], loading := false }
    cases st
    simp only at h1 h2
    subst h1 h2
    rfl

/-- C25. For a fixed ledger, account and clock, running a build twice in
succession gives what running it once gives, state and reads alike, for
`fetchProjects`, `Dashboard.fetchStats` and `Profile.fetchStats`.  Whether a
run of `fetchProjects` publishes a list, and the list it publishes, do not
depend on what was published before: from any two states it either publishes
the empty list in both, or fails in both and leaves each list as it was.  What
`Dashboard.fetchStats` publishes over a healthy ledger does not depend on the
statistics published before. -/
theorem builds_are_idempotent (contract : Option Contract) (c : Contract)
    (ethereum : Option Ethereum) (account : Option Address) (clock : Nat → Int)
    (st : ViewProjectsState) (dstats : DashboardStats) (pstats : ProfileStats) :
    fetchProjects contract clock (fetchProjects contract clock st).1 =
        fetchProjects contract clock st ∧
      Dashboard.fetchStats c account (Dashboard.fetchStats c account dstats).1 =
        Dashboard.fetchStats c account dstats ∧
      Profile.fetchStats ethereum account (Profile.fetchStats ethereum account pstats).1 =
        Profile.fetchStats ethereum account pstats ∧
      (∀ st' : ViewProjectsState,
        ((fetchProjects (some c) clock st).1 = { st with projects := [], loading := false } ∧
          (fetchProjects (some c) clock st').1 =
            { st' with projects := [], loading := false }) ∨
        ((fetchProjects (some c) clock st).1 =
            { st with message := ⟨"error", "Error loading projects"⟩, loading := false } ∧
          (fetchProjects (some c) clock st').1 =
            { st' with message := ⟨"error", "Error loading projects"⟩, loading := false })) ∧
      (∀ (ledger : List Project) (dstats' : DashboardStats),
        (Dashboard.fetchStats (Contract.ofLedger ledger) account dstats).1 =
          (Dashboard.fetchStats (Contract.ofLedger ledger) account dstats').1) := by
  refine ⟨?_, ?_, ?_, ?_, ?_⟩
  · cases contract with
    | none => rfl
    | some c0 =>
      simp only [fetchProjects]
      cases c0.nextProjectId with
      | error e => rfl
      | ok n =>
        dsimp only
        rcases scanProjectsThrowing c0 (fetchProjectsBody clock) n 0 [] with ⟨res, reads⟩
        cases res <;> rfl
  · simp only [Dashboard.fetchStats]
    cases c.nextProjectId with
    | error e => rfl
    | ok n =>
      dsimp only
      rcases scanProjects c (dashboardBody account) n 0 ⟨0, 0, F64.zero⟩ with ⟨res, reads⟩
      cases res <;> rfl
  · cases ethereum with
    | none => rfl
    | some eth =>
      simp only [Profile.fetchStats]
      cases accountMissing account
      · simp only [Bool.false_eq_true, if_false]
        cases eth.getSigner with
        | error e => rfl
        | ok d =>
          dsimp only
          cases d.nextProjectId with
          | error e => rfl
          | ok n =>
            dsimp only
            rcases scanProjects d (profileBody account) n 0 ⟨0, F64.zero⟩ with ⟨res, reads⟩
            cases res <;> rfl
      · rfl
  · intro st'
    simp only [fetchProjects]
    cases c.nextProjectId with
    | error e => exact Or.inr ⟨rfl, rfl⟩
    | ok n =>
      dsimp only
      have hkeep := scanThrowing_keeps_list c clock n 0 []
      rcases hscan : scanProjectsThrowing c (fetchProjectsBody clock) n 0 [] with ⟨res, reads⟩
      rw [hscan] at hkeep
      cases res with
      | error e => exact Or.inr ⟨rfl, rfl⟩
      | ok a =>
        have ha : a = [] := hkeep a rfl
        subst ha
        exact Or.inl ⟨rfl, rfl⟩
  · intro ledger dstats'
    rw [dashboard_fetchStats_ofLedger, dashboard_fetchStats_ofLedger]

/-- C26, as stated, fails: after a failed `Dashboard.fetchStats` and after a
failed `Profile.fetchStats` the state of the component is the state before the
build; the message of `Profile` keeps its empty type. -/
theorem failed_stats_build_leaves_no_flag :
    Dashboard.afterFetchStats failingAtTwo (some "0xA1")
        ⟨none, DashboardStats.init, "overview"⟩ =
        ⟨none, DashboardStats.init, "overview"⟩ ∧
      Profile.afterFetchStats (some ⟨.ok failingAtTwo⟩) (some "0xA1") ProfileState.init =
        ProfileState.init ∧
      (Profile.afterFetchStats (some ⟨.ok failingAtTwo⟩) (some "0xA1")
        ProfileState.init).message.type ≠ "error" := by
  refine ⟨rfl, by decide, by decide⟩

/-- C26, amended. A failed `fetchProjects` leaves an explicit error flag: the
state after it is the state before it with the message `Error loading
projects` of type `error` and with `loading` cleared.  A failed
`Dashboard.fetchStats` leaves the state of the component as it was: the
`Dashboard` has no message state and the failure is only written to the
console. -/
theorem failed_build_flag (c : Contract) (clock : Nat → Int) (st : ViewProjectsState)
    (account : Option Address) (dst : DashboardState) (h : SomeReadFails c) :
    (fetchProjects (some c) clock st).1 =
        { st with message := ⟨"error", "Error loading projects"⟩, loading := false } ∧
      (fetchProjects (some c) clock st).1.message.type = "error" ∧
      Dashboard.afterFetchStats c account dst = dst := by
  have h1 := fetchProjects_failed c clock st h
  refine ⟨h1, by rw [h1], ?_⟩
  rw [Dashboard.afterFetchStats, dashboard_fetchStats_failed c account dst.stats h]

/-- With record `2` unreadable, the marketplace build sets the error flag. -/
theorem failed_build_flag_witness :
    (fetchProjects (some failingAtTwo) (fun _ => 0) ViewProjectsState.init).1.message.type =
      "error" :=
  (failed_build_flag failingAtTwo (fun _ => 0) ViewProjectsState.init (some "0xA1")
    ⟨none, DashboardStats.init, "overview"⟩ someReadFails_failingAtTwo).2.1

/-! ## Filter options and time windows -/

/-- C27. The code at the failing inputs: the options are labelled `Recent
(Last Hour)` and `Today`, yet an entry half an hour old, within the last hour
and less than one day old, is labelled `Just now` and kept by neither
`recent` nor `today`; an entry two hours old is kept by `recent`; an entry two
days old is kept by `today`. -/
theorem filter_windows_disagree_with_labels :
    ("recent", "Recent (Last Hour)") ∈ filterOptions ∧ ("today", "Today") ∈ filterOptions ∧
      (WithinLastHour 1700010000000 (entryAged 1800) ∧
        LessThanOneDayOld 1700010000000 (entryAged 1800) ∧
        (entryAged 1800).timeAgo = "Just now" ∧
        matchesFilter "recent" (entryAged 1800) = false ∧
        matchesFilter "today" (entryAged 1800) = false) ∧
      (¬ WithinLastHour 1700010000000 (entryAged 7200) ∧
        LessThanOneDayOld 1700010000000 (entryAged 7200) ∧
        (entryAged 7200).timeAgo = "2 hours ago" ∧
        matchesFilter "recent" (entryAged 7200) = true ∧
        matchesFilter "today" (entryAged 7200) = false) ∧
      (¬ LessThanOneDayOld 1700010000000 (entryAged 172800) ∧
        (entryAged 172800).timeAgo = "2 days ago" ∧
        matchesFilter "today" (entryAged 172800) = true) := by
  unfold WithinLastHour LessThanOneDayOld ageMs
  decide

/-! ## Creating a project -/

theorem parseEtherLimit_eq : parseEtherLimit = 2 ^ 511 := by
  norm_num [parseEtherLimit]

theorem parseEther_formatEther_cases (a : Nat) :
    parseEther (formatEther a) =
      if (a : Int) < (parseEtherLimit : Int) then .ok (a : Int)
      else .error ⟨"NUMERIC_FAULT", "overflow"⟩ := by
  obtain ⟨W, T, k, hdata, hWd, hWne, hTd, hTne, hk, hWv, hTv⟩ := formatEther_shape a
  obtain ⟨h1, h2⟩ := split_at_point W T hWd
  have hhead : ¬ ((W ++ '.' :: T).head? = some '-') := by
    cases W with
    | nil => exact absurd rfl hWne
    | cons w W =>
      simp only [List.cons_append, List.head?_cons, Option.some.injEq]
      intro hw
      have := hWd w (by simp)
      rw [hw] at this
      exact absurd this (by decide)
  have hall : (W ++ T).all Char.isDigit = true := by
    rw [List.all_eq_true]
    intro c hc
    rcases List.mem_append.mp hc with h | h
    · exact hWd c h
    · exact hTd c h
  have hne : W ++ T ≠ [] := by
    intro hcon
    exact hWne (List.append_eq_nil.mp hcon).1
  have hdrop : T.drop 18 = [] := List.drop_eq_nil_of_le (by omega)
  have htake : T.take 18 = T := List.take_of_length_le (by omega)
  have hpad : digitsValue (padRightZeros 18 T) = digitsValue T * 10 ^ k := by
    rw [padRightZeros, digitsValue_append, digitsValue_replicate_zero, List.length_replicate,
      show 18 - T.length = k by omega]
    simp
  have hval : digitsValue W * 10 ^ 18 + digitsValue (padRightZeros 18 T) = a := by
    rw [hpad, hWv, hTv]
    exact Nat.div_add_mod' a (10 ^ 18)
  have hlow : -(parseEtherLimit : Int) ≤ (a : Int) := by
    have h0 : (0 : Int) ≤ (a : Int) := Int.ofNat_nonneg a
    have h1 : (0 : Int) ≤ (parseEtherLimit : Int) := Int.ofNat_nonneg _
    omega
  simp only [parseEther, hhead, if_false, hdata, h1, h2, hall, hne, ne_eq, not_false_eq_true,
    and_self, if_true, hdrop, htake, List.all_nil, hval, hlow, true_and]

theorem parseEther_formatEther (a : Nat) (h : a < parseEtherLimit) :
    parseEther (formatEther a) = .ok (a : Int) := by
  rw [parseEther_formatEther_cases, if_pos (Int.ofNat_lt.mpr h)]

set_option maxRecDepth 100000 in
/-- C28, as stated, fails: the form is complete, with the amount `1e2`, yet
`handleCreateProject` submits nothing: `parseEther` rejects the amount and the
error message is set.  The same holds of the complete form whose amount is `1`
followed by 160 zeros, which overflows the format of `parseEther`. -/
theorem complete_form_with_exponent_submits_nothing :
    FormComplete exponentForm.formData ∧
      handleCreateProject (some acceptingContract) exponentForm =
        ({ exponentForm with
            message := ⟨"error", "Error creating project. Please try again."⟩ }, []) ∧
      FormComplete hugeForm.formData ∧
      parseEther hugeForm.formData.amount = .error ⟨"NUMERIC_FAULT", "overflow"⟩ ∧
      handleCreateProject (some acceptingContract) hugeForm =
        ({ hugeForm with
            message := ⟨"error", "Error creating project. Please try again."⟩ }, []) := by
  refine ⟨?_, by decide, ?_, by rfl, by decide⟩
  · rw [formComplete_iff]
    decide
  · rw [formComplete_iff]
    decide

/-- C28, amended. `handleCreateProject` submits nothing unless the form is
complete: if the contract is absent it sets `Smart contract not loaded.`, and
if the name or the description is blank or the amount is empty it sets `Please
fill in all required fields.`; in both cases it makes no call and leaves the
form data and `isSubmitting` unchanged.  Otherwise, if `parseEther` accepts the
amount, it submits the name, the description and the parsed amount in wei; if
`parseEther` rejects the amount it makes no call and sets `Error creating
project. Please try again.`.  On the amounts below `2 ^ 511` wei `parseEther`
is the inverse of `formatEther` (an amount of `a / 10^18` ether is submitted as
`a` wei); from `2 ^ 511` wei on it rejects the amount. -/
theorem create_submits_complete_parsable_form (contract : Option WritableContract)
    (st : CreateProjectState) :
    (contract = none →
        handleCreateProject contract st =
          ({ st with message := ⟨"error", "Smart contract not loaded."⟩ }, [])) ∧
      (∀ c, contract = some c → ¬ FormComplete st.formData →
        handleCreateProject contract st =
          ({ st with message := ⟨"error", "Please fill in all required fields."⟩ }, [])) ∧
      (∀ c wei, contract = some c → FormComplete st.formData →
        parseEther st.formData.amount = .ok wei →
        (handleCreateProject contract st).2.head? =
          some (LedgerCall.createProject st.formData.name st.formData.description wei)) ∧
      (∀ c e, contract = some c → FormComplete st.formData →
        parseEther st.formData.amount = .error e →
        handleCreateProject contract st =
          ({ st with
              message := ⟨"error", "Error creating project. Please try again."⟩
              isSubmitting := false }, [])) ∧
      (parseEtherLimit = 2 ^ 511 ∧
        (∀ a : Nat, a < parseEtherLimit → parseEther (formatEther a) = .ok (a : Int)) ∧
        (∀ a : Nat, parseEtherLimit ≤ a →
          parseEther (formatEther a) = .error ⟨"NUMERIC_FAULT", "overflow"⟩)) := by
  refine ⟨?_, ?_, ?_, ?_, parseEtherLimit_eq, parseEther_formatEther, ?_⟩
  · intro h
    rw [h]
    rfl
  · intro c h hform
    rw [formComplete_iff] at hform
    have hguard : (isBlank st.formData.name || isBlank st.formData.description ||
        st.formData.amount == "") = true := by
      cases hb : (isBlank st.formData.name || isBlank st.formData.description ||
        st.formData.amount == "")
      · exact absurd hb hform
      · rfl
    rw [h]
    unfold handleCreateProject
    simp only [hguard, if_true]
  · intro c wei h hform hparse
    have hguard := (formComplete_iff st.formData).mp hform
    rw [h]
    unfold handleCreateProject
    simp only [hguard, hparse]
    cases c.createProject st.formData.name st.formData.description wei with
    | error e => rfl
    | ok tx =>
      dsimp only
      cases tx.wait with
      | error e => rfl
      | ok u => rfl
  · intro c e h hform hparse
    have hguard := (formComplete_iff st.formData).mp hform
    rw [h]
    unfold handleCreateProject
    simp only [hguard, hparse]
    rfl
  · intro a ha
    rw [parseEther_formatEther_cases, if_neg]
    intro hlt
    have := Int.ofNat_lt.mp hlt
    omega

/-- The complete form with the amount `0.1` submits 10 ^ 17 wei. -/
theorem create_submits_complete_parsable_form_witness :
    (handleCreateProject (some acceptingContract) filledForm).2.head? =
      some (LedgerCall.createProject "Logo" "Draw a mark" (10 ^ 17)) :=
  (create_submits_complete_parsable_form (some acceptingContract) filledForm).2.2.1
    acceptingContract (10 ^ 17) rfl formComplete_filledForm (by rfl)

/-! ## The two statistics pages -/

/-- C29. For every ledger and every connected account, `Dashboard.fetchStats`
and `Profile.fetchStats` publish equal values of `totalProjects`,
`completedProjects` and `totalEarnings`. -/
theorem shared_statistics_agree (ledger : List Project) (account : Address)
    (dstats : DashboardStats) (pstats : ProfileStats) (ha : account ≠ "") :
    (Dashboard.fetchStats (Contract.ofLedger ledger) (some account) dstats).1.totalProjects =
        (Profile.fetchStats (some ⟨.ok (Contract.ofLedger ledger)⟩) (some account)
          pstats).1.totalProjects ∧
      (Dashboard.fetchStats (Contract.ofLedger ledger) (some account)
          dstats).1.completedProjects =
        (Profile.fetchStats (some ⟨.ok (Contract.ofLedger ledger)⟩) (some account)
          pstats).1.completedProjects ∧
      (Dashboard.fetchStats (Contract.ofLedger ledger) (some account) dstats).1.totalEarnings =
        (Profile.fetchStats (some ⟨.ok (Contract.ofLedger ledger)⟩) (some account)
          pstats).1.totalEarnings := by
  rw [dashboard_fetchStats_ofLedger,
    profile_fetchStats_ofLedger ledger (some account) pstats (accountMissing_some account ha)]
  exact ⟨rfl, rfl, rfl⟩

/-- On the ledger of 0.1 and 0.2 ether both pages publish two completed
projects. -/
theorem shared_statistics_agree_witness :
    ("0xA1" : Address) ≠ "" ∧
      (Dashboard.fetchStats (Contract.ofLedger tenthAndFifth) (some "0xA1")
          DashboardStats.init).1.completedProjects =
        (Profile.fetchStats (some ⟨.ok (Contract.ofLedger tenthAndFifth)⟩) (some "0xA1")
          ProfileStats.init).1.completedProjects :=
  ⟨by decide, (shared_statistics_agree tenthAndFifth "0xA1" DashboardStats.init
    ProfileStats.init (by decide)).2.1⟩

/-! ## Deadlines in the future -/

theorem tmod_nonpos_of_neg (a b : Int) (ha : a < 0) : Int.tmod a b ≤ 0 := by
  cases a with
  | ofNat n => exact absurd ha (by simp)
  | negSucc n =>
    cases b with
    | ofNat m =>
      show -Int.ofNat (n.succ % m) ≤ 0
      have : (0 : Int) ≤ Int.ofNat (n.succ % m) := Int.ofNat_nonneg _
      omega
    | negSucc m =>
      show -Int.ofNat (n.succ % m.succ) ≤ 0
      have : (0 : Int) ≤ Int.ofNat (n.succ % m.succ) := Int.ofNat_nonneg _
      omega

theorem getTimeAgo_of_future (now timestamp : Int) (h : now < timestamp) :
    getTimeAgo now timestamp = "Just now" := by
  have hneg : now - timestamp < 0 := by omega
  have hd : Int.fdiv (now - timestamp) (1000 * 60 * 60 * 24) = (now - timestamp) / 86400000 := by
    rw [Int.fdiv_eq_ediv _ (by norm_num)]
    norm_num
  have hm := tmod_nonpos_of_neg (now - timestamp) (1000 * 60 * 60 * 24) hneg
  have hh : Int.fdiv (Int.tmod (now - timestamp) (1000 * 60 * 60 * 24)) (1000 * 60 * 60) =
      Int.tmod (now - timestamp) (1000 * 60 * 60 * 24) / 3600000 := by
    rw [Int.fdiv_eq_ediv _ (by norm_num)]
    norm_num
  have h1 : ¬ ((now - timestamp) / 86400000 > 0) := by omega
  have h2 : ¬ (Int.tmod (now - timestamp) (1000 * 60 * 60 * 24) / 3600000 > 0) := by
    generalize Int.tmod (now - timestamp) (1000 * 60 * 60 * 24) = m at hm
    omega
  simp only [getTimeAgo, hd, hh, h1, h2, if_false]

/-- C30. For every timestamp later than `now`, `getTimeAgo` returns `Just
now`, hence never a label with a count; a project carrying this label passes
the filter `all` and fails the filters `recent` and `today`, so the query keeps
it under `all` (with the empty search term) and drops it under `recent` and
under `today`. -/
theorem future_deadline_is_just_now (now timestamp : Int) (h : now < timestamp) :
    getTimeAgo now timestamp = "Just now" ∧
      (∀ p : ListedProject, p.timeAgo = getTimeAgo now timestamp →
        matchesFilter "all" p = true ∧ matchesFilter "recent" p = false ∧
          matchesFilter "today" p = false) ∧
      (∀ (js : CaseTables) (st : ViewProjectsState) (p : ListedProject),
        p.timeAgo = getTimeAgo now timestamp →
        (st.filterBy = "recent" ∨ st.filterBy = "today") →
        p ∉ filteredAndSortedProjects js st) ∧
      (∀ (js : CaseTables) (st : ViewProjectsState) (p : ListedProject),
        p.timeAgo = getTimeAgo now timestamp → st.filterBy = "all" →
        st.searchTerm = "" → p ∈ st.projects → p ∈ filteredAndSortedProjects js st) := by
  have hlabel := getTimeAgo_of_future now timestamp h
  have hfilter : ∀ p : ListedProject, p.timeAgo = getTimeAgo now timestamp →
      matchesFilter "all" p = true ∧ matchesFilter "recent" p = false ∧
        matchesFilter "today" p = false := by
    intro p hp
    rw [hlabel] at hp
    simp only [matchesFilter, hp]
    decide
  refine ⟨hlabel, hfilter, ?_, ?_⟩
  · intro js st p hp hfb hmem
    have hm := ((mem_filteredAndSortedProjects js st p).mp hmem).2.2
    obtain ⟨-, h2, h3⟩ := hfilter p hp
    rcases hfb with hf | hf <;> rw [hf] at hm
    · rw [h2] at hm; exact absurd hm (by decide)
    · rw [h3] at hm; exact absurd hm (by decide)
  · intro js st p hp hall hterm hmem
    rw [mem_filteredAndSortedProjects]
    refine ⟨hmem, ?_, ?_⟩
    · rw [hterm]
      exact matchesSearch_empty js p
    · rw [hall]
      exact (hfilter p hp).1

/-- A deadline one hour ahead of the clock is labelled `Just now`. -/
theorem future_deadline_is_just_now_witness :
    (0 : Int) < 3600000 ∧ getTimeAgo 0 3600000 = "Just now" :=
  ⟨by decide, (future_deadline_is_just_now 0 3600000 (by decide)).1⟩

end FreelanceDAO
